import Mathlib

/-! MikroClaw installer: the encrypted configuration store, the configuration
codec and the preflight engine.

A shallow embedding of `installer-go/pkg/config/crypto.go`, of `ExpandEnv`,
`Validate`, `LoadConfig` and `SaveConfigEncrypted` from
`installer-go/pkg/config/config.go`, of `installer-go/pkg/preflight/checker.go`
and of the display of the results in `installer-go/cmd/mikroclaw-install/main.go`.

Go strings and byte slices are lists of bytes.  The Go standard library's
`encoding/base64` (`StdEncoding`) is modelled concretely; the two cryptographic
primitives the package imports (`argon2.IDKey` and the ChaCha20-Poly1305 AEAD)
are parameters of the development, gathered in the structure `Crypto`; what is
assumed of them is always an explicit hypothesis of a theorem.  A `float64` is
its exact value, counted in units of `2^-1074`.
-/

namespace MikroClaw

/-- A byte of a Go `string` or `[]byte`. -/
abbrev Byte := Fin 256

/-- The bytes of an ASCII string literal. -/
def ascii (s : String) : List Byte := s.toList.map (fun c => Fin.ofNat c.toNat)

/-! ## `encoding/base64`, `StdEncoding` -/

namespace base64

/-- The standard alphabet `A-Z a-z 0-9 + /`, indexed by a six-bit value. -/
def encodeStd (n : Nat) : Byte :=
  if n < 26 then Fin.ofNat (65 + n)
  else if n < 52 then Fin.ofNat (97 + (n - 26))
  else if n < 62 then Fin.ofNat (48 + (n - 52))
  else if n = 62 then 43
  else 47

/-- The padding character `=`. -/
def padChar : Byte := 61

/-- The decoder's table: the six-bit value of an alphabet byte, `none` where Go
stores `0xff`. -/
def decodeMap (c : Byte) : Option Nat :=
  if 65 ≤ c.val ∧ c.val ≤ 90 then some (c.val - 65)
  else if 97 ≤ c.val ∧ c.val ≤ 122 then some (c.val - 97 + 26)
  else if 48 ≤ c.val ∧ c.val ≤ 57 then some (c.val - 48 + 52)
  else if c.val = 43 then some 62
  else if c.val = 47 then some 63
  else none

/-- `Encoding.Encode`: three bytes give four alphabet characters; a final group
of one or two bytes is padded with `=`. -/
def EncodeToString : List Byte → List Byte
  | [] => []
  | [a] =>
    let val := a.val * 65536
    [encodeStd (val / 262144 % 64), encodeStd (val / 4096 % 64), padChar, padChar]
  | [a, b] =>
    let val := a.val * 65536 + b.val * 256
    [encodeStd (val / 262144 % 64), encodeStd (val / 4096 % 64),
      encodeStd (val / 64 % 64), padChar]
  | a :: b :: c :: rest =>
    let val := a.val * 65536 + b.val * 256 + c.val
    encodeStd (val / 262144 % 64) :: encodeStd (val / 4096 % 64) ::
      encodeStd (val / 64 % 64) :: encodeStd (val % 64) :: EncodeToString rest

/-- Carriage return and line feed, which the decoder skips. -/
def isNewline (c : Byte) : Bool := c.val = 10 || c.val = 13

/-- The decoder's `for si < len(src) && (src[si] == '\n' || src[si] == '\r')`
loop: the input left and the offset reached. -/
def skipNewlines : List Byte → Nat → List Byte × Nat
  | [], si => ([], si)
  | c :: rest, si => if isNewline c then skipNewlines rest (si + 1) else (c :: rest, si)

/-- The bytes of one quantum: `dbuf` holds the six-bit values read (missing ones
are zero), and `len dbuf - 1` bytes come out.  `StdEncoding` is not strict: the
unused low bits of a padded quantum are not checked. -/
def quantumBytes (dbuf : List Nat) : List Byte :=
  let val := dbuf.getD 0 0 * 262144 + dbuf.getD 1 0 * 4096 + dbuf.getD 2 0 * 64 + dbuf.getD 3 0
  ([val / 65536 % 256, val / 256 % 256, val % 256].map Fin.ofNat).take (dbuf.length - 1)

/-- What `decodeQuantum` does once it has read a `=` at a place where `dbuf`
holds `j` values; `rest` and `si` are the input and offset after that `=`.
The error is the offset of a `CorruptInputError`. -/
def decodePadding (dbuf : List Nat) (rest : List Byte) (si : Nat) (out : List Byte) :
    Except Nat (List Byte) :=
  if dbuf.length < 2 then .error (si - 1)
  else if dbuf.length = 2 then
    match skipNewlines rest si with
    | ([], si2) => .error si2
    | (c :: rest2, si2) =>
      if c ≠ padChar then .error (si2 - 1)
      else
        match skipNewlines rest2 (si2 + 1) with
        | ([], _) => .ok (out ++ quantumBytes dbuf)
        | (_ :: _, si4) => .error si4
  else
    match skipNewlines rest si with
    | ([], _) => .ok (out ++ quantumBytes dbuf)
    | (_ :: _, si4) => .error si4

/-- `Encoding.Decode`, quantum after quantum: `src` is the input left, `si` its
offset, `dbuf` the six-bit values of the quantum being read and `out` the bytes
decoded so far.  The error is the offset of a `CorruptInputError`. -/
def decodeLoop : List Byte → Nat → List Nat → List Byte → Except Nat (List Byte)
  | [], si, dbuf, out => if dbuf.length = 0 then .ok out else .error (si - dbuf.length)
  | c :: rest, si, dbuf, out =>
    match decodeMap c with
    | some v =>
      if dbuf.length = 3 then decodeLoop rest (si + 1) [] (out ++ quantumBytes (dbuf ++ [v]))
      else decodeLoop rest (si + 1) (dbuf ++ [v]) out
    | none =>
      if isNewline c then decodeLoop rest (si + 1) dbuf out
      else if c ≠ padChar then .error si
      else decodePadding dbuf rest (si + 1) out

/-- The bytes the decoder does not stop at: the alphabet, `=`, and the line
breaks it skips. -/
def accepted (c : Byte) : Bool := (decodeMap c).isSome || isNewline c || c = padChar

/-- `StdEncoding.DecodeString`. -/
def DecodeString (s : List Byte) : Except Nat (List Byte) := decodeLoop s 0 [] []

end base64

/-! ## The cryptographic primitives -/

/-- The imported primitives: `argon2.IDKey(password, salt, time, memory, threads,
keyLen)` and the `Seal` and `Open` of the ChaCha20-Poly1305 AEAD
(`key, nonce, text, additionalData`; `Seal` returns ciphertext and tag, `Open`
returns `none` for its one error, "message authentication failed"). -/
structure Crypto where
  IDKey : List Byte → List Byte → Nat → Nat → Nat → Nat → List Byte
  Seal : List Byte → List Byte → List Byte → List Byte → List Byte
  Open : List Byte → List Byte → List Byte → List Byte → Option (List Byte)

/-- `chacha20poly1305.KeySize`. -/
def KeySize : Nat := 32

/-- `chacha20poly1305.NonceSize`, what `aead.NonceSize()` returns. -/
def NonceSize : Nat := 12

/-- `chacha20poly1305.Overhead`, the length of the tag. -/
def Overhead : Nat := 16

/-- `chacha20poly1305.New`: the cipher for a key, an error for a key that is not
`KeySize` bytes long. -/
def New (key : List Byte) : Option (List Byte) :=
  if key.length ≠ KeySize then none else some key

/-- `io.ReadFull(rand.Reader, buf)` for a buffer of `n` bytes: the random source
is the list of bytes it still yields, and it fails when it runs dry. -/
def ReadFull (rand : List Byte) (n : Nat) : Option (List Byte × List Byte) :=
  if rand.length < n then none else some (rand.take n, rand.drop n)

/-! ## `crypto.go` -/

/-- `argon2Time`: the number of passes. -/
def argon2Time : Nat := 3

/-- `argon2Memory`: the memory cost in KiB. -/
def argon2Memory : Nat := 64 * 1024

/-- `argon2Threads`: the degree of parallelism. -/
def argon2Threads : Nat := 4

/-- `argon2KeyLen`: the length of the derived key. -/
def argon2KeyLen : Nat := 32

/-- The errors of `EncryptConfig` and `DecryptConfig`, one constructor for each
`fmt.Errorf`; a wrapped `base64.CorruptInputError` keeps its offset. -/
inductive ConfigError
  | generatingSalt
  | creatingCipher
  | generatingNonce
  | invalidFormat
  | decodingSalt (offset : Nat)
  | decodingCiphertext (offset : Nat)
  | ciphertextTooShort
  | decrypting
  deriving DecidableEq, Repr

deriving instance DecidableEq for Except

/-- `deriveKey`. -/
def deriveKey (C : Crypto) (password : List Byte) (salt : List Byte) : List Byte :=
  C.IDKey password salt argon2Time argon2Memory argon2Threads argon2KeyLen

/-- The loop of `splitString`: `i` is the loop index and the list argument is
`s[i:]`, the bytes not yet visited. -/
def splitLoop (s : List Byte) (sep : Byte) : Nat → List Byte → List (List Byte)
  | _, [] => [s]
  | i, c :: rest => if c = sep then [s.take i, s.drop (i + 1)] else splitLoop s sep (i + 1) rest

/-- `splitString`: splits on the first occurrence of `sep`. -/
def splitString (s : List Byte) (sep : Byte) : List (List Byte) :=
  splitLoop s sep 0 s

/-- `EncryptConfig`, reading salt and nonce from the random source `rand`. -/
def EncryptConfig (C : Crypto) (rand : List Byte) (plaintext : List Byte)
    (password : List Byte) : Except ConfigError (List Byte) :=
  match ReadFull rand 16 with
  | none => .error .generatingSalt
  | some (salt, rand1) =>
    let key := deriveKey C password salt
    match New key with
    | none => .error .creatingCipher
    | some aead =>
      match ReadFull rand1 NonceSize with
      | none => .error .generatingNonce
      | some (nonce, _) =>
        let ciphertext := nonce ++ C.Seal aead nonce plaintext []
        .ok (base64.EncodeToString salt ++ ascii ":" ++ base64.EncodeToString ciphertext)

/-- `DecryptConfig`. -/
def DecryptConfig (C : Crypto) (encrypted : List Byte) (password : List Byte) :
    Except ConfigError (List Byte) :=
  match splitString encrypted 58 with
  | [part0, part1] =>
    match base64.DecodeString part0 with
    | .error e => .error (.decodingSalt e)
    | .ok salt =>
      match base64.DecodeString part1 with
      | .error e => .error (.decodingCiphertext e)
      | .ok ciphertext =>
        let key := deriveKey C password salt
        match New key with
        | none => .error .creatingCipher
        | some aead =>
          if ciphertext.length < NonceSize then .error .ciphertextTooShort
          else
            match C.Open aead (ciphertext.take NonceSize) (ciphertext.drop NonceSize) [] with
            | none => .error .decrypting
            | some plaintext => .ok plaintext
  | _ => .error .invalidFormat

/-- `IsEncrypted`. -/
def IsEncrypted (data : List Byte) : Bool :=
  match splitString data 58 with
  | [part0, part1] =>
    match base64.DecodeString part0 with
    | .error _ => false
    | .ok _ =>
      match base64.DecodeString part1 with
      | .error _ => false
      | .ok _ => true
  | _ => false

/-! ## What is assumed of the primitives, and an instance of them -/

/-- `argon2.IDKey` returns `keyLen` bytes. -/
def Crypto.KeyLen (C : Crypto) : Prop :=
  ∀ (password salt : List Byte) (time memory threads keyLen : Nat),
    (C.IDKey password salt time memory threads keyLen).length = keyLen

/-- The AEAD is correct: under a key of `KeySize` bytes and a nonce of
`NonceSize` bytes, `Open` returns what `Seal` sealed. -/
def Crypto.OpenInvertsSeal (C : Crypto) : Prop :=
  ∀ (key nonce plaintext : List Byte), key.length = KeySize → nonce.length = NonceSize →
    C.Open key nonce (C.Seal key nonce plaintext []) [] = some plaintext

/-- Under a key of `KeySize` bytes and a nonce of `NonceSize` bytes, `Seal`
returns a ciphertext as long as the plaintext followed by a tag of `Overhead`
bytes. -/
def Crypto.SealLen (C : Crypto) : Prop :=
  ∀ (key nonce plaintext : List Byte), key.length = KeySize → nonce.length = NonceSize →
    (C.Seal key nonce plaintext []).length = plaintext.length + Overhead

/-- The list with bit `i % 8` of its byte `i / 8` flipped. -/
def flipBit : List Byte → Nat → List Byte
  | [], _ => []
  | b :: rest, i =>
    if i < 8 then Fin.ofNat (b.val ^^^ 2 ^ i) :: rest else b :: flipBit rest (i - 8)

/-- A key derivation to run the development on: the first `keyLen` bytes of
password, salt and zero padding. -/
def sampleIDKey (password salt : List Byte) (_time _memory _threads keyLen : Nat) : List Byte :=
  (password ++ salt ++ List.replicate keyLen 0).take keyLen

/-- The tag of the sample AEAD: fifteen zero bytes and the sum of all key, nonce
and text bytes modulo 256. -/
def sampleTag (key nonce text : List Byte) : List Byte :=
  List.replicate 15 0 ++ [Fin.ofNat ((key ++ nonce ++ text).foldl (fun s b => s + b.val) 0)]

/-- The sample AEAD's `Seal`: the text followed by its tag. -/
def sampleSeal (key nonce plaintext _ad : List Byte) : List Byte :=
  plaintext ++ sampleTag key nonce plaintext

/-- The sample AEAD's `Open`: fails on less than a tag and on a wrong tag. -/
def sampleOpen (key nonce ciphertext _ad : List Byte) : Option (List Byte) :=
  if ciphertext.length < Overhead then none
  else if ciphertext.drop (ciphertext.length - Overhead)
      = sampleTag key nonce (ciphertext.take (ciphertext.length - Overhead))
    then some (ciphertext.take (ciphertext.length - Overhead))
  else none

/-- An instance of the primitives that satisfies `KeyLen`, `OpenInvertsSeal` and
`SealLen`; it stands in for Argon2id and ChaCha20-Poly1305 where a theorem is
run on concrete bytes. -/
def sampleCrypto : Crypto := ⟨sampleIDKey, sampleSeal, sampleOpen⟩

/-- A 16-byte salt to run the development on. -/
def sampleSalt : List Byte := (List.range 16).map (fun i => Fin.ofNat (i + 1))

/-- A 12-byte nonce to run the development on. -/
def sampleNonce : List Byte := (List.range 12).map (fun i => Fin.ofNat (i + 101))

/-! ## `ExpandEnv` of `config.go` -/

/-- The process environment: the value of each variable that is set. -/
abbrev Env := List Byte → Option (List Byte)

/-- `os.Getenv`: the value of the variable, empty when it is not set. -/
def Getenv (env : Env) (key : List Byte) : List Byte := (env key).getD []

/-- `strings.Index(content, ":-")` together with the two slices taken at it:
`content[:idx]` and `content[idx+2:]`, or `none` when the index is `-1`. -/
def cutDefault : List Byte → Option (List Byte × List Byte)
  | [] => none
  | c :: rest =>
    if c = 58 ∧ rest.head? = some 45 then some ([], rest.tail)
    else (cutDefault rest).map (fun p => (c :: p.1, p.2))

/-- The function `ExpandEnv` hands to `ReplaceAllStringFunc`, applied to the
match `${content}`. -/
def replaceMatch (env : Env) (content : List Byte) : List Byte :=
  match cutDefault content with
  | some (varName, defaultValue) =>
    if Getenv env varName ≠ [] then Getenv env varName else defaultValue
  | none =>
    if Getenv env content ≠ [] then Getenv env content
    else ascii "$\x7b" ++ content ++ ascii "\x7d"

/-- The run `[^}]+\}` of the pattern: the bytes before the first `}` and the
input after it; `none` when there is no `}`. -/
def scanToken : List Byte → Option (List Byte × List Byte)
  | [] => none
  | c :: rest =>
    if c = 125 then some ([], rest)
    else (scanToken rest).map (fun p => (c :: p.1, p.2))

/-- A match of the pattern `\$\{([^}]+)\}` at the start of the input: the
captured content and the input after the match. -/
def matchToken : List Byte → Option (List Byte × List Byte)
  | 36 :: 123 :: rest =>
    match scanToken rest with
    | some (content, after) => if content = [] then none else some (content, after)
    | none => none
  | _ => none

/-- `re.ReplaceAllStringFunc(input, f)` for the pattern of `ExpandEnv`: the
leftmost match is replaced and the scan goes on after it; a byte at which no
match starts is copied.  Every step shortens the input, so `fuel` above its
length is never used up. -/
def expandLoop (env : Env) : Nat → List Byte → List Byte
  | 0, _ => []
  | _ + 1, [] => []
  | fuel + 1, c :: rest =>
    match matchToken (c :: rest) with
    | some (content, after) => replaceMatch env content ++ expandLoop env fuel after
    | none => c :: expandLoop env fuel rest

/-- `ExpandEnv`. -/
def ExpandEnv (env : Env) (input : List Byte) : List Byte :=
  expandLoop env (input.length + 1) input


/-- An environment to run `ExpandEnv` on: `A=1`, `C=3`, `E` set to the empty
string, and nothing else set. -/
def sampleEnv : Env := fun key =>
  if key = ascii "A" then some (ascii "1")
  else if key = ascii "C" then some (ascii "3")
  else if key = ascii "E" then some []
  else none

/-- An environment whose value for `A` is itself a token: `A=${B}`, `B=1`. -/
def nestedEnv : Env := fun key =>
  if key = ascii "A" then some (ascii "$\x7bB\x7d")
  else if key = ascii "B" then some (ascii "1")
  else none

/-! ## `float64` -/

namespace Float64

/-- The number of units in `1.0`: a finite non-negative `float64` is a whole
number of units of `2^-1074`, the smallest positive value, and is given here by
that number. -/
def one : Nat := 2 ^ 1074

/-- The whole number nearest to `n / d`, the even one of two equally near. -/
def roundNearestEven (n d : Nat) : Nat :=
  if 2 * (n % d) < d then n / d
  else if d < 2 * (n % d) then n / d + 1
  else if (n / d) % 2 = 0 then n / d else n / d + 1

/-- The exponent `e` of the power of two at or below `n`, `2^e ≤ n < 2^(e+1)`,
for `1 ≤ n < 2^4096`: found bit by bit from the top.  Every finite `float64`
is below `2^2098` units, and the exact sums and scaled quotients that are
rounded here are below `2^4096`. -/
def log2 (n : Nat) : Nat :=
  [2048, 1024, 512, 256, 128, 64, 32, 16, 8, 4, 2, 1].foldl
    (fun e k => if 2 ^ (e + k) ≤ n then e + k else e) 0

/-- IEEE 754 round-to-nearest-even to binary64 of the value `n / d` units.
Below `2^53` units the spacing of the format is one unit; from there on the
53-bit significand is kept, so the spacing is `2^(e-52)` where `2^e` is the
power of two at or below the value.  Overflow to infinity is out of range
here: every value of this development is below `2^64`. -/
def round (n d : Nat) : Nat :=
  if n / d < 2 ^ 53 then roundNearestEven n d
  else roundNearestEven n (d * 2 ^ (log2 (n / d) - 52)) * 2 ^ (log2 (n / d) - 52)

/-- The conversion `float64(i)` of a non-negative integer. -/
def ofInt (i : Nat) : Nat := round (i * one) 1

/-- A decimal constant `n / d` of the source, such as `7.14 = 714 / 100`. -/
def lit (n d : Nat) : Nat := round (n * one) d

/-- The sum `a + b`. -/
def add (a b : Nat) : Nat := round (a + b) 1

/-- The quotient `a / b`. -/
def div (a b : Nat) : Nat := round (a * one) b

/-- `fmt.Sprintf("%.2f", v)`: the exact value rounded to two decimals, the even
one of two equally near. -/
def format2 (v : Nat) : List Byte :=
  let cents := roundNearestEven (v * 100) one
  ((Nat.toDigits 10 (cents / 100)).map (fun c => Fin.ofNat c.toNat)) ++ [46] ++
    ((Nat.toDigits 10 (cents % 100 / 10)).map (fun c => Fin.ofNat c.toNat)) ++
    ((Nat.toDigits 10 (cents % 10)).map (fun c => Fin.ofNat c.toNat))

end Float64

/-! ## `checker.go` -/

/-- `\d` of the pattern: an ASCII digit. -/
def isDigit (c : Byte) : Bool := decide (48 ≤ c.val) && decide (c.val ≤ 57)

/-- The run `\d+` at the start of the input, as long as it can be, and the
input after it; the run is empty when the input does not start with a digit. -/
def spanDigits : List Byte → List Byte × List Byte
  | [] => ([], [])
  | c :: rest =>
    if isDigit c then (c :: (spanDigits rest).1, (spanDigits rest).2) else ([], c :: rest)

/-- A match of `(\d+)\.(\d+)` at the start of the input: the two groups. -/
def matchVersion (s : List Byte) : Option (List Byte × List Byte) :=
  match spanDigits s with
  | ([], _) => none
  | (major, 46 :: rest) =>
    match spanDigits rest with
    | ([], _) => none
    | (minor, _) => some (major, minor)
  | _ => none

/-- `re.FindStringSubmatch(version)` for the pattern `(\d+)\.(\d+)`: the
leftmost match followed by its two groups, and the empty list (Go's `nil`)
when there is no match. -/
def FindStringSubmatch : List Byte → List (List Byte)
  | [] => []
  | c :: rest =>
    match matchVersion (c :: rest) with
    | some (major, minor) => [major ++ [46] ++ minor, major, minor]
    | none => FindStringSubmatch rest

/-- The value of a run of decimal digits. -/
def decimalValue (tok : List Byte) : Nat := tok.foldl (fun n c => 10 * n + (c.val - 48)) 0

/-- `strconv.ParseInt(tok, 10, 64)` on a run of digits, as `%d` calls it for an
`int` of 64 bits: `none` for the error of a value above `2^63 - 1`. -/
def ParseInt (tok : List Byte) : Option Nat :=
  if decimalValue tok ≤ 2 ^ 63 - 1 then some (decimalValue tok) else none

/-- `fmt.Sscanf(input, "%d.%d", &major, &minor)` on an input that starts with a
digit (a match of the pattern has no sign and no space): `none` when it
returns an error. -/
def Sscanf (input : List Byte) : Option (Nat × Nat) :=
  match spanDigits input with
  | ([], _) => none
  | (tok1, 46 :: rest) =>
    match ParseInt tok1 with
    | none => none
    | some major =>
      match spanDigits rest with
      | ([], _) => none
      | (tok2, _) =>
        match ParseInt tok2 with
        | none => none
        | some minor => some (major, minor)
  | _ => none

/-- `parseVersion`; the result is a `float64`, in units of `2^-1074`. -/
def parseVersion (version : List Byte) : Nat :=
  if (FindStringSubmatch version).length ≥ 2 then
    match Sscanf ((FindStringSubmatch version).getD 0 []) with
    | none => 0
    | some (major, minor) =>
      Float64.add (Float64.ofInt major) (Float64.div (Float64.ofInt minor) (Float64.lit 100 1))
  else 0

/-- A value of the `Details` map of a `CheckResult`. -/
inductive DetailValue
  | str (s : List Byte)
  | int (n : Nat)
  deriving DecidableEq, Repr

/-- `CheckResult`, without its `Timestamp` (the wall clock is not modelled and
nothing reads the field); the map `Details` is the list of its entries. -/
structure CheckResult where
  Name : List Byte
  Passed : Bool
  Warning : Bool
  Message : List Byte
  Details : List (List Byte × DetailValue)
  deriving DecidableEq, Repr

/-- A call to the device-fact provider. -/
inductive Call
  | GetVersion
  | GetArchitecture
  | GetContainerConfig
  | GetVETHInterfaces
  deriving DecidableEq, Repr

/-- `RouterOSClient`, the methods the checks call.  An answer is the returned
value or the text of the returned error, and may depend on the calls made
before it. -/
structure RouterOSClient where
  GetVersion : List Call → Except (List Byte) (List Byte)
  GetArchitecture : List Call → Except (List Byte) (List Byte)
  GetContainerConfig : List Call → Except (List Byte) (List (List Byte × List Byte))
  GetVETHInterfaces : List Call → Except (List Byte) (List (List Byte))

/-- `Checker`; `calls` records the calls its checks have made to the client, in
order. -/
structure Checker where
  client : RouterOSClient
  results : List CheckResult
  calls : List Call

/-- `NewChecker`. -/
def NewChecker (client : RouterOSClient) : Checker :=
  { client := client, results := [], calls := [] }

/-- `fmt.Sprintf("%d", n)` for a length. -/
def formatInt (n : Nat) : List Byte := (Nat.toDigits 10 n).map (fun c => Fin.ofNat c.toNat)

/-- `checkRouterOSVersion`: the result, and the checker after the call to the
client. -/
def checkRouterOSVersion (c : Checker) : CheckResult × Checker :=
  let c1 := { c with calls := c.calls ++ [Call.GetVersion] }
  match c.client.GetVersion c.calls with
  | .error err =>
    ({ Name := ascii "RouterOS Version", Passed := false, Warning := false,
       Message := ascii "Failed to get RouterOS version: " ++ err, Details := [] }, c1)
  | .ok version =>
    let details := [(ascii "version", DetailValue.str version)]
    let versionNum := parseVersion version
    if Float64.lit 714 100 ≤ versionNum ∧ versionNum ≤ Float64.lit 715 100 then
      ({ Name := ascii "RouterOS Version", Passed := false, Warning := false,
         Message := ascii "RouterOS v" ++ Float64.format2 versionNum ++
           ascii " has critical container bugs. Upgrade to v7.16+ or downgrade to v7.13",
         Details := details }, c1)
    else if Float64.lit 720 100 ≤ versionNum ∧ versionNum ≤ Float64.lit 721 100 then
      ({ Name := ascii "RouterOS Version", Passed := true, Warning := true,
         Message := ascii "RouterOS v" ++ Float64.format2 versionNum ++
           ascii " has VETH breaking changes. Manual configuration may be required.",
         Details := details }, c1)
    else if Float64.lit 716 100 ≤ versionNum ∧ versionNum < Float64.lit 720 100 then
      ({ Name := ascii "RouterOS Version", Passed := true, Warning := false,
         Message := ascii "RouterOS v" ++ Float64.format2 versionNum ++
           ascii " is stable for containers",
         Details := details }, c1)
    else if Float64.lit 640 100 ≤ versionNum then
      ({ Name := ascii "RouterOS Version", Passed := true, Warning := false,
         Message := ascii "RouterOS v" ++ Float64.format2 versionNum ++
           ascii " supports containers (REST API)",
         Details := details }, c1)
    else
      ({ Name := ascii "RouterOS Version", Passed := false, Warning := false,
         Message := ascii "RouterOS v" ++ Float64.format2 versionNum ++
           ascii " may not support containers. Minimum recommended: v6.40",
         Details := details }, c1)

/-- `strings.ToLower` on ASCII letters.  Go maps the runes of a text with a
byte above 127 by the Unicode tables; such a text never lowers to one of the
case labels of `checkArchitecture` (the two runes that lower into ASCII give
`k` and `i`), so the status is the same. -/
def ToLower (s : List Byte) : List Byte :=
  s.map (fun c => if 65 ≤ c.val ∧ c.val ≤ 90 then Fin.ofNat (c.val + 32) else c)

/-- `checkArchitecture`. -/
def checkArchitecture (c : Checker) : CheckResult × Checker :=
  let c1 := { c with calls := c.calls ++ [Call.GetArchitecture] }
  match c.client.GetArchitecture c.calls with
  | .error err =>
    ({ Name := ascii "Architecture", Passed := false, Warning := false,
       Message := ascii "Failed to get architecture: " ++ err, Details := [] }, c1)
  | .ok arch =>
    let details := [(ascii "architecture", DetailValue.str arch)]
    if ToLower arch = ascii "arm64" then
      ({ Name := ascii "Architecture", Passed := true, Warning := false,
         Message := ascii "ARM64 architecture - Full container support",
         Details := details }, c1)
    else if ToLower arch = ascii "x86_64" ∨ ToLower arch = ascii "amd64" then
      ({ Name := ascii "Architecture", Passed := true, Warning := true,
         Message := ascii "x86_64 architecture - CHR detected. CHR does not support containers!",
         Details := details }, c1)
    else if ToLower arch = ascii "arm" then
      ({ Name := ascii "Architecture", Passed := true, Warning := true,
         Message := ascii "ARM32 architecture - Limited to ARMv5 containers",
         Details := details }, c1)
    else
      ({ Name := ascii "Architecture", Passed := false, Warning := false,
         Message := ascii "Architecture \x27" ++ arch ++ ascii "\x27 may not support containers",
         Details := details }, c1)

/-- `config[key]` with its `ok`: the value of the first entry with the key. -/
def mapLookup (config : List (List Byte × List Byte)) (key : List Byte) : Option (List Byte) :=
  (config.find? (fun kv => kv.1 = key)).map (fun kv => kv.2)

/-- `checkContainerRuntime`. -/
def checkContainerRuntime (c : Checker) : CheckResult × Checker :=
  let c1 := { c with calls := c.calls ++ [Call.GetContainerConfig] }
  match c.client.GetContainerConfig c.calls with
  | .error err =>
    ({ Name := ascii "Container Runtime", Passed := false, Warning := false,
       Message := ascii "Failed to get container config: " ++ err, Details := [] }, c1)
  | .ok config =>
    let details := config.map (fun kv => (kv.1, DetailValue.str kv.2))
    if mapLookup config (ascii "enabled") ≠ some (ascii "true") then
      ({ Name := ascii "Container Runtime", Passed := false, Warning := false,
         Message :=
           ascii "Container runtime is not enabled. Run: /container/config/set enabled=yes",
         Details := details }, c1)
    else
      match mapLookup config (ascii "registry-url") with
      | some registry =>
        if registry ≠ [] then
          ({ Name := ascii "Container Runtime", Passed := true, Warning := false,
             Message := ascii "Container runtime is enabled",
             Details := details ++ [(ascii "registry", DetailValue.str registry)] }, c1)
        else
          ({ Name := ascii "Container Runtime", Passed := true, Warning := false,
             Message := ascii "Container runtime is enabled", Details := details }, c1)
      | none =>
        ({ Name := ascii "Container Runtime", Passed := true, Warning := false,
           Message := ascii "Container runtime is enabled", Details := details }, c1)

/-- `checkVETHConfiguration`. -/
def checkVETHConfiguration (c : Checker) : CheckResult × Checker :=
  let c1 := { c with calls := c.calls ++ [Call.GetVETHInterfaces] }
  match c.client.GetVETHInterfaces c.calls with
  | .error err =>
    ({ Name := ascii "VETH Configuration", Passed := false, Warning := false,
       Message := ascii "Failed to get VETH interfaces: " ++ err, Details := [] }, c1)
  | .ok veths =>
    let details := [(ascii "veth_count", DetailValue.int veths.length)]
    if veths.length = 0 then
      ({ Name := ascii "VETH Configuration", Passed := true, Warning := true,
         Message := ascii ("No VETH interfaces found. For RouterOS v7.20+, VETH configuration " ++
           "is required for container networking."),
         Details := details }, c1)
    else
      ({ Name := ascii "VETH Configuration", Passed := true, Warning := false,
         Message := ascii "Found " ++ formatInt veths.length ++ ascii " VETH interface(s)",
         Details := details }, c1)

/-- `checkResources`: makes no call. -/
def checkResources (c : Checker) : CheckResult × Checker :=
  ({ Name := ascii "Resources", Passed := true, Warning := false,
     Message := ascii "Resource check skipped (manual verification recommended)",
     Details := [] }, c)

/-- The slice `checks` of `RunAllChecks`. -/
def checks : List (Checker → CheckResult × Checker) :=
  [checkRouterOSVersion, checkArchitecture, checkContainerRuntime, checkVETHConfiguration,
    checkResources]

/-- One turn of the loop of `RunAllChecks`: the check is run and its result is
appended to `results`. -/
def runCheck (check : Checker → CheckResult × Checker) (c : Checker) : CheckResult × Checker :=
  ((check c).1, { (check c).2 with results := (check c).2.results ++ [(check c).1] })

/-- The loop of `RunAllChecks` over the checks still to run: a result that is
neither passed nor a warning breaks the loop. -/
def runLoop : List (Checker → CheckResult × Checker) → Checker → Checker
  | [], c => c
  | check :: rest, c =>
    if !(runCheck check c).1.Passed && !(runCheck check c).1.Warning then (runCheck check c).2
    else runLoop rest (runCheck check c).2

/-- `RunAllChecks`: the returned slice, which is `results`, and the checker
after the run. -/
def RunAllChecks (c : Checker) : List CheckResult × Checker :=
  ((runLoop checks c).results, runLoop checks c)

/-- `HasFailures`. -/
def HasFailures (c : Checker) : Bool :=
  c.results.any (fun r => !r.Passed && !r.Warning)

/-- `HasWarnings`. -/
def HasWarnings (c : Checker) : Bool :=
  c.results.any (fun r => r.Warning)

/-! ## Notions the claims on `checker.go` are stated with -/

/-- A non-empty run of digits. -/
def IsDigits (l : List Byte) : Prop := l ≠ [] ∧ ∀ c ∈ l, isDigit c = true

/-- The pattern `(\d+)\.(\d+)` has a match that starts at the start of `t`. -/
def HasMatchAtStart (t : List Byte) : Prop :=
  ∃ major minor rest : List Byte, IsDigits major ∧ IsDigits minor ∧ t = major ++ 46 :: minor ++ rest

/-- The first `digits.digits` occurrence of `text` reads `major.minor`: it is a
match, none starts at an earlier place, and no digit follows it. -/
def FirstMatch (text major minor : List Byte) : Prop :=
  ∃ pre post : List Byte, text = pre ++ (major ++ 46 :: minor ++ post) ∧
    IsDigits major ∧ IsDigits minor ∧ (∀ x ∈ post.head?, isDigit x = false) ∧
    ∀ a b : List Byte, pre = a ++ b → b ≠ [] → ¬ HasMatchAtStart (b ++ (major ++ 46 :: minor ++ post))

/-- The results the checks would give, each with the checker after it, were
the loop of `RunAllChecks` never broken. -/
def runNoBreak : List (Checker → CheckResult × Checker) → Checker → List (CheckResult × Checker)
  | [], _ => []
  | check :: rest, c => runCheck check c :: runNoBreak rest (runCheck check c).2

/-- A client whose answers are fixed. -/
def constClient (version arch : List Byte) (config : List (List Byte × List Byte))
    (veths : List (List Byte)) : RouterOSClient :=
  { GetVersion := fun _ => .ok version, GetArchitecture := fun _ => .ok arch,
    GetContainerConfig := fun _ => .ok config, GetVETHInterfaces := fun _ => .ok veths }

/-! ## `config.go`: `Config`, `Validate`, `LoadConfig`, `SaveConfigEncrypted` -/

/-- `MikroClawConfig`. -/
structure MikroClawConfig where
  MemuKey : List Byte
  LLMProvider : List Byte
  APIKey : List Byte
  BaseURL : List Byte
  Model : List Byte
  TelegramToken : List Byte
  TelegramAllowlist : List Byte
  DiscordWebhook : List Byte
  SlackWebhook : List Byte

/-- `RouterOSConfig`. -/
structure RouterOSConfig where
  Host : List Byte
  Port : Int
  Username : List Byte
  Password : List Byte
  UseTLS : Bool

/-- `ContainerConfig`; the two maps are the lists of their entries. -/
structure ContainerConfig where
  Name : List Byte
  Image : List Byte
  File : List Byte
  EnvVars : List (List Byte × List Byte)
  Mounts : List (List Byte × List Byte)
  Interface : List Byte
  AutoStart : Bool

/-- `RegistryConfig`. -/
structure RegistryConfig where
  URL : List Byte
  Username : List Byte
  Password : List Byte
  Token : List Byte

/-- `DeploymentConfig`. -/
structure DeploymentConfig where
  DryRun : Bool
  SkipPreflight : Bool
  AutoFixVETH : Bool
  ForceOverwrite : Bool

/-- `Config`. -/
structure Config where
  RouterOS : RouterOSConfig
  Container : ContainerConfig
  Registry : RegistryConfig
  Deployment : DeploymentConfig
  MikroClaw : MikroClawConfig

/-- `Validate`: what it writes to `os.Stderr`, and the text of the error it
returns (`none` for `nil`). -/
def Validate (c : Config) : List Byte × Option (List Byte) :=
  if c.RouterOS.Host = [] then ([], some (ascii "routeros host is required"))
  else if c.RouterOS.Username = [] then ([], some (ascii "routeros username is required"))
  else if c.Container.Name = [] then ([], some (ascii "container name is required"))
  else if c.Container.Image = [] ∧ c.Container.File = [] then
    ([], some (ascii "either container image or file must be specified"))
  else if c.RouterOS.Port = 7778 ∧ c.RouterOS.UseTLS = false then
    ([], some (ascii "port 7778 requires TLS - set use_tls to true"))
  else if c.RouterOS.Password ≠ [] ∧ c.RouterOS.Password.length < 12 then
    (ascii "Warning: RouterOS password is less than 12 characters\n", none)
  else ([], none)

/-- A configuration to run `Validate` on: port 7778 with TLS, the valid
configuration of `TestValidate`. -/
def sampleConfig : Config :=
  { RouterOS := { Host := ascii "192.168.1.1", Port := 7778, Username := ascii "admin",
                  Password := ascii "password123", UseTLS := true },
    Container := { Name := ascii "mikroclaw", Image := ascii "ghcr.io/openclaw/mikroclaw:latest",
                   File := [], EnvVars := [], Mounts := [], Interface := [], AutoStart := false },
    Registry := { URL := [], Username := [], Password := [], Token := [] },
    Deployment := { DryRun := false, SkipPreflight := false, AutoFixVETH := false,
                    ForceOverwrite := false },
    MikroClaw := { MemuKey := [], LLMProvider := [], APIKey := [], BaseURL := [], Model := [],
                   TelegramToken := [], TelegramAllowlist := [], DiscordWebhook := [],
                   SlackWebhook := [] } }

/-- The errors of `LoadConfig` before the JSON parser runs, one constructor for
each `fmt.Errorf`, with the wrapped error. -/
inductive LoadError
  | reading (err : List Byte)
  | passwordRequired
  | decrypting (err : ConfigError)
  deriving DecidableEq, Repr

/-- `LoadConfig` up to its call of `json.Unmarshal`: `file` is what
`os.ReadFile(path)` returns, `password` the variadic argument, and the result
is `expanded`, the text handed to the JSON parser. -/
def LoadConfig (C : Crypto) (env : Env) (file : Except (List Byte) (List Byte))
    (password : List (List Byte)) : Except LoadError (List Byte) :=
  match file with
  | .error err => .error (.reading err)
  | .ok data =>
    if IsEncrypted data then
      match password with
      | [] => .error .passwordRequired
      | password0 :: _ =>
        if password0 = [] then .error .passwordRequired
        else
          match DecryptConfig C data password0 with
          | .error err => .error (.decrypting err)
          | .ok decrypted => .ok (ExpandEnv env decrypted)
    else .ok (ExpandEnv env data)

/-- The errors of `SaveConfigEncrypted`, with the wrapped error. -/
inductive SaveError
  | encoding (err : List Byte)
  | encrypting (err : ConfigError)
  deriving DecidableEq, Repr

/-- `SaveConfigEncrypted` up to its call of `os.WriteFile`: `marshalled` is
what `json.MarshalIndent(config, "", "  ")` returns, and the result is the
bytes handed to `os.WriteFile`. -/
def SaveConfigEncrypted (C : Crypto) (rand : List Byte)
    (marshalled : Except (List Byte) (List Byte)) (password : List Byte) :
    Except SaveError (List Byte) :=
  match marshalled with
  | .error err => .error (.encoding err)
  | .ok data =>
    match EncryptConfig C rand data password with
    | .error err => .error (.encrypting err)
    | .ok encrypted => .ok encrypted

/-! ## `main.go`: the display of the results -/

/-- What the loop of `main` over the results keeps: the counters `warnings` and
`failures`, and the first line printed for each result. -/
structure Display where
  warnings : Nat
  failures : Nat
  printed : List (List Byte)
  deriving DecidableEq, Repr

/-- `fmt.Printf("%s [%s] %s\n", symbol, status, result.Name)`. -/
def statusLine (symbol status name : List Byte) : List Byte :=
  symbol ++ ascii " [" ++ status ++ ascii "] " ++ name ++ ascii "\n"

/-- The body of the loop of `main` over the results; the symbols are the UTF-8
bytes of the check mark, the warning sign and the ballot cross. -/
def displayResult (d : Display) (result : CheckResult) : Display :=
  if !result.Passed then
    if result.Warning then
      { warnings := d.warnings + 1, failures := d.failures,
        printed := d.printed ++ [statusLine [226, 154, 160] (ascii "WARN") result.Name] }
    else
      { warnings := d.warnings, failures := d.failures + 1,
        printed := d.printed ++ [statusLine [226, 156, 151] (ascii "FAIL") result.Name] }
  else
    { warnings := d.warnings, failures := d.failures,
      printed := d.printed ++ [statusLine [226, 156, 147] (ascii "PASS") result.Name] }

/-- The loop of `main` over the results, from `warnings := 0`, `failures := 0`. -/
def displayResults (results : List CheckResult) : Display :=
  results.foldl displayResult { warnings := 0, failures := 0, printed := [] }

/-- The status line of the summary `main` prints after the loop. -/
def displaySummary (d : Display) : List Byte :=
  if d.failures > 0 then ascii "Status: " ++ formatInt d.failures ++ ascii " check(s) failed\n"
  else if d.warnings > 0 then
    ascii "Status: " ++ formatInt d.warnings ++ ascii " warning(s), 0 failures\n"
  else ascii "Status: All checks passed " ++ [226, 156, 147, 10]

/-! ## Lemmas on `encoding/base64` -/

namespace base64

theorem decodeMap_encodeStd_fin : ∀ n : Fin 64, decodeMap (encodeStd n.val) = some n.val := by
  decide

theorem decodeMap_encodeStd {n : Nat} (h : n < 64) : decodeMap (encodeStd n) = some n :=
  decodeMap_encodeStd_fin ⟨n, h⟩

theorem encodeStd_ne_colon_fin : ∀ n : Fin 64, encodeStd n.val ≠ 58 := by
  decide

theorem encodeStd_ne_colon {n : Nat} (h : n < 64) : encodeStd n ≠ 58 :=
  encodeStd_ne_colon_fin ⟨n, h⟩

theorem ofNat_val (a : Byte) : (Fin.ofNat a.val : Byte) = a := by
  apply Fin.ext
  simp [Fin.ofNat, Nat.mod_eq_of_lt a.isLt]

theorem quantumBytes_four (a b c : Byte) :
    quantumBytes [(a.val * 65536 + b.val * 256 + c.val) / 262144 % 64,
      (a.val * 65536 + b.val * 256 + c.val) / 4096 % 64,
      (a.val * 65536 + b.val * 256 + c.val) / 64 % 64,
      (a.val * 65536 + b.val * 256 + c.val) % 64] = [a, b, c] := by
  have ha := a.isLt
  have hb := b.isLt
  have hc := c.isLt
  simp only [quantumBytes, List.getD_cons_zero, List.getD_cons_succ, List.length_cons,
    List.length_nil, List.map_cons, List.map_nil]
  have e1 : ((a.val * 65536 + b.val * 256 + c.val) / 262144 % 64 * 262144 +
      (a.val * 65536 + b.val * 256 + c.val) / 4096 % 64 * 4096 +
      (a.val * 65536 + b.val * 256 + c.val) / 64 % 64 * 64 +
      (a.val * 65536 + b.val * 256 + c.val) % 64) = a.val * 65536 + b.val * 256 + c.val := by
    omega
  rw [e1]
  have e2 : (a.val * 65536 + b.val * 256 + c.val) / 65536 % 256 = a.val := by omega
  have e3 : (a.val * 65536 + b.val * 256 + c.val) / 256 % 256 = b.val := by omega
  have e4 : (a.val * 65536 + b.val * 256 + c.val) % 256 = c.val := by omega
  rw [e2, e3, e4, ofNat_val, ofNat_val, ofNat_val]
  rfl

theorem quantumBytes_three (a b : Byte) :
    quantumBytes [(a.val * 65536 + b.val * 256) / 262144 % 64,
      (a.val * 65536 + b.val * 256) / 4096 % 64,
      (a.val * 65536 + b.val * 256) / 64 % 64] = [a, b] := by
  have ha := a.isLt
  have hb := b.isLt
  simp only [quantumBytes, List.getD_cons_zero, List.getD_cons_succ, List.length_cons,
    List.length_nil, List.map_cons, List.map_nil, List.getD_nil]
  have e2 : ((a.val * 65536 + b.val * 256) / 262144 % 64 * 262144 +
      (a.val * 65536 + b.val * 256) / 4096 % 64 * 4096 +
      (a.val * 65536 + b.val * 256) / 64 % 64 * 64 + 0) / 65536 % 256 = a.val := by omega
  have e3 : ((a.val * 65536 + b.val * 256) / 262144 % 64 * 262144 +
      (a.val * 65536 + b.val * 256) / 4096 % 64 * 4096 +
      (a.val * 65536 + b.val * 256) / 64 % 64 * 64 + 0) / 256 % 256 = b.val := by omega
  rw [e2, e3, ofNat_val, ofNat_val]
  rfl

/-- The byte of a quantum closed by `==` is made of the first six-bit value and
the two high bits of the second: the four low bits are not looked at. -/
theorem quantumBytes_two_val (x y : Nat) :
    quantumBytes [x, y] = [Fin.ofNat ((x * 4 + y / 16) % 256)] := by
  simp only [quantumBytes, List.getD_cons_zero, List.getD_cons_succ, List.length_cons,
    List.length_nil, List.map_cons, List.map_nil, List.getD_nil]
  have e : (x * 262144 + y * 4096 + 0 * 64 + 0) / 65536 % 256 = (x * 4 + y / 16) % 256 := by
    omega
  rw [e]
  rfl

theorem quantumBytes_two (a : Byte) :
    quantumBytes [(a.val * 65536) / 262144 % 64, (a.val * 65536) / 4096 % 64] = [a] := by
  have ha := a.isLt
  rw [quantumBytes_two_val]
  have e : ((a.val * 65536) / 262144 % 64 * 4 + (a.val * 65536) / 4096 % 64 / 16) % 256
      = a.val := by omega
  rw [e, ofNat_val]

theorem decodeMap_padChar : decodeMap padChar = none := by decide

theorem isNewline_padChar : isNewline padChar = false := by decide

theorem decodeLoop_quad {v0 v1 v2 v3 : Nat} (h0 : v0 < 64) (h1 : v1 < 64) (h2 : v2 < 64)
    (h3 : v3 < 64) (rest : List Byte) (si : Nat) (out : List Byte) :
    decodeLoop (encodeStd v0 :: encodeStd v1 :: encodeStd v2 :: encodeStd v3 :: rest) si [] out
      = decodeLoop rest (si + 4) [] (out ++ quantumBytes [v0, v1, v2, v3]) := by
  simp [decodeLoop, decodeMap_encodeStd h0, decodeMap_encodeStd h1, decodeMap_encodeStd h2,
    decodeMap_encodeStd h3]

theorem decodeLoop_pad1 {v0 v1 v2 : Nat} (h0 : v0 < 64) (h1 : v1 < 64) (h2 : v2 < 64)
    (si : Nat) (out : List Byte) :
    decodeLoop [encodeStd v0, encodeStd v1, encodeStd v2, padChar] si [] out
      = .ok (out ++ quantumBytes [v0, v1, v2]) := by
  simp [decodeLoop, decodeMap_encodeStd h0, decodeMap_encodeStd h1, decodeMap_encodeStd h2,
    decodeMap_padChar, isNewline_padChar, decodePadding, skipNewlines]

theorem decodeLoop_pad2 {v0 v1 : Nat} (h0 : v0 < 64) (h1 : v1 < 64)
    (si : Nat) (out : List Byte) :
    decodeLoop [encodeStd v0, encodeStd v1, padChar, padChar] si [] out
      = .ok (out ++ quantumBytes [v0, v1]) := by
  simp [decodeLoop, decodeMap_encodeStd h0, decodeMap_encodeStd h1,
    decodeMap_padChar, isNewline_padChar, decodePadding, skipNewlines]

/-- Decoding undoes encoding, from any offset and after any output. -/
theorem decodeLoop_encode (l : List Byte) :
    ∀ (si : Nat) (out : List Byte), decodeLoop (EncodeToString l) si [] out = .ok (out ++ l) := by
  induction l using EncodeToString.induct with
  | case1 => intro si out; simp [EncodeToString, decodeLoop]
  | case2 a =>
    intro si out
    simp only [EncodeToString]
    rw [decodeLoop_pad2 (Nat.mod_lt _ (by decide)) (Nat.mod_lt _ (by decide)), quantumBytes_two]
  | case3 a b =>
    intro si out
    simp only [EncodeToString]
    rw [decodeLoop_pad1 (Nat.mod_lt _ (by decide)) (Nat.mod_lt _ (by decide))
      (Nat.mod_lt _ (by decide)), quantumBytes_three]
  | case4 a b c rest ih =>
    intro si out
    simp only [EncodeToString]
    rw [decodeLoop_quad (Nat.mod_lt _ (by decide)) (Nat.mod_lt _ (by decide))
      (Nat.mod_lt _ (by decide)) (Nat.mod_lt _ (by decide)), quantumBytes_four, ih]
    simp

/-- Base64 round trip: `DecodeString` inverts `EncodeToString`. -/
theorem DecodeString_EncodeToString (l : List Byte) :
    DecodeString (EncodeToString l) = .ok l := by
  simp [DecodeString, decodeLoop_encode]

/-- The encoder writes no `:`. -/
theorem colon_not_mem_EncodeToString (l : List Byte) : (58 : Byte) ∉ EncodeToString l := by
  induction l using EncodeToString.induct with
  | case1 => simp [EncodeToString]
  | case2 a =>
    simp only [EncodeToString, List.mem_cons, List.mem_singleton, List.mem_nil_iff, not_or]
    exact ⟨(encodeStd_ne_colon (Nat.mod_lt _ (by decide))).symm,
      (encodeStd_ne_colon (Nat.mod_lt _ (by decide))).symm, by decide, by decide, not_false⟩
  | case3 a b =>
    simp only [EncodeToString, List.mem_cons, List.mem_singleton, List.mem_nil_iff, not_or]
    exact ⟨(encodeStd_ne_colon (Nat.mod_lt _ (by decide))).symm,
      (encodeStd_ne_colon (Nat.mod_lt _ (by decide))).symm,
      (encodeStd_ne_colon (Nat.mod_lt _ (by decide))).symm, by decide, not_false⟩
  | case4 a b c rest ih =>
    simp only [EncodeToString, List.mem_cons, not_or]
    exact ⟨(encodeStd_ne_colon (Nat.mod_lt _ (by decide))).symm,
      (encodeStd_ne_colon (Nat.mod_lt _ (by decide))).symm,
      (encodeStd_ne_colon (Nat.mod_lt _ (by decide))).symm,
      (encodeStd_ne_colon (Nat.mod_lt _ (by decide))).symm, ih⟩

theorem skipNewlines_keeps (bad : Byte) (hbad : isNewline bad = false) :
    ∀ (rest : List Byte) (si : Nat), bad ∈ rest →
      ∃ d r si2, skipNewlines rest si = (d :: r, si2) ∧ bad ∈ d :: r := by
  intro rest
  induction rest with
  | nil => intro si h; simp at h
  | cons c rest ih =>
    intro si h
    by_cases hc : isNewline c = true
    · have hne : bad ≠ c := by
        intro e
        rw [e, hc] at hbad
        exact Bool.noConfusion hbad
      have hmem : bad ∈ rest := by
        rcases List.mem_cons.mp h with h1 | h1
        · exact absurd h1 hne
        · exact h1
      obtain ⟨d, r, si2, h1, h2⟩ := ih (si + 1) hmem
      exact ⟨d, r, si2, by simp [skipNewlines, hc, h1], h2⟩
    · exact ⟨c, rest, si, by simp [skipNewlines, hc], h⟩

theorem decodePadding_reject (bad : Byte) (hbad : accepted bad = false) (dbuf : List Nat)
    (rest : List Byte) (si : Nat) (out : List Byte) (h : bad ∈ rest) :
    ∃ e, decodePadding dbuf rest si out = .error e := by
  have hnl : isNewline bad = false := by
    simp only [accepted, Bool.or_eq_false_iff] at hbad
    exact hbad.1.2
  have hpad : bad ≠ padChar := by
    simp only [accepted, Bool.or_eq_false_iff] at hbad
    simpa using hbad.2
  unfold decodePadding
  by_cases h1 : dbuf.length < 2
  · simp [h1]
  · by_cases h2 : dbuf.length = 2
    · obtain ⟨d, r, si2, e1, m1⟩ := skipNewlines_keeps bad hnl rest si h
      simp only [h1, h2, if_false, if_true, e1]
      by_cases h3 : d ≠ padChar
      · simp [h3]
      · have hd : d = padChar := not_not.mp h3
        have m2 : bad ∈ r := by
          rcases List.mem_cons.mp m1 with h4 | h4
          · exact absurd (h4.trans hd) hpad
          · exact h4
        obtain ⟨d2, r2, si3, e2, _⟩ := skipNewlines_keeps bad hnl r (si2 + 1) m2
        simp [hd, e2]
    · obtain ⟨d, r, si2, e1, _⟩ := skipNewlines_keeps bad hnl rest si h
      simp [h1, h2, e1]

/-- The decoder fails on every input that holds a byte outside the alphabet
other than `=`, CR and LF. -/
theorem decodeLoop_reject (bad : Byte) (hbad : accepted bad = false) :
    ∀ (s : List Byte) (si : Nat) (dbuf : List Nat) (out : List Byte), bad ∈ s →
      ∃ e, decodeLoop s si dbuf out = .error e := by
  have hnl : isNewline bad = false := by
    simp only [accepted, Bool.or_eq_false_iff] at hbad
    exact hbad.1.2
  have hpad : bad ≠ padChar := by
    simp only [accepted, Bool.or_eq_false_iff] at hbad
    simpa using hbad.2
  have hmap : decodeMap bad = none := by
    simp only [accepted, Bool.or_eq_false_iff] at hbad
    simpa using hbad.1.1
  intro s
  induction s with
  | nil => intro si dbuf out h; simp at h
  | cons c rest ih =>
    intro si dbuf out h
    by_cases hc : c = bad
    · subst hc
      exact ⟨si, by simp [decodeLoop, hmap, hnl, hpad]⟩
    · have hmem : bad ∈ rest := by
        rcases List.mem_cons.mp h with h1 | h1
        · exact absurd h1.symm hc
        · exact h1
      unfold decodeLoop
      cases hm : decodeMap c with
      | some v =>
        by_cases h3 : dbuf.length = 3
        · simpa [h3] using ih (si + 1) [] _ hmem
        · simpa [h3] using ih (si + 1) _ out hmem
      | none =>
        by_cases h4 : isNewline c = true
        · simpa [h4] using ih (si + 1) dbuf out hmem
        · by_cases h5 : c ≠ padChar
          · simp [h4, h5]
          · simpa [h4, h5] using decodePadding_reject bad hbad dbuf rest (si + 1) out hmem

theorem DecodeString_reject (bad : Byte) (hbad : accepted bad = false) (s : List Byte)
    (h : bad ∈ s) : ∃ e, DecodeString s = .error e :=
  decodeLoop_reject bad hbad s 0 [] [] h

theorem DecodeString_colon (s : List Byte) (h : (58 : Byte) ∈ s) :
    ∃ e, DecodeString s = .error e :=
  DecodeString_reject 58 (by decide) s h

end base64

/-! ## Lemmas on `crypto.go` -/

theorem ascii_colon : ascii ":" = [58] := by decide

theorem splitLoop_no_sep (s : List Byte) (sep : Byte) :
    ∀ (suf : List Byte) (i : Nat), sep ∉ suf → splitLoop s sep i suf = [s] := by
  intro suf
  induction suf with
  | nil => intro i _; rfl
  | cons c rest ih =>
    intro i h
    have hc : c ≠ sep := fun e => h (by simp [e])
    have hr : sep ∉ rest := fun e => h (List.mem_cons_of_mem _ e)
    simp [splitLoop, hc, ih (i + 1) hr]

theorem splitLoop_first (sep : Byte) (b : List Byte) :
    ∀ (a pre : List Byte), sep ∉ a →
      splitLoop (pre ++ a ++ sep :: b) sep pre.length (a ++ sep :: b) = [pre ++ a, b] := by
  intro a
  induction a with
  | nil =>
    intro pre _
    simp [splitLoop]
  | cons c rest ih =>
    intro pre h
    have hc : c ≠ sep := fun e => h (by simp [e])
    have hr : sep ∉ rest := fun e => h (List.mem_cons_of_mem _ e)
    have := ih (pre ++ [c]) hr
    simp only [List.append_assoc, List.singleton_append, List.length_append, List.length_singleton]
      at this
    simp only [List.cons_append, splitLoop, hc, if_false, List.append_assoc]
    exact this

/-- `splitString` on an input without the separator. -/
theorem splitString_no_sep (s : List Byte) (sep : Byte) (h : sep ∉ s) :
    splitString s sep = [s] :=
  splitLoop_no_sep s sep s 0 h

/-- `splitString` cuts at the first separator. -/
theorem splitString_first (a b : List Byte) (sep : Byte) (h : sep ∉ a) :
    splitString (a ++ sep :: b) sep = [a, b] := by
  have := splitLoop_first sep b a [] h
  simpa [splitString] using this

theorem ReadFull_append (a b : List Byte) (n : Nat) (h : a.length = n) :
    ReadFull (a ++ b) n = some (a, b) := by
  subst h
  simp [ReadFull]

theorem New_deriveKey (C : Crypto) (hK : C.KeyLen) (password salt : List Byte) :
    New (deriveKey C password salt) = some (deriveKey C password salt) := by
  have : (deriveKey C password salt).length = KeySize := hK _ _ _ _ _ _
  simp [New, this]

/-- The envelope `EncryptConfig` writes for a salt and a nonce‖sealed box. -/
theorem EncryptConfig_eq (C : Crypto) (hK : C.KeyLen) (salt nonce rest plaintext password : List Byte)
    (hs : salt.length = 16) (hn : nonce.length = 12) :
    EncryptConfig C (salt ++ nonce ++ rest) plaintext password
      = .ok (base64.EncodeToString salt ++ ascii ":" ++
          base64.EncodeToString (nonce ++ C.Seal (deriveKey C password salt) nonce plaintext [])) := by
  unfold EncryptConfig
  rw [List.append_assoc, ReadFull_append salt (nonce ++ rest) 16 hs]
  simp only [New_deriveKey C hK]
  rw [ReadFull_append nonce rest NonceSize hn]

/-- `DecryptConfig` on an envelope with well-formed halves: parsing gives back
the salt and the box, and what is left is the length check and `Open`. -/
theorem DecryptConfig_envelope (C : Crypto) (hK : C.KeyLen) (salt box password : List Byte) :
    DecryptConfig C (base64.EncodeToString salt ++ ascii ":" ++ base64.EncodeToString box) password
      = if box.length < NonceSize then .error .ciphertextTooShort
        else match C.Open (deriveKey C password salt) (box.take NonceSize)
            (box.drop NonceSize) [] with
          | none => .error .decrypting
          | some plaintext => .ok plaintext := by
  unfold DecryptConfig
  rw [ascii_colon, List.append_assoc, List.singleton_append,
    splitString_first _ _ 58 (base64.colon_not_mem_EncodeToString salt)]
  simp only [base64.DecodeString_EncodeToString, New_deriveKey C hK]

/-- `DecryptConfig` on an envelope whose box starts with a full nonce. -/
theorem DecryptConfig_sealed (C : Crypto) (hK : C.KeyLen) (salt nonce sealed password : List Byte)
    (hn : nonce.length = 12) :
    DecryptConfig C (base64.EncodeToString salt ++ ascii ":" ++
        base64.EncodeToString (nonce ++ sealed)) password
      = match C.Open (deriveKey C password salt) nonce sealed [] with
        | none => .error .decrypting
        | some plaintext => .ok plaintext := by
  rw [DecryptConfig_envelope C hK]
  have h1 : ¬ (nonce ++ sealed).length < NonceSize := by
    simp [NonceSize, hn]
  have h2 : (nonce ++ sealed).take NonceSize = nonce := by
    simp [NonceSize, ← hn]
  have h3 : (nonce ++ sealed).drop NonceSize = sealed := by
    simp [NonceSize, ← hn]
  rw [if_neg h1, h2, h3]

/-! ## The sample primitives satisfy what is assumed -/

theorem sampleCrypto_KeyLen : sampleCrypto.KeyLen := by
  intro password salt time memory threads keyLen
  simp only [sampleCrypto, sampleIDKey, List.length_take, List.length_append,
    List.length_replicate]
  omega

theorem sampleTag_length (key nonce text : List Byte) : (sampleTag key nonce text).length = 16 := by
  simp [sampleTag]

theorem sampleCrypto_SealLen : sampleCrypto.SealLen := by
  intro key nonce plaintext _ _
  simp [sampleCrypto, sampleSeal, sampleTag_length, Overhead]

theorem sampleCrypto_OpenInvertsSeal : sampleCrypto.OpenInvertsSeal := by
  intro key nonce plaintext _ _
  simp [sampleCrypto, sampleSeal, sampleOpen, sampleTag_length, Overhead]

/-! ## The claims -/

/-- C1. Round trip: for every plaintext, every non-empty password and every
16-byte salt and 12-byte nonce the random source yields, `EncryptConfig`
succeeds and `DecryptConfig` of its output under the same password succeeds and
returns exactly the plaintext, taking the AEAD's `Open` to invert `Seal` and
`argon2.IDKey` to return `keyLen` bytes.  (Base64 decoding inverting encoding is
proved, not assumed.) -/
theorem C1_round_trip (C : Crypto) (hK : C.KeyLen) (hA : C.OpenInvertsSeal)
    (plaintext password salt nonce rest : List Byte) (_hpw : password ≠ [])
    (hs : salt.length = 16) (hn : nonce.length = 12) :
    ∃ encrypted, EncryptConfig C (salt ++ nonce ++ rest) plaintext password = .ok encrypted ∧
      DecryptConfig C encrypted password = .ok plaintext := by
  refine ⟨_, EncryptConfig_eq C hK salt nonce rest plaintext password hs hn, ?_⟩
  rw [DecryptConfig_sealed C hK salt nonce _ password hn,
    hA (deriveKey C password salt) nonce plaintext (hK _ _ _ _ _ _) hn]

/-- C1 at a concrete input: the sample primitives, the plaintext `{}` and the
password `pw`. -/
theorem C1_round_trip_witness :
    ∃ encrypted, EncryptConfig sampleCrypto (sampleSalt ++ sampleNonce ++ [])
        (ascii "\x7b\x7d") (ascii "pw") = .ok encrypted ∧
      DecryptConfig sampleCrypto encrypted (ascii "pw") = .ok (ascii "\x7b\x7d") :=
  C1_round_trip sampleCrypto sampleCrypto_KeyLen sampleCrypto_OpenInvertsSeal
    (ascii "\x7b\x7d") (ascii "pw") sampleSalt sampleNonce [] (by decide) (by decide) (by decide)

theorem IsEncrypted_envelope (a b : List Byte) :
    IsEncrypted (base64.EncodeToString a ++ ascii ":" ++ base64.EncodeToString b) = true := by
  unfold IsEncrypted
  rw [ascii_colon, List.append_assoc, List.singleton_append,
    splitString_first _ _ 58 (base64.colon_not_mem_EncodeToString a)]
  simp only [base64.DecodeString_EncodeToString]

/-- C4. When the random source supplies the salt and the nonce, `EncryptConfig`
succeeds for every plaintext and every password, the empty one included, and
its output is `base64(salt) ++ ":" ++ base64(nonce ++ sealed)`: it holds exactly
one `:`, `splitString` cuts it into the two halves, the first half decodes to
the 16-byte salt, and the second half decodes to `len(plaintext) + 28` bytes
that begin with the 12-byte nonce and go on with what `Seal` returned, whose
last 16 bytes are the tag.  `argon2.IDKey` is taken to return `keyLen` bytes
and `Seal` to add a 16-byte tag. -/
theorem C4_envelope_format (C : Crypto) (hK : C.KeyLen) (hL : C.SealLen)
    (plaintext password salt nonce rest : List Byte)
    (hs : salt.length = 16) (hn : nonce.length = 12) :
    let sealed := C.Seal (deriveKey C password salt) nonce plaintext []
    let half1 := base64.EncodeToString salt
    let half2 := base64.EncodeToString (nonce ++ sealed)
    EncryptConfig C (salt ++ nonce ++ rest) plaintext password = .ok (half1 ++ ascii ":" ++ half2) ∧
      (half1 ++ ascii ":" ++ half2).count 58 = 1 ∧
      splitString (half1 ++ ascii ":" ++ half2) 58 = [half1, half2] ∧
      base64.DecodeString half1 = .ok salt ∧
      base64.DecodeString half2 = .ok (nonce ++ sealed) ∧
      (nonce ++ sealed).length = plaintext.length + 28 ∧
      (nonce ++ sealed).take 12 = nonce ∧
      (nonce ++ sealed).drop 12 = sealed ∧
      sealed.length = plaintext.length + 16 := by
  intro sealed half1 half2
  have hlen : sealed.length = plaintext.length + 16 := hL _ _ _ (hK _ _ _ _ _ _) hn
  refine ⟨EncryptConfig_eq C hK salt nonce rest plaintext password hs hn, ?_, ?_,
    base64.DecodeString_EncodeToString salt, base64.DecodeString_EncodeToString _, ?_, ?_, ?_,
    hlen⟩
  · rw [ascii_colon, List.count_append, List.count_append,
      List.count_eq_zero.mpr (base64.colon_not_mem_EncodeToString salt),
      List.count_eq_zero.mpr (base64.colon_not_mem_EncodeToString _)]
    rfl
  · rw [ascii_colon, List.append_assoc, List.singleton_append,
      splitString_first _ _ 58 (base64.colon_not_mem_EncodeToString salt)]
  · rw [List.length_append, hlen, hn]
    omega
  · simp [← hn]
  · simp [← hn]

/-- C4 at a concrete input: the sample primitives and the empty password. -/
theorem C4_envelope_format_witness :
    EncryptConfig sampleCrypto (sampleSalt ++ sampleNonce ++ []) (ascii "\x7b\x7d") []
      = .ok (ascii "AQIDBAUGBwgJCgsMDQ4PEA==:ZWZnaGlqa2xtbm9we30AAAAAAAAAAAAAAAAAAAB+") := by
  have h := (C4_envelope_format sampleCrypto sampleCrypto_KeyLen sampleCrypto_SealLen
    (ascii "\x7b\x7d") [] sampleSalt sampleNonce [] (by decide) (by decide)).1
  rw [h]
  decide

/-- C5. `IsEncrypted` returns true for every output of `EncryptConfig`, whatever
the plaintext, the password, the bytes of the random source and the
primitives. -/
theorem C5_IsEncrypted_of_EncryptConfig (C : Crypto) (rand plaintext password encrypted : List Byte)
    (h : EncryptConfig C rand plaintext password = .ok encrypted) :
    IsEncrypted encrypted = true := by
  unfold EncryptConfig at h
  cases h1 : ReadFull rand 16 with
  | none => simp [h1] at h
  | some sr =>
    obtain ⟨salt, rand1⟩ := sr
    simp only [h1] at h
    cases h2 : New (deriveKey C password salt) with
    | none => simp [h2] at h
    | some aead =>
      simp only [h2] at h
      cases h3 : ReadFull rand1 NonceSize with
      | none => simp [h3] at h
      | some nr =>
        obtain ⟨nonce, rand2⟩ := nr
        simp only [h3, Except.ok.injEq] at h
        rw [← h]
        exact IsEncrypted_envelope _ _

/-- C5 at a concrete input: the sample primitives, plaintext `{}`, password `pw`. -/
theorem C5_IsEncrypted_of_EncryptConfig_witness :
    IsEncrypted (ascii "AQIDBAUGBwgJCgsMDQ4PEA==:ZWZnaGlqa2xtbm9we30AAAAAAAAAAAAAAAAAAABl") = true :=
  C5_IsEncrypted_of_EncryptConfig sampleCrypto (sampleSalt ++ sampleNonce ++ [])
    (ascii "\x7b\x7d") (ascii "pw") _ (by decide)

theorem IsEncrypted_no_sep (d : List Byte) (h : (58 : Byte) ∉ d) : IsEncrypted d = false := by
  simp [IsEncrypted, splitString_no_sep d 58 h]

theorem IsEncrypted_split (a b : List Byte) (h : (58 : Byte) ∉ a) :
    IsEncrypted (a ++ 58 :: b) = true ↔
      (∃ x, base64.DecodeString a = .ok x) ∧ (∃ y, base64.DecodeString b = .ok y) := by
  unfold IsEncrypted
  rw [splitString_first a b 58 h]
  cases ha : base64.DecodeString a with
  | error e => simp [ha]
  | ok x =>
    cases hb : base64.DecodeString b with
    | error e => simp [ha, hb]
    | ok y => simp [ha, hb]

theorem IsEncrypted_reject (d : List Byte) (c : Byte) (hc : c ∈ d) (hne : c ≠ 58)
    (hbad : base64.accepted c = false) : IsEncrypted d = false := by
  by_cases hsep : (58 : Byte) ∈ d
  · obtain ⟨a, b, hd, ha⟩ := List.eq_append_cons_of_mem hsep
    subst hd
    cases hE : IsEncrypted (a ++ 58 :: b) with
    | false => rfl
    | true =>
      obtain ⟨⟨x, hx⟩, ⟨y, hy⟩⟩ := (IsEncrypted_split a b ha).mp hE
      rcases List.mem_append.mp hc with h1 | h1
      · obtain ⟨e, he⟩ := base64.DecodeString_reject c hbad a h1
        rw [he] at hx
        exact Except.noConfusion hx
      · rcases List.mem_cons.mp h1 with h2 | h2
        · exact absurd h2 hne
        · obtain ⟨e, he⟩ := base64.DecodeString_reject c hbad b h2
          rw [he] at hy
          exact Except.noConfusion hy
  · exact IsEncrypted_no_sep d hsep

/-- C6, as the code has it.  `IsEncrypted d` is true exactly when `d` holds
exactly one `:` and both halves are accepted by `StdEncoding.DecodeString`; so
it is false for every input without `:`, for every input with two or more `:`,
for `{"host":"x"}` and `{"host": "192.168.1.1"}`, and for every input that
holds, on either side of the separator, a byte that is neither of the alphabet
nor `=` nor a line break (CR, LF), which the decoder skips. -/
theorem C6_IsEncrypted_shape :
    (∀ d : List Byte, IsEncrypted d = true ↔
      ∃ a b, d = a ++ 58 :: b ∧ d.count 58 = 1 ∧
        (∃ x, base64.DecodeString a = .ok x) ∧ (∃ y, base64.DecodeString b = .ok y)) ∧
    (∀ d : List Byte, d.count 58 = 0 → IsEncrypted d = false) ∧
    (∀ d : List Byte, 2 ≤ d.count 58 → IsEncrypted d = false) ∧
    IsEncrypted (ascii "\x7b\"host\":\"x\"\x7d") = false ∧
    IsEncrypted (ascii "\x7b\"host\": \"192.168.1.1\"\x7d") = false ∧
    (∀ (d : List Byte) (c : Byte), c ∈ d → c ≠ 58 → base64.accepted c = false →
      IsEncrypted d = false) := by
  have key : ∀ d : List Byte, IsEncrypted d = true ↔
      ∃ a b, d = a ++ 58 :: b ∧ d.count 58 = 1 ∧
        (∃ x, base64.DecodeString a = .ok x) ∧ (∃ y, base64.DecodeString b = .ok y) := by
    intro d
    constructor
    · intro hE
      by_cases hsep : (58 : Byte) ∈ d
      · obtain ⟨a, b, hd, ha⟩ := List.eq_append_cons_of_mem hsep
        subst hd
        obtain ⟨hx, ⟨y, hy⟩⟩ := (IsEncrypted_split a b ha).mp hE
        have hb : (58 : Byte) ∉ b := by
          intro hmem
          obtain ⟨e, he⟩ := base64.DecodeString_colon b hmem
          rw [he] at hy
          exact Except.noConfusion hy
        refine ⟨a, b, rfl, ?_, hx, ⟨y, hy⟩⟩
        rw [List.count_append, List.count_cons_self, List.count_eq_zero.mpr ha,
          List.count_eq_zero.mpr hb]
      · rw [IsEncrypted_no_sep d hsep] at hE
        exact Bool.noConfusion hE
    · rintro ⟨a, b, hd, hcount, hx, hy⟩
      subst hd
      have ha : (58 : Byte) ∉ a := by
        rw [List.count_append, List.count_cons_self] at hcount
        exact List.count_eq_zero.mp (by omega)
      exact (IsEncrypted_split a b ha).mpr ⟨hx, hy⟩
  refine ⟨key, ?_, ?_, by decide, by decide, IsEncrypted_reject⟩
  · intro d h0
    exact IsEncrypted_no_sep d (List.count_eq_zero.mp h0)
  · intro d h2
    cases hE : IsEncrypted d with
    | false => rfl
    | true =>
      obtain ⟨a, b, _, h1, _⟩ := (key d).mp hE
      omega

/-- C6, the counterexample to the claim as written: a line feed is a byte
outside the base64 alphabet, and `IsEncrypted` is true of the text `QUJD`,
line feed, `:QUJD`, which has one on the left of the separator. -/
theorem C6_newline_counterexample :
    base64.decodeMap 10 = none ∧ (10 : Byte) ∈ ascii "QUJD\n:QUJD" ∧
      IsEncrypted (ascii "QUJD\n:QUJD") = true := by
  decide

theorem DecryptConfig_no_sep (C : Crypto) (d password : List Byte) (h : (58 : Byte) ∉ d) :
    DecryptConfig C d password = .error .invalidFormat := by
  simp [DecryptConfig, splitString_no_sep d 58 h]

theorem DecryptConfig_bad_salt (C : Crypto) (a b password : List Byte) (e : Nat)
    (h : (58 : Byte) ∉ a) (ha : base64.DecodeString a = .error e) :
    DecryptConfig C (a ++ 58 :: b) password = .error (.decodingSalt e) := by
  unfold DecryptConfig
  rw [splitString_first a b 58 h]
  simp only [ha]

theorem DecryptConfig_bad_ciphertext (C : Crypto) (a b password salt : List Byte) (e : Nat)
    (h : (58 : Byte) ∉ a) (ha : base64.DecodeString a = .ok salt)
    (hb : base64.DecodeString b = .error e) :
    DecryptConfig C (a ++ 58 :: b) password = .error (.decodingCiphertext e) := by
  unfold DecryptConfig
  rw [splitString_first a b 58 h]
  simp only [ha, hb]

/-- C7. When the input has no `:` or one of its two parts (the text before the
first `:` and the text after it) is not valid base64, `DecryptConfig` fails
with one of the malformed-envelope errors (invalid format, decoding salt,
decoding ciphertext), which is not the decryption-failed error, and the error
is the same for every password (and whatever the primitives compute). -/
theorem C7_malformed_envelope (d : List Byte)
    (h : (58 : Byte) ∉ d ∨ ∃ a b, d = a ++ 58 :: b ∧ (58 : Byte) ∉ a ∧
      ((∃ e, base64.DecodeString a = .error e) ∨ (∃ e, base64.DecodeString b = .error e))) :
    ∃ err : ConfigError,
      (err = .invalidFormat ∨ (∃ e, err = .decodingSalt e) ∨ (∃ e, err = .decodingCiphertext e)) ∧
      err ≠ .decrypting ∧
      ∀ (C : Crypto) (password : List Byte), DecryptConfig C d password = .error err := by
  rcases h with h | ⟨a, b, hd, ha, hbad⟩
  · exact ⟨.invalidFormat, Or.inl rfl, by simp, fun C password => DecryptConfig_no_sep C d password h⟩
  · subst hd
    cases hsalt : base64.DecodeString a with
    | error e =>
      exact ⟨.decodingSalt e, Or.inr (Or.inl ⟨e, rfl⟩), by simp,
        fun C password => DecryptConfig_bad_salt C a b password e ha hsalt⟩
    | ok salt =>
      rcases hbad with ⟨e, he⟩ | ⟨e, he⟩
      · rw [he] at hsalt
        exact Except.noConfusion hsalt
      · exact ⟨.decodingCiphertext e, Or.inr (Or.inr ⟨e, rfl⟩), by simp,
          fun C password => DecryptConfig_bad_ciphertext C a b password salt e ha hsalt he⟩

/-- C7 at a concrete input: `QUJD:Q?JD`, whose second part is not base64. -/
theorem C7_malformed_envelope_witness :
    ∃ err : ConfigError,
      (err = .invalidFormat ∨ (∃ e, err = .decodingSalt e) ∨ (∃ e, err = .decodingCiphertext e)) ∧
      err ≠ .decrypting ∧
      ∀ (C : Crypto) (password : List Byte),
        DecryptConfig C (ascii "QUJD:Q?JD") password = .error err :=
  C7_malformed_envelope (ascii "QUJD:Q?JD")
    (Or.inr ⟨ascii "QUJD", ascii "Q?JD", by decide, by decide, Or.inr ⟨1, by decide⟩⟩)

/-- C8. For every input with a `:` whose two parts are valid base64,
`DecryptConfig` fails with the ciphertext-too-short error, for every password
and whatever `Open` would answer, when the second part decodes to fewer than 12
bytes, and never returns that error when it decodes to 12 bytes or more.
`argon2.IDKey` is taken to return `keyLen` bytes. -/
theorem C8_ciphertext_too_short (C : Crypto) (hK : C.KeyLen) (a b salt box password : List Byte)
    (ha : (58 : Byte) ∉ a) (hsalt : base64.DecodeString a = .ok salt)
    (hbox : base64.DecodeString b = .ok box) :
    (box.length < 12 → DecryptConfig C (a ++ 58 :: b) password = .error .ciphertextTooShort) ∧
    (12 ≤ box.length → DecryptConfig C (a ++ 58 :: b) password ≠ .error .ciphertextTooShort) := by
  have hD : DecryptConfig C (a ++ 58 :: b) password
      = if box.length < NonceSize then .error .ciphertextTooShort
        else match C.Open (deriveKey C password salt) (box.take NonceSize)
            (box.drop NonceSize) [] with
          | none => .error .decrypting
          | some plaintext => .ok plaintext := by
    unfold DecryptConfig
    rw [splitString_first a b 58 ha]
    simp only [hsalt, hbox, New_deriveKey C hK]
  constructor
  · intro hlt
    rw [hD, if_pos (by simpa [NonceSize] using hlt)]
  · intro hge
    rw [hD, if_neg (by simp only [NonceSize]; omega)]
    cases C.Open (deriveKey C password salt) (box.take NonceSize) (box.drop NonceSize) [] with
    | none => simp
    | some plaintext => simp

/-- C8 at a concrete input: `AAAA:QUJD`, whose second part decodes to 3 bytes. -/
theorem C8_ciphertext_too_short_witness :
    DecryptConfig sampleCrypto (ascii "AAAA:QUJD") (ascii "pw") = .error .ciphertextTooShort :=
  (C8_ciphertext_too_short sampleCrypto sampleCrypto_KeyLen (ascii "AAAA") (ascii "QUJD")
    [0, 0, 0] (ascii "ABC") (ascii "pw") (by decide) (by decide) (by decide)).1 (by decide)

/-! ## Lemmas on `ExpandEnv` -/

theorem expandLoop_nil (env : Env) (fuel : Nat) : expandLoop env fuel [] = [] := by
  cases fuel <;> rfl

theorem scanToken_closed (after : List Byte) :
    ∀ c : List Byte, (125 : Byte) ∉ c → scanToken (c ++ 125 :: after) = some (c, after) := by
  intro c
  induction c with
  | nil => intro _; simp [scanToken]
  | cons x rest ih =>
    intro h
    have hx : x ≠ 125 := fun e => h (by simp [e])
    have hr : (125 : Byte) ∉ rest := fun e => h (List.mem_cons_of_mem _ e)
    simp [scanToken, hx, ih hr]

theorem matchToken_token (c after : List Byte) (hne : c ≠ []) (hbrace : (125 : Byte) ∉ c) :
    matchToken (36 :: 123 :: (c ++ 125 :: after)) = some (c, after) := by
  simp [matchToken, scanToken_closed after c hbrace, hne]

theorem cutDefault_none :
    ∀ c : List Byte, ¬ [(58 : Byte), 45] <:+: c → cutDefault c = none := by
  intro c
  induction c with
  | nil => intro _; rfl
  | cons x rest ih =>
    intro h
    have hr : ¬ [(58 : Byte), 45] <:+: rest := fun e => h (List.infix_cons e)
    have hcond : ¬ (x = 58 ∧ rest.head? = some 45) := by
      rintro ⟨h1, h2⟩
      apply h
      cases rest with
      | nil => simp at h2
      | cons y rest2 =>
        simp only [List.head?_cons, Option.some.injEq] at h2
        subst h1 h2
        exact (List.prefix_append [(58 : Byte), 45] rest2).isInfix
    simp [cutDefault, hcond, ih hr]

theorem cutDefault_first (dflt : List Byte) :
    ∀ name : List Byte, ¬ [(58 : Byte), 45] <:+: name ++ [58] →
      cutDefault (name ++ 58 :: 45 :: dflt) = some (name, dflt) := by
  intro name
  induction name with
  | nil => intro _; simp [cutDefault]
  | cons x rest ih =>
    intro h
    have hr : ¬ [(58 : Byte), 45] <:+: rest ++ [58] := fun e => h (List.infix_cons e)
    have hcond : ¬ (x = 58 ∧ (rest ++ 58 :: 45 :: dflt).head? = some 45) := by
      rintro ⟨h1, h2⟩
      apply h
      cases rest with
      | nil => simp at h2
      | cons y rest2 =>
        simp only [List.cons_append, List.head?_cons, Option.some.injEq] at h2
        subst h1 h2
        exact (List.prefix_append [(58 : Byte), 45] (rest2 ++ [58])).isInfix
    show cutDefault (x :: (rest ++ 58 :: 45 :: dflt)) = some (x :: rest, dflt)
    rw [cutDefault, if_neg hcond, ih hr]
    rfl

/-- `ExpandEnv` on a text that is one token. -/
theorem ExpandEnv_token (env : Env) (c : List Byte) (hne : c ≠ []) (hbrace : (125 : Byte) ∉ c) :
    ExpandEnv env (ascii "$\x7b" ++ c ++ ascii "\x7d") = replaceMatch env c := by
  have e1 : ascii "$\x7b" = [36, 123] := by decide
  have e2 : ascii "\x7d" = [125] := by decide
  have e3 : [(36 : Byte), 123] ++ c ++ [125] = 36 :: 123 :: (c ++ [125]) := by simp
  rw [e1, e2, e3]
  unfold ExpandEnv
  rw [expandLoop]
  simp only [matchToken_token c [] hne hbrace, expandLoop_nil, List.append_nil]

/-- C10. For every token content `c` that is non-empty and holds no `}`,
`ExpandEnv` of `${c}` follows the three-way rule.  When `c` holds `:-`, with
`name` the part before its first occurrence and `dflt` the part after it, the
result is the value of `name` when it is set and non-empty and `dflt` (which
may be empty) otherwise; when `c` holds no `:-`, the result is the value of `c`
when it is set and non-empty and the text `${c}` itself otherwise.  A variable
set to the empty string counts as unset. -/
theorem C10_token_rule (env : Env) (c : List Byte) (hne : c ≠ []) (hbrace : (125 : Byte) ∉ c) :
    (∀ name dflt : List Byte, c = name ++ ascii ":-" ++ dflt →
      ¬ ascii ":-" <:+: name ++ ascii ":" →
      ExpandEnv env (ascii "$\x7b" ++ c ++ ascii "\x7d") =
        match env name with
        | some value => if value = [] then dflt else value
        | none => dflt) ∧
    (¬ ascii ":-" <:+: c →
      ExpandEnv env (ascii "$\x7b" ++ c ++ ascii "\x7d") =
        match env c with
        | some value => if value = [] then ascii "$\x7b" ++ c ++ ascii "\x7d" else value
        | none => ascii "$\x7b" ++ c ++ ascii "\x7d") := by
  have e1 : ascii ":-" = [58, 45] := by decide
  have e2 : ascii ":" = [58] := by decide
  rw [ExpandEnv_token env c hne hbrace, e1, e2]
  constructor
  · intro name dflt hc hfirst
    have hcut : cutDefault c = some (name, dflt) := by
      rw [hc]
      simpa using cutDefault_first dflt name hfirst
    simp only [replaceMatch, hcut, Getenv]
    cases env name with
    | none => simp
    | some value =>
      by_cases hv : value = []
      · simp [hv]
      · simp [hv]
  · intro hnone
    simp only [replaceMatch, cutDefault_none c hnone, Getenv]
    cases env c with
    | none => simp
    | some value =>
      by_cases hv : value = []
      · simp [hv]
      · simp [hv]

/-- C10 at concrete inputs, in the environment `A=1`, `C=3`, `E` empty: `${A}`
gives `1`, `${B:-2}` gives `2`, `${C:-2}` gives `3`, `${D}` stays `${D}`, and
`${E}` and `${E:-x}` behave as for an unset `E`. -/
theorem C10_token_rule_witness :
    ExpandEnv sampleEnv (ascii "$\x7bA\x7d") = ascii "1" ∧
    ExpandEnv sampleEnv (ascii "$\x7bB:-2\x7d") = ascii "2" ∧
    ExpandEnv sampleEnv (ascii "$\x7bC:-2\x7d") = ascii "3" ∧
    ExpandEnv sampleEnv (ascii "$\x7bD\x7d") = ascii "$\x7bD\x7d" ∧
    ExpandEnv sampleEnv (ascii "$\x7bE\x7d") = ascii "$\x7bE\x7d" ∧
    ExpandEnv sampleEnv (ascii "$\x7bE:-x\x7d") = ascii "x" :=
  ⟨(C10_token_rule sampleEnv (ascii "A") (by decide) (by decide)).2 (by decide),
   (C10_token_rule sampleEnv (ascii "B:-2") (by decide) (by decide)).1
      (ascii "B") (ascii "2") (by decide) (by decide),
   (C10_token_rule sampleEnv (ascii "C:-2") (by decide) (by decide)).1
      (ascii "C") (ascii "2") (by decide) (by decide),
   (C10_token_rule sampleEnv (ascii "D") (by decide) (by decide)).2 (by decide),
   (C10_token_rule sampleEnv (ascii "E") (by decide) (by decide)).2 (by decide),
   (C10_token_rule sampleEnv (ascii "E:-x") (by decide) (by decide)).1
      (ascii "E") (ascii "x") (by decide) (by decide)⟩

/-! ## Wrong password, tampering, truncation -/

theorem DecryptConfig_parts (C : Crypto) (hK : C.KeyLen) (a b salt box password : List Byte)
    (ha : (58 : Byte) ∉ a) (hsalt : base64.DecodeString a = .ok salt)
    (hbox : base64.DecodeString b = .ok box) :
    DecryptConfig C (a ++ 58 :: b) password
      = if box.length < NonceSize then .error .ciphertextTooShort
        else match C.Open (deriveKey C password salt) (box.take NonceSize)
            (box.drop NonceSize) [] with
          | none => .error .decrypting
          | some plaintext => .ok plaintext := by
  unfold DecryptConfig
  rw [splitString_first a b 58 ha]
  simp only [hsalt, hbox, New_deriveKey C hK]

/-- C2, the counterexample to the claim as written: whatever the key
derivation and the AEAD are, as long as keys are 32 bytes and `Open` inverts
`Seal`, the claim fails.  There are more passwords than keys, so two distinct
passwords derive the same key from the salt, and the envelope sealed under one
decrypts under the other. -/
theorem C2_key_collision_counterexample :
    ¬ ∃ C : Crypto, C.KeyLen ∧ C.OpenInvertsSeal ∧
      ∀ (plaintext password password2 salt nonce encrypted : List Byte),
        salt.length = 16 → nonce.length = 12 → password2 ≠ password →
        EncryptConfig C (salt ++ nonce ++ []) plaintext password = .ok encrypted →
        ∃ e, DecryptConfig C encrypted password2 = .error e := by
  rintro ⟨C, hK, hA, hclaim⟩
  have hs : sampleSalt.length = 16 := by decide
  have hn : sampleNonce.length = 12 := by decide
  let f : List Byte → Mathlib.Vector Byte 32 :=
    fun password => ⟨deriveKey C password sampleSalt, hK _ _ _ _ _ _⟩
  obtain ⟨password, password2, hne, hf⟩ := Finite.exists_ne_map_eq_of_infinite f
  have hkey : deriveKey C password sampleSalt = deriveKey C password2 sampleSalt :=
    congrArg Subtype.val hf
  obtain ⟨e, he⟩ := hclaim [] password password2 sampleSalt sampleNonce _ hs hn hne.symm
    (EncryptConfig_eq C hK sampleSalt sampleNonce [] [] password hs hn)
  rw [DecryptConfig_sealed C hK sampleSalt sampleNonce _ password2 hn, ← hkey,
    hA (deriveKey C password sampleSalt) sampleNonce [] (hK _ _ _ _ _ _) hn] at he
  exact Except.noConfusion he

/-- C2, as the code has it.  For every plaintext and passwords `password`,
`password2` such that the AEAD's `Open` rejects, under the key derived from
`password2`, the box sealed under the key derived from `password`,
`DecryptConfig` of the output of `EncryptConfig` under `password2` returns the
decryption-failed error and no plaintext.  `DecryptConfig` has no check of the
password other than the AEAD's. -/
theorem C2_wrong_password (C : Crypto) (hK : C.KeyLen)
    (plaintext password password2 salt nonce rest : List Byte)
    (hs : salt.length = 16) (hn : nonce.length = 12)
    (hReject : C.Open (deriveKey C password2 salt) nonce
      (C.Seal (deriveKey C password salt) nonce plaintext []) [] = none) :
    ∃ encrypted, EncryptConfig C (salt ++ nonce ++ rest) plaintext password = .ok encrypted ∧
      DecryptConfig C encrypted password2 = .error .decrypting := by
  refine ⟨_, EncryptConfig_eq C hK salt nonce rest plaintext password hs hn, ?_⟩
  rw [DecryptConfig_sealed C hK salt nonce _ password2 hn, hReject]

/-- C2 at a concrete input: the sample primitives, sealed under `pw`, opened
under `px`. -/
theorem C2_wrong_password_witness :
    ∃ encrypted, EncryptConfig sampleCrypto (sampleSalt ++ sampleNonce ++ [])
        (ascii "\x7b\x7d") (ascii "pw") = .ok encrypted ∧
      DecryptConfig sampleCrypto encrypted (ascii "px") = .error .decrypting :=
  C2_wrong_password sampleCrypto sampleCrypto_KeyLen (ascii "\x7b\x7d") (ascii "pw") (ascii "px")
    sampleSalt sampleNonce [] (by decide) (by decide) (by decide)

/-- C9, the counterexample to the claim as written: whatever the primitives
are, as long as keys are 32 bytes, truncating the ciphertext of an envelope to
nothing does not give the decryption-failed error (it gives the
ciphertext-too-short error). -/
theorem C9_truncation_counterexample :
    ¬ ∃ C : Crypto, C.KeyLen ∧
      ∀ (plaintext password salt nonce : List Byte) (k : Nat),
        salt.length = 16 → nonce.length = 12 →
        k < (nonce ++ C.Seal (deriveKey C password salt) nonce plaintext []).length →
        DecryptConfig C (base64.EncodeToString salt ++ ascii ":" ++ base64.EncodeToString
          ((nonce ++ C.Seal (deriveKey C password salt) nonce plaintext []).take k)) password
          = .error .decrypting := by
  rintro ⟨C, hK, hclaim⟩
  have h := hclaim [] [] sampleSalt sampleNonce 0 (by decide) (by decide)
    (by rw [List.length_append]; exact Nat.lt_of_lt_of_le (by decide) (Nat.le_add_right _ _))
  rw [DecryptConfig_envelope C hK] at h
  simp [NonceSize] at h

/-- C9, as the code has it.  For every envelope produced by `EncryptConfig`,
decrypting it with another password, decrypting it after replacing its sealed
bytes by others, and decrypting it after truncating its sealed bytes (the nonce
is kept) all return the one decryption-failed error, in each case when the
AEAD's `Open` rejects the box: the error does not tell the causes apart. -/
theorem C9_single_error (C : Crypto) (hK : C.KeyLen)
    (plaintext password password2 salt nonce rest corrupted : List Byte) (k : Nat)
    (hs : salt.length = 16) (hn : nonce.length = 12)
    (hWrong : C.Open (deriveKey C password2 salt) nonce
      (C.Seal (deriveKey C password salt) nonce plaintext []) [] = none)
    (hCorrupt : C.Open (deriveKey C password salt) nonce corrupted [] = none)
    (hTrunc : C.Open (deriveKey C password salt) nonce
      ((C.Seal (deriveKey C password salt) nonce plaintext []).take k) [] = none) :
    EncryptConfig C (salt ++ nonce ++ rest) plaintext password
      = .ok (base64.EncodeToString salt ++ ascii ":" ++ base64.EncodeToString
          (nonce ++ C.Seal (deriveKey C password salt) nonce plaintext [])) ∧
    DecryptConfig C (base64.EncodeToString salt ++ ascii ":" ++ base64.EncodeToString
        (nonce ++ C.Seal (deriveKey C password salt) nonce plaintext [])) password2
      = .error .decrypting ∧
    DecryptConfig C (base64.EncodeToString salt ++ ascii ":" ++ base64.EncodeToString
        (nonce ++ corrupted)) password = .error .decrypting ∧
    DecryptConfig C (base64.EncodeToString salt ++ ascii ":" ++ base64.EncodeToString
        (nonce ++ (C.Seal (deriveKey C password salt) nonce plaintext []).take k)) password
      = .error .decrypting := by
  refine ⟨EncryptConfig_eq C hK salt nonce rest plaintext password hs hn, ?_, ?_, ?_⟩
  · rw [DecryptConfig_sealed C hK salt nonce _ password2 hn, hWrong]
  · rw [DecryptConfig_sealed C hK salt nonce _ password hn, hCorrupt]
  · rw [DecryptConfig_sealed C hK salt nonce _ password hn, hTrunc]

/-- C9 at a concrete input: the sample primitives, plaintext `{}` sealed under
`pw`; opened under `px`, opened with 18 zero bytes for sealed bytes, and opened
with the sealed bytes cut to 17. -/
theorem C9_single_error_witness :
    DecryptConfig sampleCrypto
        (ascii "AQIDBAUGBwgJCgsMDQ4PEA==:ZWZnaGlqa2xtbm9we30AAAAAAAAAAAAAAAAAAABl") (ascii "px")
      = .error .decrypting ∧
    DecryptConfig sampleCrypto
        (ascii "AQIDBAUGBwgJCgsMDQ4PEA==:ZWZnaGlqa2xtbm9wAAAAAAAAAAAAAAAAAAAAAAAA") (ascii "pw")
      = .error .decrypting ∧
    DecryptConfig sampleCrypto
        (ascii "AQIDBAUGBwgJCgsMDQ4PEA==:ZWZnaGlqa2xtbm9we30AAAAAAAAAAAAAAAAAAAA=") (ascii "pw")
      = .error .decrypting :=
  (C9_single_error sampleCrypto sampleCrypto_KeyLen (ascii "\x7b\x7d") (ascii "pw") (ascii "px")
    sampleSalt sampleNonce [] (List.replicate 18 0) 17 (by decide) (by decide) (by decide)
    (by decide) (by decide)).2

theorem EncodeToString_append (m : List Byte) (l : List Byte) (h : l.length % 3 = 0) :
    base64.EncodeToString (l ++ m) = base64.EncodeToString l ++ base64.EncodeToString m := by
  induction l using base64.EncodeToString.induct with
  | case1 => simp [base64.EncodeToString]
  | case2 a => simp at h
  | case3 a b => simp at h
  | case4 a b c rest ih =>
    have hr : rest.length % 3 = 0 := by
      simp only [List.length_cons] at h
      omega
    simp only [List.cons_append, base64.EncodeToString, List.append_eq, ih hr]

theorem decodeLoop_encode_append (t : List Byte) (l : List Byte) (h : l.length % 3 = 0) :
    ∀ (si : Nat) (out : List Byte),
      base64.decodeLoop (base64.EncodeToString l ++ t) si [] out
        = base64.decodeLoop t (si + (base64.EncodeToString l).length) [] (out ++ l) := by
  induction l using base64.EncodeToString.induct with
  | case1 => intro si out; simp [base64.EncodeToString]
  | case2 a => simp at h
  | case3 a b => simp at h
  | case4 a b c rest ih =>
    have hr : rest.length % 3 = 0 := by
      simp only [List.length_cons] at h
      omega
    intro si out
    simp only [base64.EncodeToString, List.cons_append]
    rw [base64.decodeLoop_quad (Nat.mod_lt _ (by decide)) (Nat.mod_lt _ (by decide))
      (Nat.mod_lt _ (by decide)) (Nat.mod_lt _ (by decide)), base64.quantumBytes_four, ih hr]
    simp only [List.length_cons, List.append_assoc, List.cons_append, List.nil_append]
    congr 1
    omega

theorem flipBit_append (x : Byte) (rest : List Byte) (j : Nat) (hj : j < 8) :
    ∀ a : List Byte, flipBit (a ++ x :: rest) (8 * a.length + j)
      = a ++ Fin.ofNat (x.val ^^^ 2 ^ j) :: rest := by
  intro a
  induction a with
  | nil => simp [flipBit, hj]
  | cons y a ih =>
    have h1 : ¬ 8 * (y :: a).length + j < 8 := by
      simp only [List.length_cons]
      omega
    have h2 : 8 * (y :: a).length + j - 8 = 8 * a.length + j := by
      simp only [List.length_cons]
      omega
    simp only [List.cons_append, flipBit, h1, if_false, h2, List.append_eq, ih]

/-- The decoder does not look at the four low bits of the character before
`==`: for every last byte there is a bit of that character whose flip gives
another text that decodes to the same bytes. -/
theorem DecodeString_ignores_bit (pre : List Byte) (hpre : pre.length % 3 = 0) (b : Byte) :
    ∃ j, j < 8 ∧
      base64.DecodeString (base64.EncodeToString pre ++
        [base64.encodeStd (b.val * 65536 / 262144 % 64),
          Fin.ofNat ((base64.encodeStd (b.val * 65536 / 4096 % 64)).val ^^^ 2 ^ j),
          base64.padChar, base64.padChar]) = .ok (pre ++ [b]) := by
  have hb := b.isLt
  have finish : ∀ (j y : Nat), y < 64 → y / 16 = b.val % 4 →
      (Fin.ofNat ((base64.encodeStd (b.val * 65536 / 4096 % 64)).val ^^^ 2 ^ j) : Byte)
        = base64.encodeStd y →
      base64.DecodeString (base64.EncodeToString pre ++
        [base64.encodeStd (b.val * 65536 / 262144 % 64),
          Fin.ofNat ((base64.encodeStd (b.val * 65536 / 4096 % 64)).val ^^^ 2 ^ j),
          base64.padChar, base64.padChar]) = .ok (pre ++ [b]) := by
    intro j y hy hy16 hflip
    rw [hflip]
    unfold base64.DecodeString
    rw [decodeLoop_encode_append _ pre hpre,
      base64.decodeLoop_pad2 (Nat.mod_lt _ (by decide)) hy, base64.quantumBytes_two_val]
    have e : (b.val * 65536 / 262144 % 64 * 4 + y / 16) % 256 = b.val := by omega
    rw [e, base64.ofNat_val]
    simp
  have hcases : b.val % 4 = 0 ∨ b.val % 4 = 1 ∨ b.val % 4 = 2 ∨ b.val % 4 = 3 := by omega
  rcases hcases with h | h | h | h
  · have e : b.val * 65536 / 4096 % 64 = 0 := by omega
    exact ⟨1, by decide, finish 1 2 (by decide) (by rw [h]) (by rw [e]; decide)⟩
  · have e : b.val * 65536 / 4096 % 64 = 16 := by omega
    exact ⟨1, by decide, finish 1 18 (by decide) (by rw [h]) (by rw [e]; decide)⟩
  · have e : b.val * 65536 / 4096 % 64 = 32 := by omega
    exact ⟨3, by decide, finish 3 40 (by decide) (by rw [h]) (by rw [e]; decide)⟩
  · have e : b.val * 65536 / 4096 % 64 = 48 := by omega
    exact ⟨6, by decide, finish 6 59 (by decide) (by rw [h]) (by rw [e]; decide)⟩

/-- C3, the counterexample to the claim as written, for bits of the envelope
text: whatever the primitives are, as long as keys are 32 bytes, `Open` inverts
`Seal` and the tag is 16 bytes, some single bit of the ciphertext portion of an
envelope can be flipped without making `DecryptConfig` fail.  The envelope of
the empty plaintext carries 28 bytes, so its text ends in two characters and
`==`, and the decoder ignores the four low bits of the second character. -/
theorem C3_ignored_bit_counterexample :
    ¬ ∃ C : Crypto, C.KeyLen ∧ C.OpenInvertsSeal ∧ C.SealLen ∧
      ∀ (plaintext password salt nonce : List Byte) (i : Nat),
        salt.length = 16 → nonce.length = 12 →
        i < 8 * (base64.EncodeToString
          (nonce ++ C.Seal (deriveKey C password salt) nonce plaintext [])).length →
        ∃ e, DecryptConfig C (base64.EncodeToString salt ++ ascii ":" ++
          flipBit (base64.EncodeToString
            (nonce ++ C.Seal (deriveKey C password salt) nonce plaintext [])) i) password
          = .error e := by
  rintro ⟨C, hK, hA, hL, hclaim⟩
  have hs : sampleSalt.length = 16 := by decide
  have hn : sampleNonce.length = 12 := by decide
  obtain ⟨sealed, hsealed⟩ :
      ∃ sealed, sealed = C.Seal (deriveKey C [] sampleSalt) sampleNonce [] [] := ⟨_, rfl⟩
  have hlen : (sampleNonce ++ sealed).length = 28 := by
    have hk : (deriveKey C [] sampleSalt).length = KeySize := hK _ _ _ _ _ _
    rw [List.length_append, hn, hsealed, hL _ _ _ hk hn]
    rfl
  obtain ⟨pre, b, hbox, hpre⟩ : ∃ pre b, sampleNonce ++ sealed = pre ++ [b] ∧ pre.length = 27 := by
    refine ⟨(sampleNonce ++ sealed).take 27, (sampleNonce ++ sealed).getLast
      (by intro h0; rw [h0] at hlen; simp at hlen), ?_, ?_⟩
    · have h1 : (sampleNonce ++ sealed).take 27 = (sampleNonce ++ sealed).dropLast := by
        rw [List.dropLast_eq_take, hlen]
      rw [h1, List.dropLast_append_getLast]
    · rw [List.length_take, hlen]
      rfl
  have hpre3 : pre.length % 3 = 0 := by rw [hpre]
  obtain ⟨j, hj, hdec⟩ := DecodeString_ignores_bit pre hpre3 b
  have henc : base64.EncodeToString (sampleNonce ++ sealed)
      = (base64.EncodeToString pre ++ [base64.encodeStd (b.val * 65536 / 262144 % 64)]) ++
        base64.encodeStd (b.val * 65536 / 4096 % 64) :: [base64.padChar, base64.padChar] := by
    rw [hbox, EncodeToString_append [b] pre hpre3]
    simp [base64.EncodeToString]
  have hflip : flipBit (base64.EncodeToString (sampleNonce ++ sealed))
      (8 * (base64.EncodeToString pre ++
        [base64.encodeStd (b.val * 65536 / 262144 % 64)]).length + j)
      = base64.EncodeToString pre ++
        [base64.encodeStd (b.val * 65536 / 262144 % 64),
          Fin.ofNat ((base64.encodeStd (b.val * 65536 / 4096 % 64)).val ^^^ 2 ^ j),
          base64.padChar, base64.padChar] := by
    rw [henc, flipBit_append _ _ j hj]
    simp
  have hi : 8 * (base64.EncodeToString pre ++
        [base64.encodeStd (b.val * 65536 / 262144 % 64)]).length + j
      < 8 * (base64.EncodeToString (sampleNonce ++ sealed)).length := by
    rw [henc]
    simp only [List.length_append, List.length_cons, List.length_nil]
    omega
  rw [hsealed] at hflip hi
  obtain ⟨e, he⟩ := hclaim [] [] sampleSalt sampleNonce _ hs hn hi
  rw [hflip, ascii_colon, List.append_assoc, List.singleton_append,
    DecryptConfig_parts C hK _ _ sampleSalt (pre ++ [b]) []
      (base64.colon_not_mem_EncodeToString sampleSalt)
      (base64.DecodeString_EncodeToString sampleSalt) hdec, ← hbox] at he
  have h1 : ¬ (sampleNonce ++ sealed).length < NonceSize := by
    rw [hlen]
    decide
  have h2 : (sampleNonce ++ sealed).take NonceSize = sampleNonce := by
    simp [NonceSize, ← hn]
  have h3 : (sampleNonce ++ sealed).drop NonceSize = sealed := by
    simp [NonceSize, ← hn]
  rw [if_neg h1, h2, h3, hsealed,
    hA (deriveKey C [] sampleSalt) sampleNonce [] (hK _ _ _ _ _ _) hn] at he
  exact Except.noConfusion he

/-! ## What the decoder accepts for given bytes -/

set_option maxRecDepth 10000

theorem decodeMap_some_fin :
    ∀ c : Byte, (base64.decodeMap c).all (fun v =>
      decide (v < 64) && decide (base64.encodeStd v = c) && !base64.isNewline c) = true := by
  decide

theorem decodeMap_some (c : Byte) (v : Nat) (h : base64.decodeMap c = some v) :
    v < 64 ∧ base64.encodeStd v = c ∧ base64.isNewline c = false := by
  have := decodeMap_some_fin c
  rw [h] at this
  simpa [Option.all, and_assoc] using this

theorem skipNewlines_nil :
    ∀ (rest : List Byte) (si si2 : Nat), base64.skipNewlines rest si = ([], si2) →
      rest.filter (fun c => !base64.isNewline c) = [] := by
  intro rest
  induction rest with
  | nil => intro si si2 _; rfl
  | cons c rest ih =>
    intro si si2 h
    by_cases hc : base64.isNewline c = true
    · simp only [base64.skipNewlines, hc, if_true] at h
      simp [List.filter_cons, hc, ih _ _ h]
    · simp [base64.skipNewlines, hc] at h

theorem skipNewlines_cons :
    ∀ (rest : List Byte) (si si2 : Nat) (d : Byte) (r : List Byte),
      base64.skipNewlines rest si = (d :: r, si2) →
      rest.filter (fun c => !base64.isNewline c) = d :: r.filter (fun c => !base64.isNewline c) := by
  intro rest
  induction rest with
  | nil => intro si si2 d r h; simp [base64.skipNewlines] at h
  | cons c rest ih =>
    intro si si2 d r h
    by_cases hc : base64.isNewline c = true
    · simp only [base64.skipNewlines, hc, if_true] at h
      simp [List.filter_cons, hc, ih _ _ _ _ h]
    · simp only [base64.skipNewlines, hc] at h
      simp only [Bool.false_eq_true, if_false, Prod.mk.injEq, List.cons.injEq] at h
      obtain ⟨⟨h1, h2⟩, _⟩ := h
      subst h1 h2
      simp [List.filter_cons, hc]

theorem EncodeToString_quantum_four (v0 v1 v2 v3 : Nat) (h0 : v0 < 64) (h1 : v1 < 64)
    (h2 : v2 < 64) (h3 : v3 < 64) (b : List Byte) :
    base64.EncodeToString (base64.quantumBytes [v0, v1, v2, v3] ++ b) =
      base64.encodeStd v0 :: base64.encodeStd v1 :: base64.encodeStd v2 ::
        base64.encodeStd v3 :: base64.EncodeToString b := by
  simp only [base64.quantumBytes, List.getD_cons_zero, List.getD_cons_succ, List.length_cons,
    List.length_nil, List.map_cons, List.map_nil, List.take, List.cons_append, List.nil_append,
    base64.EncodeToString, Fin.ofNat]
  have e0 : ((v0 * 262144 + v1 * 4096 + v2 * 64 + v3) / 65536 % 256 % (255 + 1) * 65536 +
      (v0 * 262144 + v1 * 4096 + v2 * 64 + v3) / 256 % 256 % (255 + 1) * 256 +
      (v0 * 262144 + v1 * 4096 + v2 * 64 + v3) % 256 % (255 + 1)) =
      v0 * 262144 + v1 * 4096 + v2 * 64 + v3 := by omega
  simp only [e0]
  have e1 : (v0 * 262144 + v1 * 4096 + v2 * 64 + v3) / 262144 % 64 = v0 := by omega
  have e2 : (v0 * 262144 + v1 * 4096 + v2 * 64 + v3) / 4096 % 64 = v1 := by omega
  have e3 : (v0 * 262144 + v1 * 4096 + v2 * 64 + v3) / 64 % 64 = v2 := by omega
  have e4 : (v0 * 262144 + v1 * 4096 + v2 * 64 + v3) % 64 = v3 := by omega
  rw [e1, e2, e3, e4]
  rfl

theorem EncodeToString_quantum_two (v0 v1 : Nat) (h0 : v0 < 64) (h1 : v1 < 64) :
    base64.EncodeToString (base64.quantumBytes [v0, v1]) =
      [base64.encodeStd v0, base64.encodeStd (v1 / 16 * 16), base64.padChar, base64.padChar] := by
  rw [base64.quantumBytes_two_val]
  simp only [base64.EncodeToString, Fin.ofNat]
  have e1 : (v0 * 4 + v1 / 16) % 256 % (255 + 1) * 65536 / 262144 % 64 = v0 := by omega
  have e2 : (v0 * 4 + v1 / 16) % 256 % (255 + 1) * 65536 / 4096 % 64 = v1 / 16 * 16 := by omega
  rw [e1, e2]

theorem EncodeToString_quantum_three (v0 v1 v2 : Nat) (h0 : v0 < 64) (h1 : v1 < 64)
    (h2 : v2 < 64) :
    base64.EncodeToString (base64.quantumBytes [v0, v1, v2]) =
      [base64.encodeStd v0, base64.encodeStd v1, base64.encodeStd (v2 / 4 * 4),
        base64.padChar] := by
  simp only [base64.quantumBytes, List.getD_cons_zero, List.getD_cons_succ, List.length_cons,
    List.length_nil, List.map_cons, List.map_nil, List.take, List.getD_nil,
    base64.EncodeToString, Fin.ofNat]
  have e1 : ((v0 * 262144 + v1 * 4096 + v2 * 64 + 0) / 65536 % 256 % (255 + 1) * 65536 +
      (v0 * 262144 + v1 * 4096 + v2 * 64 + 0) / 256 % 256 % (255 + 1) * 256) / 262144 % 64
      = v0 := by omega
  have e2 : ((v0 * 262144 + v1 * 4096 + v2 * 64 + 0) / 65536 % 256 % (255 + 1) * 65536 +
      (v0 * 262144 + v1 * 4096 + v2 * 64 + 0) / 256 % 256 % (255 + 1) * 256) / 4096 % 64
      = v1 := by omega
  have e3 : ((v0 * 262144 + v1 * 4096 + v2 * 64 + 0) / 65536 % 256 % (255 + 1) * 65536 +
      (v0 * 262144 + v1 * 4096 + v2 * 64 + 0) / 256 % 256 % (255 + 1) * 256) / 64 % 64
      = v2 / 4 * 4 := by omega
  rw [e1, e2, e3]

theorem isNewline_padChar_false : base64.isNewline base64.padChar = false := by decide

/-- What the decoder accepts for given bytes: an input that decodes to `b` is,
its line breaks apart, the encoding of `b`, but for the last character before
the padding, whose unused low bits are free. -/
theorem decodeLoop_canonical :
    ∀ (t : List Byte) (si : Nat) (dbuf : List Nat) (out r : List Byte),
      dbuf.length ≤ 3 → (∀ v ∈ dbuf, v < 64) → base64.decodeLoop t si dbuf out = .ok r →
      ∃ b : List Byte, r = out ++ b ∧
        (dbuf.map base64.encodeStd ++ t.filter (fun c => !base64.isNewline c)
            = base64.EncodeToString b ∨
          ∃ (p : List Byte) (c c2 : Byte) (pad : List Byte),
            dbuf.map base64.encodeStd ++ t.filter (fun c => !base64.isNewline c)
              = p ++ c :: pad ∧
            base64.EncodeToString b = p ++ c2 :: pad ∧
            (pad = [base64.padChar] ∨ pad = [base64.padChar, base64.padChar])) := by
  intro t
  induction t with
  | nil =>
    intro si dbuf out r _ _ h
    simp only [base64.decodeLoop] at h
    by_cases hd : dbuf.length = 0
    · simp only [hd, if_true, Except.ok.injEq] at h
      have hnil : dbuf = [] := List.length_eq_zero.mp hd
      subst hnil
      exact ⟨[], by simp [h], Or.inl (by simp [base64.EncodeToString])⟩
    · simp [hd] at h
  | cons c rest ih =>
    intro si dbuf out r hlen hval h
    unfold base64.decodeLoop at h
    cases hm : base64.decodeMap c with
    | some v =>
      obtain ⟨hv, hcv, hnl⟩ := decodeMap_some c v hm
      simp only [hm] at h
      have hfilter : (c :: rest).filter (fun c => !base64.isNewline c)
          = c :: rest.filter (fun c => !base64.isNewline c) := by
        simp [List.filter_cons, hnl]
      by_cases h3 : dbuf.length = 3
      · simp only [h3, if_true] at h
        obtain ⟨v0, v1, v2, hd⟩ := List.length_eq_three.mp h3
        subst hd
        have h0 : v0 < 64 := hval v0 (by simp)
        have h1 : v1 < 64 := hval v1 (by simp)
        have h2 : v2 < 64 := hval v2 (by simp)
        obtain ⟨b2, hr, hcan⟩ := ih (si + 1) [] _ r (by simp) (by simp) h
        refine ⟨base64.quantumBytes [v0, v1, v2, v] ++ b2, ?_, ?_⟩
        · rw [hr]
          simp
        · rw [hfilter, EncodeToString_quantum_four v0 v1 v2 v h0 h1 h2 hv b2, ← hcv]
          simp only [List.map_nil, List.nil_append] at hcan
          rcases hcan with hE | ⟨p, x, x2, pad, hs, hE, hpad⟩
          · left
            rw [hE, hcv]
            simp
          · right
            refine ⟨base64.encodeStd v0 :: base64.encodeStd v1 :: base64.encodeStd v2 ::
              base64.encodeStd v :: p, x, x2, pad, ?_, ?_, hpad⟩
            · rw [hs, hcv]
              simp
            · rw [hE, hcv]
              simp
      · simp only [h3, if_false] at h
        obtain ⟨b2, hr, hcan⟩ := ih (si + 1) (dbuf ++ [v]) out r
          (by simp only [List.length_append, List.length_singleton]; omega)
          (by
            intro w hw
            rcases List.mem_append.mp hw with h1 | h1
            · exact hval w h1
            · simp only [List.mem_singleton] at h1
              rw [h1]
              exact hv) h
        refine ⟨b2, hr, ?_⟩
        rw [hfilter]
        simpa [hcv] using hcan
    | none =>
      simp only [hm] at h
      by_cases hnl : base64.isNewline c = true
      · simp only [hnl, if_true] at h
        obtain ⟨b2, hr, hcan⟩ := ih (si + 1) dbuf out r hlen hval h
        refine ⟨b2, hr, ?_⟩
        have hfilter : (c :: rest).filter (fun c => !base64.isNewline c)
            = rest.filter (fun c => !base64.isNewline c) := by
          simp [List.filter_cons, hnl]
        rw [hfilter]
        exact hcan
      · simp only [hnl, Bool.false_eq_true, if_false] at h
        by_cases hp : c ≠ base64.padChar
        · simp [hp] at h
        · have hc : c = base64.padChar := not_not.mp hp
          simp only [hp, if_false] at h
          have hfilter : (c :: rest).filter (fun c => !base64.isNewline c)
              = base64.padChar :: rest.filter (fun c => !base64.isNewline c) := by
            simp [List.filter_cons, hc, isNewline_padChar_false]
          rw [hfilter]
          unfold base64.decodePadding at h
          by_cases hl2 : dbuf.length < 2
          · simp [hl2] at h
          · simp only [hl2, if_false] at h
            by_cases he2 : dbuf.length = 2
            · simp only [he2, if_true] at h
              obtain ⟨v0, v1, hd⟩ := List.length_eq_two.mp he2
              subst hd
              have h0 : v0 < 64 := hval v0 (by simp)
              have h1 : v1 < 64 := hval v1 (by simp)
              rcases hsk : base64.skipNewlines rest (si + 1) with ⟨l1, si2⟩
              rw [hsk] at h
              cases l1 with
              | nil => simp at h
              | cons d r1 =>
                simp only at h
                by_cases hdp : d ≠ base64.padChar
                · simp [hdp] at h
                · have hd : d = base64.padChar := not_not.mp hdp
                  simp only [hdp, if_false] at h
                  rcases hsk2 : base64.skipNewlines r1 (si2 + 1) with ⟨l2, si3⟩
                  rw [hsk2] at h
                  cases l2 with
                  | cons d2 r2 => simp at h
                  | nil =>
                    simp only [Except.ok.injEq] at h
                    have hf1 := skipNewlines_cons rest _ _ d r1 hsk
                    have hf2 := skipNewlines_nil r1 _ _ hsk2
                    refine ⟨base64.quantumBytes [v0, v1], h.symm, Or.inr ?_⟩
                    refine ⟨[base64.encodeStd v0], base64.encodeStd v1,
                      base64.encodeStd (v1 / 16 * 16), [base64.padChar, base64.padChar],
                      ?_, ?_, Or.inr rfl⟩
                    · rw [hf1, hf2, hd]
                      simp
                    · rw [EncodeToString_quantum_two v0 v1 h0 h1]
                      simp
            · simp only [he2, if_false] at h
              have he3 : dbuf.length = 3 := by omega
              obtain ⟨v0, v1, v2, hd⟩ := List.length_eq_three.mp he3
              subst hd
              have h0 : v0 < 64 := hval v0 (by simp)
              have h1 : v1 < 64 := hval v1 (by simp)
              have h2 : v2 < 64 := hval v2 (by simp)
              rcases hsk : base64.skipNewlines rest (si + 1) with ⟨l1, si2⟩
              rw [hsk] at h
              cases l1 with
              | cons d r1 => simp at h
              | nil =>
                simp only [Except.ok.injEq] at h
                have hf1 := skipNewlines_nil rest _ _ hsk
                refine ⟨base64.quantumBytes [v0, v1, v2], h.symm, Or.inr ?_⟩
                refine ⟨[base64.encodeStd v0, base64.encodeStd v1], base64.encodeStd v2,
                  base64.encodeStd (v2 / 4 * 4), [base64.padChar], ?_, ?_, Or.inl rfl⟩
                · rw [hf1]
                  simp
                · rw [EncodeToString_quantum_three v0 v1 v2 h0 h1 h2]
                  simp

theorem encodeStd_not_newline_fin : ∀ n : Fin 64, base64.isNewline (base64.encodeStd n.val) = false := by
  decide

theorem isNewline_EncodeToString (l : List Byte) :
    ∀ c ∈ base64.EncodeToString l, base64.isNewline c = false := by
  have hstd : ∀ n : Nat, base64.isNewline (base64.encodeStd (n % 64)) = false :=
    fun n => encodeStd_not_newline_fin ⟨n % 64, Nat.mod_lt _ (by decide)⟩
  induction l using base64.EncodeToString.induct with
  | case1 => intro c hc; simp [base64.EncodeToString] at hc
  | case2 a =>
    intro c hc
    simp only [base64.EncodeToString, List.mem_cons, List.mem_singleton, List.mem_nil_iff,
      or_false] at hc
    rcases hc with h | h | h | h <;> rw [h]
    · exact hstd _
    · exact hstd _
    · exact isNewline_padChar_false
    · exact isNewline_padChar_false
  | case3 a b =>
    intro c hc
    simp only [base64.EncodeToString, List.mem_cons, List.mem_singleton, List.mem_nil_iff,
      or_false] at hc
    rcases hc with h | h | h | h <;> rw [h]
    · exact hstd _
    · exact hstd _
    · exact hstd _
    · exact isNewline_padChar_false
  | case4 a b c rest ih =>
    intro x hx
    simp only [base64.EncodeToString, List.mem_cons] at hx
    rcases hx with h | h | h | h | h
    · rw [h]; exact hstd _
    · rw [h]; exact hstd _
    · rw [h]; exact hstd _
    · rw [h]; exact hstd _
    · exact ih x h

theorem filter_newline_free (l : List Byte) (h : ∀ c ∈ l, base64.isNewline c = false) :
    l.filter (fun c => !base64.isNewline c) = l := by
  apply List.filter_eq_self.mpr
  intro c hc
  simp [h c hc]

/-- The flip of bit `i` changes the byte at `i / 8` and nothing else. -/
theorem flipBit_split (t : List Byte) (i : Nat) (hi : i < 8 * t.length) :
    ∃ (pre : List Byte) (ch : Byte) (post : List Byte), t = pre ++ ch :: post ∧
      pre.length = i / 8 ∧
      flipBit t i = pre ++ Fin.ofNat (ch.val ^^^ 2 ^ (i % 8)) :: post := by
  have hk : i / 8 < t.length := by omega
  refine ⟨t.take (i / 8), t.get ⟨i / 8, hk⟩, t.drop (i / 8 + 1), ?_, ?_, ?_⟩
  · have h1 := List.take_append_drop (i / 8) t
    rw [List.drop_eq_getElem_cons hk] at h1
    exact h1.symm
  · rw [List.length_take]
    omega
  · have h1 : t = t.take (i / 8) ++ t.get ⟨i / 8, hk⟩ :: t.drop (i / 8 + 1) := by
      have h2 := List.take_append_drop (i / 8) t
      rw [List.drop_eq_getElem_cons hk] at h2
      exact h2.symm
    have hlen : (t.take (i / 8)).length = i / 8 := by
      rw [List.length_take]
      omega
    have h3 := flipBit_append (t.get ⟨i / 8, hk⟩) (t.drop (i / 8 + 1)) (i % 8)
      (Nat.mod_lt _ (by decide)) (t.take (i / 8))
    rw [hlen] at h3
    have h4 : 8 * (i / 8) + i % 8 = i := Nat.div_add_mod i 8
    rw [h4, ← h1] at h3
    exact h3

theorem flip_changes_fin :
    ∀ (c : Byte) (j : Fin 8), (Fin.ofNat (c.val ^^^ 2 ^ j.val) : Byte) ≠ c := by
  decide

/-- Two lists that are the same but for one place, cut before a place where
they may differ, are cut at the same place. -/
theorem one_place_differs (x y c c2 : Byte) (post pad : List Byte) (hxy : x ≠ y) :
    ∀ pre p : List Byte, pre ++ x :: post = p ++ c :: pad → pre ++ y :: post = p ++ c2 :: pad →
      post = pad := by
  intro pre
  induction pre with
  | nil =>
    intro p h1 h2
    cases p with
    | nil =>
      simp only [List.nil_append, List.cons.injEq] at h1
      exact h1.2
    | cons q p2 =>
      simp only [List.nil_append, List.cons_append, List.cons.injEq] at h1 h2
      exact absurd (h1.1.trans h2.1.symm) hxy
  | cons a pre2 ih =>
    intro p h1 h2
    cases p with
    | nil =>
      simp only [List.nil_append, List.cons_append, List.cons.injEq] at h1 h2
      have h3 : pre2 ++ x :: post = pre2 ++ y :: post := h1.2.trans h2.2.symm
      have h4 := List.append_cancel_left h3
      simp only [List.cons.injEq] at h4
      exact absurd h4.1 hxy
    | cons q p2 =>
      simp only [List.cons_append, List.cons.injEq] at h1 h2
      exact ih p2 h1.2 h2.2

/-- A flipped bit that the decoder ignores is in the last character before the
padding: when the text of `box` with one bit flipped still decodes to `box`,
the character that holds the bit is followed by `=` or `==` and nothing else. -/
theorem DecodeString_flipBit_same (box : List Byte) (i : Nat)
    (hi : i < 8 * (base64.EncodeToString box).length)
    (hdec : base64.DecodeString (flipBit (base64.EncodeToString box) i) = .ok box) :
    ∃ (pre : List Byte) (ch : Byte) (pad : List Byte),
      base64.EncodeToString box = pre ++ ch :: pad ∧ pre.length = i / 8 ∧
      (pad = [base64.padChar] ∨ pad = [base64.padChar, base64.padChar]) := by
  obtain ⟨pre, ch, post, hsplit, hlen, hflip⟩ := flipBit_split _ i hi
  have hne : (Fin.ofNat (ch.val ^^^ 2 ^ (i % 8)) : Byte) ≠ ch :=
    flip_changes_fin ch ⟨i % 8, Nat.mod_lt _ (by decide)⟩
  have hfree := isNewline_EncodeToString box
  rw [hsplit] at hfree
  have hpre : pre.filter (fun c => !base64.isNewline c) = pre :=
    filter_newline_free pre (fun c hc => hfree c (List.mem_append_left _ hc))
  have hpost : post.filter (fun c => !base64.isNewline c) = post :=
    filter_newline_free post
      (fun c hc => hfree c (List.mem_append_right _ (List.mem_cons_of_mem _ hc)))
  rw [hflip] at hdec
  obtain ⟨b, hb, hcan⟩ := decodeLoop_canonical _ 0 [] [] box (by simp) (by simp) hdec
  have hbox : b = box := by simpa using hb.symm
  subst hbox
  simp only [List.map_nil, List.nil_append, List.filter_append, hpre] at hcan
  by_cases hnl : base64.isNewline (Fin.ofNat (ch.val ^^^ 2 ^ (i % 8)) : Byte) = true
  · exfalso
    simp only [List.filter_cons, hnl, Bool.not_true, Bool.false_eq_true, if_false, hpost] at hcan
    have hl := congrArg List.length hsplit
    rcases hcan with hE | ⟨p, c, c2, pad, hs, hE, _⟩
    · rw [← hE] at hl
      simp only [List.length_append, List.length_cons] at hl
      omega
    · have h1 := congrArg List.length hs
      have h2 := congrArg List.length hE
      rw [hl] at h2
      simp only [List.length_append, List.length_cons] at h1 h2
      omega
  · simp only [List.filter_cons, hnl, Bool.not_false, if_true, hpost] at hcan
    rcases hcan with hE | ⟨p, c, c2, pad, hs, hE, hpad⟩
    · exfalso
      rw [hsplit] at hE
      have h1 := List.append_cancel_left hE
      simp only [List.cons.injEq] at h1
      exact hne h1.1
    · rw [hsplit] at hE
      have hpp := one_place_differs _ _ c c2 post pad hne pre p hs hE
      exact ⟨pre, ch, pad, by rw [hsplit, hpp], hlen, hpad⟩

/-- C3, as the code has it, for every bit of the envelope text.  For every
envelope produced by `EncryptConfig`, flipping any single bit of its ciphertext
portion (the base64 text after `:`, which carries nonce, ciphertext and tag)
has one of three outcomes.  `DecryptConfig` under the same password returns an
error; or the decoder ignores the bit, which then is in the last character
before the padding, the decoded box is unchanged and the plaintext itself is
returned; or the text decodes to another box and the AEAD's `Open` accepts
that box.  So where `Open` rejects every altered box, the result is an error
for every bit but an ignored one, and is never an altered plaintext. -/
theorem C3_tampered_text (C : Crypto) (hK : C.KeyLen) (hA : C.OpenInvertsSeal)
    (plaintext password salt nonce rest : List Byte) (i : Nat)
    (hs : salt.length = 16) (hn : nonce.length = 12)
    (hi : i < 8 * (base64.EncodeToString
      (nonce ++ C.Seal (deriveKey C password salt) nonce plaintext [])).length) :
    EncryptConfig C (salt ++ nonce ++ rest) plaintext password
      = .ok (base64.EncodeToString salt ++ ascii ":" ++ base64.EncodeToString
          (nonce ++ C.Seal (deriveKey C password salt) nonce plaintext [])) ∧
    ((∃ e, DecryptConfig C (base64.EncodeToString salt ++ ascii ":" ++
        flipBit (base64.EncodeToString
          (nonce ++ C.Seal (deriveKey C password salt) nonce plaintext [])) i) password
        = .error e) ∨
      (DecryptConfig C (base64.EncodeToString salt ++ ascii ":" ++
          flipBit (base64.EncodeToString
            (nonce ++ C.Seal (deriveKey C password salt) nonce plaintext [])) i) password
          = .ok plaintext ∧
        base64.DecodeString (flipBit (base64.EncodeToString
            (nonce ++ C.Seal (deriveKey C password salt) nonce plaintext [])) i)
          = .ok (nonce ++ C.Seal (deriveKey C password salt) nonce plaintext []) ∧
        ∃ (pre : List Byte) (ch : Byte) (pad : List Byte),
          base64.EncodeToString (nonce ++ C.Seal (deriveKey C password salt) nonce plaintext [])
            = pre ++ ch :: pad ∧ pre.length = i / 8 ∧
          (pad = [base64.padChar] ∨ pad = [base64.padChar, base64.padChar])) ∨
      (∃ box2 plaintext2 : List Byte,
        base64.DecodeString (flipBit (base64.EncodeToString
            (nonce ++ C.Seal (deriveKey C password salt) nonce plaintext [])) i) = .ok box2 ∧
        box2 ≠ nonce ++ C.Seal (deriveKey C password salt) nonce plaintext [] ∧
        NonceSize ≤ box2.length ∧
        C.Open (deriveKey C password salt) (box2.take NonceSize) (box2.drop NonceSize) []
          = some plaintext2 ∧
        DecryptConfig C (base64.EncodeToString salt ++ ascii ":" ++
          flipBit (base64.EncodeToString
            (nonce ++ C.Seal (deriveKey C password salt) nonce plaintext [])) i) password
          = .ok plaintext2)) ∧
    ((∀ box2 : List Byte,
        base64.DecodeString (flipBit (base64.EncodeToString
            (nonce ++ C.Seal (deriveKey C password salt) nonce plaintext [])) i) = .ok box2 →
        box2 ≠ nonce ++ C.Seal (deriveKey C password salt) nonce plaintext [] →
        NonceSize ≤ box2.length →
        C.Open (deriveKey C password salt) (box2.take NonceSize) (box2.drop NonceSize) []
          = none) →
      ((∃ e, DecryptConfig C (base64.EncodeToString salt ++ ascii ":" ++
          flipBit (base64.EncodeToString
            (nonce ++ C.Seal (deriveKey C password salt) nonce plaintext [])) i) password
          = .error e) ∨
        (DecryptConfig C (base64.EncodeToString salt ++ ascii ":" ++
            flipBit (base64.EncodeToString
              (nonce ++ C.Seal (deriveKey C password salt) nonce plaintext [])) i) password
            = .ok plaintext ∧
          ∃ (pre : List Byte) (ch : Byte) (pad : List Byte),
            base64.EncodeToString (nonce ++ C.Seal (deriveKey C password salt) nonce plaintext [])
              = pre ++ ch :: pad ∧ pre.length = i / 8 ∧
            (pad = [base64.padChar] ∨ pad = [base64.padChar, base64.padChar])))) := by
  obtain ⟨sealed, hsealed⟩ :
      ∃ sealed, sealed = C.Seal (deriveKey C password salt) nonce plaintext [] := ⟨_, rfl⟩
  have henc := EncryptConfig_eq C hK salt nonce rest plaintext password hs hn
  rw [← hsealed] at hi henc ⊢
  have hcolon := base64.colon_not_mem_EncodeToString salt
  have hsalt := base64.DecodeString_EncodeToString salt
  have hthree :
      (∃ e, DecryptConfig C (base64.EncodeToString salt ++ ascii ":" ++
        flipBit (base64.EncodeToString (nonce ++ sealed)) i) password = .error e) ∨
      (DecryptConfig C (base64.EncodeToString salt ++ ascii ":" ++
          flipBit (base64.EncodeToString (nonce ++ sealed)) i) password = .ok plaintext ∧
        base64.DecodeString (flipBit (base64.EncodeToString (nonce ++ sealed)) i)
          = .ok (nonce ++ sealed) ∧
        ∃ (pre : List Byte) (ch : Byte) (pad : List Byte),
          base64.EncodeToString (nonce ++ sealed) = pre ++ ch :: pad ∧ pre.length = i / 8 ∧
          (pad = [base64.padChar] ∨ pad = [base64.padChar, base64.padChar])) ∨
      (∃ box2 plaintext2 : List Byte,
        base64.DecodeString (flipBit (base64.EncodeToString (nonce ++ sealed)) i) = .ok box2 ∧
        box2 ≠ nonce ++ sealed ∧ NonceSize ≤ box2.length ∧
        C.Open (deriveKey C password salt) (box2.take NonceSize) (box2.drop NonceSize) []
          = some plaintext2 ∧
        DecryptConfig C (base64.EncodeToString salt ++ ascii ":" ++
          flipBit (base64.EncodeToString (nonce ++ sealed)) i) password = .ok plaintext2) := by
    rw [ascii_colon, List.append_assoc, List.singleton_append]
    cases hdec : base64.DecodeString (flipBit (base64.EncodeToString (nonce ++ sealed)) i) with
    | error e =>
      exact Or.inl ⟨_, DecryptConfig_bad_ciphertext C _ _ password salt e hcolon hsalt hdec⟩
    | ok box2 =>
      have hparts := DecryptConfig_parts C hK _ _ salt box2 password hcolon hsalt hdec
      by_cases hsame : box2 = nonce ++ sealed
      · subst hsame
        have h1 : ¬ (nonce ++ sealed).length < NonceSize := by
          simp only [List.length_append, hn, NonceSize]
          omega
        have h2 : (nonce ++ sealed).take NonceSize = nonce := by simp [NonceSize, ← hn]
        have h3 : (nonce ++ sealed).drop NonceSize = sealed := by simp [NonceSize, ← hn]
        rw [if_neg h1, h2, h3, hsealed,
          hA (deriveKey C password salt) nonce plaintext (hK _ _ _ _ _ _) hn] at hparts
        rw [← hsealed] at hparts
        exact Or.inr (Or.inl ⟨hparts, rfl, DecodeString_flipBit_same _ i hi hdec⟩)
      · by_cases hshort : box2.length < NonceSize
        · rw [if_pos hshort] at hparts
          exact Or.inl ⟨_, hparts⟩
        · rw [if_neg hshort] at hparts
          cases hopen : C.Open (deriveKey C password salt) (box2.take NonceSize)
              (box2.drop NonceSize) [] with
          | none =>
            rw [hopen] at hparts
            exact Or.inl ⟨_, hparts⟩
          | some plaintext2 =>
            rw [hopen] at hparts
            exact Or.inr (Or.inr ⟨box2, plaintext2, rfl, hsame, not_lt.mp hshort, hopen, hparts⟩)
  refine ⟨henc, hthree, ?_⟩
  intro hreject
  rcases hthree with h | ⟨h1, _, h3⟩ | ⟨box2, plaintext2, hd, hne, hlen, hopen, _⟩
  · exact Or.inl h
  · exact Or.inr ⟨h1, h3⟩
  · rw [hreject box2 hd hne hlen] at hopen
    exact Option.noConfusion hopen

/-- C3 at concrete inputs, on the sample primitives with the password `pw`.
For the plaintext `{}` the ciphertext portion has 40 characters and no
padding, and each of its 320 single-bit flips makes `DecryptConfig` fail.  For
the empty plaintext it ends in `bQ==`, and each flip fails but those of bits
1, 2 and 3 of the `Q`, which the decoder ignores and which return the
plaintext. -/
theorem C3_tampered_text_witness :
    EncryptConfig sampleCrypto (sampleSalt ++ sampleNonce ++ []) (ascii "\x7b\x7d") (ascii "pw")
      = .ok (base64.EncodeToString sampleSalt ++ ascii ":" ++ base64.EncodeToString
          (sampleNonce ++ sampleCrypto.Seal (deriveKey sampleCrypto (ascii "pw") sampleSalt)
            sampleNonce (ascii "\x7b\x7d") [])) ∧
    (∀ i : Fin 320,
      (DecryptConfig sampleCrypto (base64.EncodeToString sampleSalt ++ ascii ":" ++
        flipBit (base64.EncodeToString
          (sampleNonce ++ sampleCrypto.Seal (deriveKey sampleCrypto (ascii "pw") sampleSalt)
            sampleNonce (ascii "\x7b\x7d") [])) i.val) (ascii "pw")).toOption = none) ∧
    (∀ i : Fin 320, i.val ≠ 297 → i.val ≠ 298 → i.val ≠ 299 →
      (DecryptConfig sampleCrypto (base64.EncodeToString sampleSalt ++ ascii ":" ++
        flipBit (base64.EncodeToString
          (sampleNonce ++ sampleCrypto.Seal (deriveKey sampleCrypto (ascii "pw") sampleSalt)
            sampleNonce [] [])) i.val) (ascii "pw")).toOption = none) ∧
    (∀ i ∈ [297, 298, 299],
      DecryptConfig sampleCrypto (base64.EncodeToString sampleSalt ++ ascii ":" ++
        flipBit (base64.EncodeToString
          (sampleNonce ++ sampleCrypto.Seal (deriveKey sampleCrypto (ascii "pw") sampleSalt)
            sampleNonce [] [])) i) (ascii "pw") = .ok []) ∧
    base64.EncodeToString
        (sampleNonce ++ sampleCrypto.Seal (deriveKey sampleCrypto (ascii "pw") sampleSalt)
          sampleNonce [] []) = ascii "ZWZnaGlqa2xtbm9wAAAAAAAAAAAAAAAAAAAAbQ==" :=
  ⟨(C3_tampered_text sampleCrypto sampleCrypto_KeyLen sampleCrypto_OpenInvertsSeal
      (ascii "\x7b\x7d") (ascii "pw") sampleSalt sampleNonce [] 1
      (by decide) (by decide) (by decide)).1,
    by decide, by decide, by decide, by decide⟩

/-! ## `ExpandEnv` on a whole text -/

theorem scanToken_spec :
    ∀ (s c after : List Byte), scanToken s = some (c, after) →
      (125 : Byte) ∉ c ∧ s = c ++ 125 :: after := by
  intro s
  induction s with
  | nil => intro c after h; simp [scanToken] at h
  | cons x rest ih =>
    intro c after h
    by_cases hx : x = 125
    · simp only [scanToken, hx, if_true, Option.some.injEq, Prod.mk.injEq] at h
      obtain ⟨h1, h2⟩ := h
      subst h1 h2 hx
      simp
    · simp only [scanToken, hx, if_false, Option.map_eq_some', Prod.mk.injEq] at h
      obtain ⟨⟨c2, after2⟩, h1, h2, h3⟩ := h
      obtain ⟨k1, k2⟩ := ih c2 after2 h1
      simp only at h2 h3
      subst h2 h3
      refine ⟨?_, by rw [k2]; rfl⟩
      intro hmem
      rcases List.mem_cons.mp hmem with e | e
      · exact hx e.symm
      · exact k1 e

/-- A match at the start of a text is a token `${c}` with `c` non-empty and
without `}`. -/
theorem matchToken_spec (s c after : List Byte) (h : matchToken s = some (c, after)) :
    c ≠ [] ∧ (125 : Byte) ∉ c ∧ s = 36 :: 123 :: (c ++ 125 :: after) := by
  unfold matchToken at h
  split at h
  · rename_i rest
    cases hs : scanToken rest with
    | none => simp [hs] at h
    | some p =>
      obtain ⟨c2, after2⟩ := p
      simp only [hs] at h
      by_cases hc : c2 = []
      · simp [hc] at h
      · simp only [hc, if_false, Option.some.injEq, Prod.mk.injEq] at h
        obtain ⟨h1, h2⟩ := h
        subst h1 h2
        obtain ⟨k1, k2⟩ := scanToken_spec rest c2 after2 hs
        exact ⟨hc, k1, by rw [k2]⟩
  · exact absurd h (by simp)

theorem matchToken_after_length (s c after : List Byte) (h : matchToken s = some (c, after)) :
    after.length < s.length := by
  obtain ⟨_, _, hs⟩ := matchToken_spec s c after h
  rw [hs]
  simp only [List.length_cons, List.length_append]
  omega

/-- The scan does not depend on the fuel, once there is more of it than bytes. -/
theorem expandLoop_fuel (env : Env) :
    ∀ (n : Nat) (s : List Byte) (fuel fuel2 : Nat), s.length < n → s.length < fuel →
      s.length < fuel2 → expandLoop env fuel s = expandLoop env fuel2 s := by
  intro n
  induction n with
  | zero => intro s fuel fuel2 h; exact absurd h (Nat.not_lt_zero _)
  | succ n ih =>
    intro s fuel fuel2 hn hf hf2
    cases s with
    | nil => rw [expandLoop_nil, expandLoop_nil]
    | cons x rest =>
      obtain ⟨f, rfl⟩ : ∃ f, fuel = f + 1 := ⟨fuel - 1, by omega⟩
      obtain ⟨f2, rfl⟩ : ∃ f2, fuel2 = f2 + 1 := ⟨fuel2 - 1, by omega⟩
      simp only [List.length_cons] at hn hf hf2
      rw [expandLoop, expandLoop]
      cases hm : matchToken (x :: rest) with
      | none =>
        simp only
        rw [ih rest f f2 (by omega) (by omega) (by omega)]
      | some p =>
        obtain ⟨c, after⟩ := p
        have hlen := matchToken_after_length _ _ _ hm
        simp only [List.length_cons] at hlen
        simp only
        rw [ih after f f2 (by omega) (by omega) (by omega)]

theorem expandLoop_eq_ExpandEnv (env : Env) (s : List Byte) (fuel : Nat) (h : s.length < fuel) :
    expandLoop env fuel s = ExpandEnv env s :=
  expandLoop_fuel env (s.length + 1) s fuel (s.length + 1) (Nat.lt_succ_self _) h
    (Nat.lt_succ_self _)

/-- One step of the scan at a byte where no match starts. -/
theorem ExpandEnv_cons_none (env : Env) (x : Byte) (rest : List Byte)
    (h : matchToken (x :: rest) = none) : ExpandEnv env (x :: rest) = x :: ExpandEnv env rest := by
  unfold ExpandEnv
  rw [List.length_cons, expandLoop]
  simp only [h]

/-- One step of the scan at a byte where a match starts. -/
theorem ExpandEnv_cons_some (env : Env) (s c after : List Byte)
    (h : matchToken s = some (c, after)) :
    ExpandEnv env s = replaceMatch env c ++ ExpandEnv env after := by
  have hlen := matchToken_after_length s c after h
  cases s with
  | nil => simp [matchToken] at h
  | cons x rest =>
    unfold ExpandEnv
    rw [List.length_cons, expandLoop]
    simp only [h]
    simp only [List.length_cons] at hlen
    rw [expandLoop_eq_ExpandEnv env after _ (by omega)]
    rfl

/-- Text before the first `${` is copied. -/
theorem ExpandEnv_copy_prefix (env : Env) (rest : List Byte) :
    ∀ pre : List Byte, ¬ [(36 : Byte), 123] <:+: pre →
      ExpandEnv env (pre ++ 36 :: 123 :: rest) = pre ++ ExpandEnv env (36 :: 123 :: rest) := by
  intro pre
  induction pre with
  | nil => intro _; rfl
  | cons x pre ih =>
    intro h
    have hpre : ¬ [(36 : Byte), 123] <:+: pre := fun e => h (List.infix_cons e)
    have hnone : matchToken (x :: (pre ++ 36 :: 123 :: rest)) = none := by
      cases hm : matchToken (x :: (pre ++ 36 :: 123 :: rest)) with
      | none => rfl
      | some p =>
        exfalso
        obtain ⟨c, after⟩ := p
        obtain ⟨_, _, hs⟩ := matchToken_spec _ _ _ hm
        cases pre with
        | nil =>
          simp only [List.nil_append, List.cons.injEq] at hs
          exact absurd hs.2.1 (by decide)
        | cons y pre2 =>
          simp only [List.cons_append, List.cons.injEq] at hs
          apply h
          rw [hs.1, hs.2.1]
          exact (List.prefix_append [(36 : Byte), 123] pre2).isInfix
    rw [List.cons_append, ExpandEnv_cons_none env x _ hnone, ih hpre]
    rfl

/-- A text in which no match starts anywhere is returned as it is. -/
theorem ExpandEnv_no_match (env : Env) :
    ∀ s : List Byte, (∀ a t : List Byte, s = a ++ t → matchToken t = none) →
      ExpandEnv env s = s := by
  intro s
  induction s with
  | nil => intro _; rfl
  | cons x rest ih =>
    intro h
    rw [ExpandEnv_cons_none env x rest (h [] (x :: rest) rfl),
      ih (fun a t e => h (x :: a) t (by rw [e]; rfl))]

/-- The scan up to and over the first token: the text before it is copied, the
token is replaced, and the scan goes on with the text after it. -/
theorem ExpandEnv_first_token (env : Env) (pre c post : List Byte)
    (hpre : ¬ [(36 : Byte), 123] <:+: pre) (hne : c ≠ []) (hbrace : (125 : Byte) ∉ c) :
    ExpandEnv env (pre ++ ascii "$\x7b" ++ c ++ ascii "\x7d" ++ post) =
      pre ++ replaceMatch env c ++ ExpandEnv env post := by
  have e1 : ascii "$\x7b" = [36, 123] := by decide
  have e2 : ascii "\x7d" = [125] := by decide
  have e3 : pre ++ [(36 : Byte), 123] ++ c ++ [125] ++ post
      = pre ++ 36 :: 123 :: (c ++ 125 :: post) := by simp
  rw [e1, e2, e3, ExpandEnv_copy_prefix env _ pre hpre,
    ExpandEnv_cons_some env _ c post (matchToken_token c post hne hbrace)]
  simp

/-- The replacement of a token with a default: the value of the variable when
it is set and non-empty, the default otherwise. -/
theorem replaceMatch_default (env : Env) (name dflt : List Byte)
    (hfirst : ¬ [(58 : Byte), 45] <:+: name ++ [58]) :
    replaceMatch env (name ++ ascii ":-" ++ dflt) =
      match env name with
      | some value => if value = [] then dflt else value
      | none => dflt := by
  have e1 : ascii ":-" = [58, 45] := by decide
  have hcut : cutDefault (name ++ ascii ":-" ++ dflt) = some (name, dflt) := by
    rw [e1]
    simpa using cutDefault_first dflt name hfirst
  simp only [replaceMatch, hcut, Getenv]
  cases env name with
  | none => simp
  | some value =>
    by_cases hv : value = []
    · simp [hv]
    · simp [hv]

/-- The replacement of a token without a default: the value of the variable
when it is set and non-empty, the token itself otherwise. -/
theorem replaceMatch_plain (env : Env) (c : List Byte) (hnone : ¬ [(58 : Byte), 45] <:+: c) :
    replaceMatch env c =
      match env c with
      | some value => if value = [] then ascii "$\x7b" ++ c ++ ascii "\x7d" else value
      | none => ascii "$\x7b" ++ c ++ ascii "\x7d" := by
  simp only [replaceMatch, cutDefault_none c hnone, Getenv]
  cases env c with
  | none => simp
  | some value =>
    by_cases hv : value = []
    · simp [hv]
    · simp [hv]

/-- C11. `ExpandEnv` replaces the tokens `${c}` (`c` non-empty, up to the first
`}`) from left to right and copies the rest.  For every `pre` that holds no
`${`, every such `c` and every `post`, the result on
`pre ++ "${" ++ c ++ "}" ++ post` is `pre`, then what the single-token rule
puts for `${c}`, then the result on `post`.  The rule is spelled out: for
`c = name:-dflt` (cut at the first `:-`) the value of `name` when it is set
and non-empty and `dflt` otherwise; for `c` without `:-` the value of `c` when
it is set and non-empty and the text `${c}` otherwise.  Every text that holds
no token is returned unchanged, among them `plain`, `{"name": "mikroclaw"}`
and `${}`. -/
theorem C11_left_to_right (env : Env) :
    (∀ pre name dflt post : List Byte, ¬ ascii "$\x7b" <:+: pre →
      (125 : Byte) ∉ name ++ ascii ":-" ++ dflt → ¬ ascii ":-" <:+: name ++ ascii ":" →
      ExpandEnv env (pre ++ ascii "$\x7b" ++ (name ++ ascii ":-" ++ dflt) ++ ascii "\x7d" ++ post) =
        pre ++ (match env name with
          | some value => if value = [] then dflt else value
          | none => dflt) ++ ExpandEnv env post) ∧
    (∀ pre c post : List Byte, ¬ ascii "$\x7b" <:+: pre → c ≠ [] → (125 : Byte) ∉ c →
      ¬ ascii ":-" <:+: c →
      ExpandEnv env (pre ++ ascii "$\x7b" ++ c ++ ascii "\x7d" ++ post) =
        pre ++ (match env c with
          | some value => if value = [] then ascii "$\x7b" ++ c ++ ascii "\x7d" else value
          | none => ascii "$\x7b" ++ c ++ ascii "\x7d") ++ ExpandEnv env post) ∧
    (∀ text : List Byte,
      (¬ ∃ a c b : List Byte, c ≠ [] ∧ (125 : Byte) ∉ c ∧
        text = a ++ ascii "$\x7b" ++ c ++ ascii "\x7d" ++ b) →
      ExpandEnv env text = text) ∧
    ExpandEnv env (ascii "plain") = ascii "plain" ∧
    ExpandEnv env (ascii "\x7b\"name\": \"mikroclaw\"\x7d") =
      ascii "\x7b\"name\": \"mikroclaw\"\x7d" ∧
    ExpandEnv env (ascii "$\x7b\x7d") = ascii "$\x7b\x7d" := by
  have e1 : ascii "$\x7b" = [36, 123] := by decide
  have e2 : ascii "\x7d" = [125] := by decide
  have e4 : ascii ":-" = [58, 45] := by decide
  have e5 : ascii ":" = [58] := by decide
  refine ⟨?_, ?_, ?_, rfl, rfl, rfl⟩
  · intro pre name dflt post hpre hbrace hfirst
    rw [e1] at hpre
    rw [e4, e5] at hfirst
    have hne : name ++ ascii ":-" ++ dflt ≠ [] := by
      rw [e4]
      simp
    rw [ExpandEnv_first_token env pre _ post hpre hne hbrace,
      replaceMatch_default env name dflt hfirst]
  · intro pre c post hpre hne hbrace hnone
    rw [e1] at hpre
    rw [e4] at hnone
    rw [ExpandEnv_first_token env pre c post hpre hne hbrace, replaceMatch_plain env c hnone]
  · intro text hno
    apply ExpandEnv_no_match
    intro a t ht
    cases hm : matchToken t with
    | none => rfl
    | some p =>
      exfalso
      obtain ⟨c, after⟩ := p
      obtain ⟨hc, hb, hs⟩ := matchToken_spec _ _ _ hm
      apply hno
      refine ⟨a, c, after, hc, hb, ?_⟩
      rw [ht, hs, e1, e2]
      simp

/-- C11 at concrete inputs, in the environment `A=1`, `C=3`, `E` empty: in a
text with five tokens each is replaced by its own rule, in order, and the text
between them is copied. -/
theorem C11_left_to_right_witness :
    ExpandEnv sampleEnv (ascii "a" ++ ascii "$\x7b" ++ ascii "A" ++ ascii "\x7d" ++ ascii "b") =
      ascii "a" ++ (match sampleEnv (ascii "A") with
        | some value => if value = [] then ascii "$\x7b" ++ ascii "A" ++ ascii "\x7d" else value
        | none => ascii "$\x7b" ++ ascii "A" ++ ascii "\x7d") ++ ExpandEnv sampleEnv (ascii "b") ∧
    ExpandEnv sampleEnv (ascii "a$\x7bA\x7db") = ascii "a1b" ∧
    ExpandEnv sampleEnv
        (ascii "\x7b\"host\": \"$\x7bA\x7d\", \"port\": $\x7bC:-2\x7d, \"x\": \"$\x7bD\x7d\", \"y\": \"$\x7bB:-2\x7d$\x7bE:-\x7d\"\x7d") =
      ascii "\x7b\"host\": \"1\", \"port\": 3, \"x\": \"$\x7bD\x7d\", \"y\": \"2\"\x7d" ∧
    ExpandEnv sampleEnv (ascii "$$\x7bA\x7d\x7d$\x7b") = ascii "$1\x7d$\x7b" :=
  ⟨(C11_left_to_right sampleEnv).2.1 (ascii "a") (ascii "A") (ascii "b")
      (by decide) (by decide) (by decide) (by decide),
    by decide, by decide, by decide⟩

/-- C12. `ExpandEnv` does not scan what it substitutes.  For every token
`${c}` (`c` non-empty, up to the first `}`) after a text `pre` without `${`:
when `c` holds no `:-` and its variable is set to a non-empty value, and when
`c` is `name:-dflt` and `name` is set to a non-empty value, the value stands in
the output as it is, whatever it holds (a `${...}` token of its own included);
when `c` is `name:-dflt` and `name` is unset or empty, the default stands in
the output as it is; and in each case the scan goes on with the text after the
token. -/
theorem C12_value_not_rescanned (env : Env) (pre c post : List Byte)
    (hpre : ¬ ascii "$\x7b" <:+: pre) (hne : c ≠ []) (hbrace : (125 : Byte) ∉ c) :
    (¬ ascii ":-" <:+: c → ∀ value : List Byte, env c = some value → value ≠ [] →
      ExpandEnv env (pre ++ ascii "$\x7b" ++ c ++ ascii "\x7d" ++ post) =
        pre ++ value ++ ExpandEnv env post) ∧
    (∀ name dflt : List Byte, c = name ++ ascii ":-" ++ dflt →
      ¬ ascii ":-" <:+: name ++ ascii ":" →
      (∀ value : List Byte, env name = some value → value ≠ [] →
        ExpandEnv env (pre ++ ascii "$\x7b" ++ c ++ ascii "\x7d" ++ post) =
          pre ++ value ++ ExpandEnv env post) ∧
      ((env name = none ∨ env name = some []) →
        ExpandEnv env (pre ++ ascii "$\x7b" ++ c ++ ascii "\x7d" ++ post) =
          pre ++ dflt ++ ExpandEnv env post)) := by
  have e1 : ascii "$\x7b" = [36, 123] := by decide
  have e4 : ascii ":-" = [58, 45] := by decide
  have e5 : ascii ":" = [58] := by decide
  rw [e1] at hpre
  have hstep := ExpandEnv_first_token env pre c post hpre hne hbrace
  refine ⟨?_, ?_⟩
  · intro hnone value hset hvalue
    rw [e4] at hnone
    rw [hstep, replaceMatch_plain env c hnone, hset]
    simp [hvalue]
  · intro name dflt hc hfirst
    rw [e4, e5] at hfirst
    have hrep := replaceMatch_default env name dflt hfirst
    rw [← hc] at hrep
    refine ⟨?_, ?_⟩
    · intro value hset hvalue
      rw [hstep, hrep, hset]
      simp [hvalue]
    · intro hunset
      rw [hstep, hrep]
      rcases hunset with h | h
      · rw [h]
      · rw [h]
        simp

/-- C12 at concrete inputs: with `A` set to the text `${B}` and `B` set to `1`,
`${A}` and `${A:-x}` expand to `${B}`, not to `1`; the default `${B` of the
unset `Z` in `${Z:-${B}}` is copied, giving `${B}`; and between other texts and
tokens, `x${A}y${B}z` expands to `x${B}y1z`. -/
theorem C12_value_not_rescanned_witness :
    ExpandEnv nestedEnv (ascii "$\x7bA\x7d") = ascii "$\x7bB\x7d" ∧
    ExpandEnv nestedEnv (ascii "$\x7bB\x7d") = ascii "1" ∧
    ExpandEnv nestedEnv (ascii "$\x7bA:-x\x7d") = ascii "$\x7bB\x7d" ∧
    ExpandEnv nestedEnv (ascii "$\x7bZ:-$\x7bB\x7d\x7d") = ascii "$\x7bB\x7d" ∧
    ExpandEnv nestedEnv (ascii "x$\x7bA\x7dy$\x7bB\x7dz") = ascii "x$\x7bB\x7dy1z" :=
  ⟨by
    have h := (C12_value_not_rescanned nestedEnv [] (ascii "A") []
      (by decide) (by decide) (by decide)).1 (by decide) (ascii "$\x7bB\x7d")
      (by decide) (by decide)
    exact h, by decide, by
    have h := ((C12_value_not_rescanned nestedEnv [] (ascii "A:-x") []
      (by decide) (by decide) (by decide)).2 (ascii "A") (ascii "x") (by decide)
      (by decide)).1 (ascii "$\x7bB\x7d") (by decide) (by decide)
    exact h, by
    have h := ((C12_value_not_rescanned nestedEnv [] (ascii "Z:-$\x7bB") (ascii "\x7d")
      (by decide) (by decide) (by decide)).2 (ascii "Z") (ascii "$\x7bB") (by decide)
      (by decide)).2 (Or.inl (by decide))
    exact h, by decide⟩

/-! ## Lemmas on `parseVersion` -/

set_option exponentiation.threshold 5000
set_option maxRecDepth 10000

theorem spanDigits_spec :
    ∀ s : List Byte, s = (spanDigits s).1 ++ (spanDigits s).2 ∧
      (∀ c ∈ (spanDigits s).1, isDigit c = true) ∧
      (∀ x ∈ (spanDigits s).2.head?, isDigit x = false) := by
  intro s
  induction s with
  | nil => simp [spanDigits]
  | cons x rest ih =>
    by_cases hx : isDigit x = true
    · simp only [spanDigits, hx, if_true, List.cons_append, List.mem_cons]
      refine ⟨by rw [← ih.1], ?_, ih.2.2⟩
      intro c hc
      rcases hc with e | e
      · rw [e]; exact hx
      · exact ih.2.1 c e
    · simp only [spanDigits, hx]
      simpa using hx

theorem spanDigits_append (l rest : List Byte) (hl : ∀ c ∈ l, isDigit c = true) :
    spanDigits (l ++ rest) = (l ++ (spanDigits rest).1, (spanDigits rest).2) := by
  induction l with
  | nil => simp
  | cons x l ih =>
    have hx : isDigit x = true := hl x (List.mem_cons_self _ _)
    have hl2 : ∀ c ∈ l, isDigit c = true := fun c hc => hl c (List.mem_cons_of_mem _ hc)
    simp [spanDigits, hx, ih hl2]

theorem spanDigits_stop (rest : List Byte) (h : ∀ x ∈ rest.head?, isDigit x = false) :
    spanDigits rest = ([], rest) := by
  cases rest with
  | nil => rfl
  | cons x rest =>
    have hx : isDigit x = false := h x (by simp)
    simp [spanDigits, hx]

theorem spanDigits_run (l rest : List Byte) (hl : ∀ c ∈ l, isDigit c = true)
    (h : ∀ x ∈ rest.head?, isDigit x = false) : spanDigits (l ++ rest) = (l, rest) := by
  rw [spanDigits_append l rest hl, spanDigits_stop rest h]
  simp

/-- The greedy match the matcher returns, on a text that starts with a match
after which no digit follows. -/
theorem matchVersion_of_match (major minor post : List Byte) (hM : IsDigits major)
    (hm : IsDigits minor) (hpost : ∀ x ∈ post.head?, isDigit x = false) :
    matchVersion (major ++ 46 :: minor ++ post) = some (major, minor) := by
  have h1 : spanDigits (major ++ 46 :: minor ++ post) = (major, 46 :: minor ++ post) := by
    have e : major ++ 46 :: minor ++ post = major ++ (46 :: (minor ++ post)) := by simp
    rw [e]
    exact spanDigits_run major _ hM.2 (by
      intro x hx
      simp only [List.head?_cons, Option.mem_def, Option.some.injEq] at hx
      subst hx
      decide)
  have h2 : spanDigits (minor ++ post) = (minor, post) := spanDigits_run minor post hm.2 hpost
  unfold matchVersion
  rw [h1]
  obtain ⟨x, major2, rfl⟩ := List.exists_cons_of_ne_nil hM.1
  obtain ⟨y, minor2, rfl⟩ := List.exists_cons_of_ne_nil hm.1
  simp only [List.cons_append] at h2 ⊢
  rw [h2]

/-- Where some match starts, the matcher finds one. -/
theorem matchVersion_complete (t : List Byte) (h : HasMatchAtStart t) :
    ∃ r, matchVersion t = some r := by
  obtain ⟨major, minor, rest, hM, hm, rfl⟩ := h
  have h1 : spanDigits (major ++ 46 :: minor ++ rest) = (major, 46 :: minor ++ rest) := by
    have e : major ++ 46 :: minor ++ rest = major ++ (46 :: (minor ++ rest)) := by simp
    rw [e]
    exact spanDigits_run major _ hM.2 (by
      intro x hx
      simp only [List.head?_cons, Option.mem_def, Option.some.injEq] at hx
      subst hx
      decide)
  have h2 := spanDigits_append minor rest hm.2
  unfold matchVersion
  rw [h1]
  obtain ⟨x, major2, rfl⟩ := List.exists_cons_of_ne_nil hM.1
  obtain ⟨y, minor2, rfl⟩ := List.exists_cons_of_ne_nil hm.1
  simp only [List.cons_append] at h2 ⊢
  rw [h2]
  exact ⟨_, rfl⟩

/-- What the matcher returns is a match. -/
theorem matchVersion_sound (t : List Byte) (r : List Byte × List Byte)
    (hmv : matchVersion t = some r) : HasMatchAtStart t := by
  unfold matchVersion at hmv
  obtain ⟨e1, d1, _⟩ := spanDigits_spec t
  revert hmv e1 d1
  generalize spanDigits t = p
  obtain ⟨ma, after⟩ := p
  intro hmv e1 d1
  cases ma with
  | nil => simp at hmv
  | cons m0 ma2 =>
    cases after with
    | nil => simp at hmv
    | cons a0 after2 =>
      by_cases ha : a0 = 46
      · subst ha
        simp only at hmv
        obtain ⟨e2, d2, _⟩ := spanDigits_spec after2
        revert hmv e2 d2
        generalize spanDigits after2 = q
        obtain ⟨mi, rest2⟩ := q
        intro hmv e2 d2
        cases mi with
        | nil => simp at hmv
        | cons mi0 mi2 =>
          refine ⟨m0 :: ma2, mi0 :: mi2, rest2, ⟨by simp, d1⟩, ⟨by simp, d2⟩, ?_⟩
          simp only at e1 e2
          rw [e1, e2]
          simp
      · exfalso
        revert hmv
        unfold matchVersion.match_1
        simp [ha]

theorem FindStringSubmatch_first (major minor post : List Byte) (hM : IsDigits major)
    (hm : IsDigits minor) (hpost : ∀ x ∈ post.head?, isDigit x = false) :
    ∀ pre : List Byte,
      (∀ a b : List Byte, pre = a ++ b → b ≠ [] →
        ¬ HasMatchAtStart (b ++ (major ++ 46 :: minor ++ post))) →
      FindStringSubmatch (pre ++ (major ++ 46 :: minor ++ post))
        = [major ++ [46] ++ minor, major, minor] := by
  intro pre
  induction pre with
  | nil =>
    intro _
    have h := matchVersion_of_match major minor post hM hm hpost
    obtain ⟨x, major2, rfl⟩ := List.exists_cons_of_ne_nil hM.1
    simp only [List.nil_append, List.cons_append] at h ⊢
    simp only [FindStringSubmatch, h]
    simp
  | cons x pre ih =>
    intro hno
    have hnone : matchVersion (x :: (pre ++ (major ++ 46 :: minor ++ post))) = none := by
      cases hmv : matchVersion (x :: (pre ++ (major ++ 46 :: minor ++ post))) with
      | none => rfl
      | some r => exact absurd (matchVersion_sound _ r hmv) (hno [] (x :: pre) rfl (by simp))
    rw [List.cons_append, FindStringSubmatch, hnone]
    exact ih (fun a b e hb => hno (x :: a) b (by rw [e]; rfl) hb)

theorem FindStringSubmatch_none :
    ∀ text : List Byte, (∀ a b : List Byte, text = a ++ b → ¬ HasMatchAtStart b) →
      FindStringSubmatch text = [] := by
  intro text
  induction text with
  | nil => intro _; rfl
  | cons x rest ih =>
    intro hno
    have hnone : matchVersion (x :: rest) = none := by
      cases hmv : matchVersion (x :: rest) with
      | none => rfl
      | some r => exact absurd (matchVersion_sound _ r hmv) (hno [] (x :: rest) rfl)
    rw [FindStringSubmatch, hnone]
    exact ih (fun a b e => hno (x :: a) b (by rw [e]; rfl))

/-- No match starts anywhere in a text on none of whose tails the matcher
succeeds. -/
theorem noMatch_of_tails (text : List Byte) (h : ∀ b ∈ text.tails, matchVersion b = none) :
    ∀ a b : List Byte, text = a ++ b → ¬ HasMatchAtStart b := by
  intro a b e hmatch
  obtain ⟨r, hr⟩ := matchVersion_complete b hmatch
  have hb : b ∈ text.tails := (List.mem_tails b text).mpr (by rw [e]; exact List.suffix_append a b)
  rw [h b hb] at hr
  exact Option.noConfusion hr

/-- No match starts in `pre` when the matcher fails from each place of it. -/
theorem noEarlier_of_tails (pre s : List Byte)
    (h : ∀ b ∈ pre.tails, b ≠ [] → matchVersion (b ++ s) = none) :
    ∀ a b : List Byte, pre = a ++ b → b ≠ [] → ¬ HasMatchAtStart (b ++ s) := by
  intro a b e hb hmatch
  obtain ⟨r, hr⟩ := matchVersion_complete _ hmatch
  have hmem : b ∈ pre.tails := (List.mem_tails b pre).mpr (by rw [e]; exact List.suffix_append a b)
  rw [h b hmem hb] at hr
  exact Option.noConfusion hr

theorem Sscanf_match (major minor : List Byte) (hM : IsDigits major) (hm : IsDigits minor)
    (hMv : decimalValue major ≤ 2 ^ 63 - 1) (hmv : decimalValue minor ≤ 2 ^ 63 - 1) :
    Sscanf (major ++ [46] ++ minor) = some (decimalValue major, decimalValue minor) := by
  have h1 : spanDigits (major ++ [46] ++ minor) = (major, 46 :: minor) := by
    have e : major ++ [46] ++ minor = major ++ (46 :: minor) := by simp
    rw [e]
    exact spanDigits_run major _ hM.2 (by
      intro x hx
      simp only [List.head?_cons, Option.mem_def, Option.some.injEq] at hx
      subst hx
      decide)
  have h2 : spanDigits minor = (minor, []) := by
    have := spanDigits_run minor [] hm.2 (by simp)
    simpa using this
  unfold Sscanf
  rw [h1]
  obtain ⟨x, major2, rfl⟩ := List.exists_cons_of_ne_nil hM.1
  obtain ⟨y, minor2, rfl⟩ := List.exists_cons_of_ne_nil hm.1
  simp only [ParseInt, hMv, hmv, if_true, h2]

/-- `parseVersion` on a text whose first match reads `major.minor`. -/
theorem parseVersion_of_FirstMatch (text major minor : List Byte)
    (h : FirstMatch text major minor) :
    parseVersion text =
      match Sscanf (major ++ [46] ++ minor) with
      | none => 0
      | some (M, m) =>
        Float64.add (Float64.ofInt M) (Float64.div (Float64.ofInt m) (Float64.lit 100 1)) := by
  obtain ⟨pre, post, rfl, hM, hm, hpost, hno⟩ := h
  unfold parseVersion
  rw [FindStringSubmatch_first major minor post hM hm hpost pre hno]
  simp

theorem Sscanf_overflow (major minor : List Byte) (hM : IsDigits major) (hm : IsDigits minor)
    (hbig : ¬ (decimalValue major ≤ 2 ^ 63 - 1 ∧ decimalValue minor ≤ 2 ^ 63 - 1)) :
    Sscanf (major ++ [46] ++ minor) = none := by
  have h1 : spanDigits (major ++ [46] ++ minor) = (major, 46 :: minor) := by
    have e : major ++ [46] ++ minor = major ++ (46 :: minor) := by simp
    rw [e]
    exact spanDigits_run major _ hM.2 (by
      intro x hx
      simp only [List.head?_cons, Option.mem_def, Option.some.injEq] at hx
      subst hx
      decide)
  have h2 : spanDigits minor = (minor, []) := by
    have := spanDigits_run minor [] hm.2 (by simp)
    simpa using this
  unfold Sscanf
  rw [h1]
  obtain ⟨x, major2, rfl⟩ := List.exists_cons_of_ne_nil hM.1
  obtain ⟨y, minor2, rfl⟩ := List.exists_cons_of_ne_nil hm.1
  by_cases hMv : decimalValue (x :: major2) ≤ 2 ^ 63 - 1
  · have hmv : ¬ decimalValue (y :: minor2) ≤ 2 ^ 63 - 1 := fun e => hbig ⟨hMv, e⟩
    simp only [ParseInt, hMv, hmv, if_true, if_false, h2]
  · simp only [ParseInt, hMv, if_false]

/-! ## `parseVersion` -/

/-- C13, as the code has it.  For every text whose first `digits.digits`
occurrence reads `major.minor`, whatever text surrounds it, `parseVersion`
returns `float64(M) + float64(m)/100.0`, computed in `float64`, where `M` and
`m` are the values of the two runs of digits, when both fit in an `int`
(are at most `2^63 - 1`), and `0` when one does not. -/
theorem C13_parseVersion (text major minor : List Byte) (h : FirstMatch text major minor) :
    parseVersion text =
      if decimalValue major ≤ 2 ^ 63 - 1 ∧ decimalValue minor ≤ 2 ^ 63 - 1 then
        Float64.add (Float64.ofInt (decimalValue major))
          (Float64.div (Float64.ofInt (decimalValue minor)) (Float64.lit 100 1))
      else 0 := by
  have hM : IsDigits major := by
    obtain ⟨_, _, _, hM, _⟩ := h
    exact hM
  have hm : IsDigits minor := by
    obtain ⟨_, _, _, _, hm, _⟩ := h
    exact hm
  rw [parseVersion_of_FirstMatch text major minor h]
  by_cases hfit : decimalValue major ≤ 2 ^ 63 - 1 ∧ decimalValue minor ≤ 2 ^ 63 - 1
  · rw [Sscanf_match major minor hM hm hfit.1 hfit.2, if_pos hfit]
  · rw [Sscanf_overflow major minor hM hm hfit, if_neg hfit]

/-- C13 at concrete inputs: `7.21` and `RouterOS v7.21.3` give the `float64`
constant `7.21`, `v6.40.5 (stable)` gives `6.40` and `7.14beta` gives `7.14`. -/
theorem C13_parseVersion_witness :
    parseVersion (ascii "7.21") = Float64.lit 721 100 ∧
    parseVersion (ascii "RouterOS v7.21.3") = Float64.lit 721 100 ∧
    parseVersion (ascii "v6.40.5 (stable)") = Float64.lit 640 100 ∧
    parseVersion (ascii "7.14beta") = Float64.lit 714 100 :=
  ⟨(C13_parseVersion (ascii "7.21") (ascii "7") (ascii "21")
      ⟨[], [], by decide, ⟨by decide, by decide⟩, ⟨by decide, by decide⟩, by decide,
        noEarlier_of_tails [] _ (by decide)⟩).trans (by decide),
   (C13_parseVersion (ascii "RouterOS v7.21.3") (ascii "7") (ascii "21")
      ⟨ascii "RouterOS v", ascii ".3", by decide, ⟨by decide, by decide⟩,
        ⟨by decide, by decide⟩, by decide, noEarlier_of_tails _ _ (by decide)⟩).trans (by decide),
   (C13_parseVersion (ascii "v6.40.5 (stable)") (ascii "6") (ascii "40")
      ⟨ascii "v", ascii ".5 (stable)", by decide, ⟨by decide, by decide⟩,
        ⟨by decide, by decide⟩, by decide, noEarlier_of_tails _ _ (by decide)⟩).trans (by decide),
   (C13_parseVersion (ascii "7.14beta") (ascii "7") (ascii "14")
      ⟨[], ascii "beta", by decide, ⟨by decide, by decide⟩, ⟨by decide, by decide⟩, by decide,
        noEarlier_of_tails [] _ (by decide)⟩).trans (by decide)⟩

/-- C13, the counterexample to the claim as written: the first occurrence in
`10000000000000000000.5` reads `M = 10^19` and `m = 5`, `M` does not fit in an
`int`, `Sscanf` returns an error and `parseVersion` returns `0`, which is not
`M + m/100`. -/
theorem C13_overflow_counterexample :
    FirstMatch (ascii "10000000000000000000.5") (ascii "10000000000000000000") (ascii "5") ∧
    decimalValue (ascii "10000000000000000000") = 10 ^ 19 ∧
    decimalValue (ascii "5") = 5 ∧
    parseVersion (ascii "10000000000000000000.5") = 0 ∧
    Float64.add (Float64.ofInt (10 ^ 19)) (Float64.div (Float64.ofInt 5) (Float64.lit 100 1))
      ≠ 0 :=
  ⟨⟨[], [], by decide, ⟨by decide, by decide⟩, ⟨by decide, by decide⟩, by decide,
      noEarlier_of_tails [] _ (by decide)⟩, by decide, by decide, by decide, by decide⟩

/-! ## The version check -/

/-- The order of the six constants of `checkRouterOSVersion`, as `float64`. -/
theorem version_constants :
    Float64.lit 640 100 < Float64.lit 714 100 ∧ Float64.lit 714 100 < Float64.lit 715 100 ∧
    Float64.lit 715 100 < Float64.lit 716 100 ∧ Float64.lit 716 100 < Float64.lit 720 100 ∧
    Float64.lit 720 100 < Float64.lit 721 100 := by
  decide

/-- The two flags of the version check after a successful fetch, by the cases
of the `switch`. -/
theorem checkRouterOSVersion_flags (c : Checker) (version : List Byte)
    (hfetch : c.client.GetVersion c.calls = .ok version) :
    ((checkRouterOSVersion c).1.Passed, (checkRouterOSVersion c).1.Warning) =
      if Float64.lit 714 100 ≤ parseVersion version ∧ parseVersion version ≤ Float64.lit 715 100
      then (false, false)
      else if Float64.lit 720 100 ≤ parseVersion version ∧
          parseVersion version ≤ Float64.lit 721 100 then (true, true)
      else if Float64.lit 716 100 ≤ parseVersion version ∧
          parseVersion version < Float64.lit 720 100 then (true, false)
      else if Float64.lit 640 100 ≤ parseVersion version then (true, false)
      else (false, false) := by
  unfold checkRouterOSVersion
  simp only [hfetch]
  split_ifs <;> rfl

theorem checkRouterOSVersion_calls (c : Checker) :
    (checkRouterOSVersion c).2 = { c with calls := c.calls ++ [Call.GetVersion] } := by
  unfold checkRouterOSVersion
  cases c.client.GetVersion c.calls with
  | error e => rfl
  | ok version =>
    simp only
    split_ifs <;> rfl

/-- A run whose first check fails holds that one result. -/
theorem RunAllChecks_first_fail (c : Checker)
    (hP : (checkRouterOSVersion c).1.Passed = false)
    (hW : (checkRouterOSVersion c).1.Warning = false) :
    (RunAllChecks c).1 = c.results ++ [(checkRouterOSVersion c).1] ∧
    (RunAllChecks c).2.calls = c.calls ++ [Call.GetVersion] := by
  simp [RunAllChecks, checks, runLoop, runCheck, hP, hW, checkRouterOSVersion_calls]

/-- C14. For every version string with no `digits.digits` pattern,
`parseVersion` returns `0`, the version check is Fail (`Passed = false`,
`Warning = false`), and the run of a fresh engine stops after that one result,
having called the client for the version only. -/
theorem C14_no_pattern (client : RouterOSClient) (version : List Byte)
    (hfetch : client.GetVersion [] = .ok version)
    (hno : ∀ a b : List Byte, version = a ++ b → ¬ HasMatchAtStart b) :
    parseVersion version = 0 ∧
    (checkRouterOSVersion (NewChecker client)).1.Passed = false ∧
    (checkRouterOSVersion (NewChecker client)).1.Warning = false ∧
    (RunAllChecks (NewChecker client)).1 = [(checkRouterOSVersion (NewChecker client)).1] ∧
    (RunAllChecks (NewChecker client)).2.calls = [Call.GetVersion] := by
  have h0 : parseVersion version = 0 := by
    unfold parseVersion
    rw [FindStringSubmatch_none version hno]
    rfl
  have hflags := checkRouterOSVersion_flags (NewChecker client) version hfetch
  rw [h0] at hflags
  have h714 : ¬ (Float64.lit 714 100 ≤ 0 ∧ 0 ≤ Float64.lit 715 100) := by decide
  have h720 : ¬ (Float64.lit 720 100 ≤ 0 ∧ 0 ≤ Float64.lit 721 100) := by decide
  have h716 : ¬ (Float64.lit 716 100 ≤ 0 ∧ 0 < Float64.lit 720 100) := by decide
  have h640 : ¬ (Float64.lit 640 100 ≤ 0) := by decide
  rw [if_neg h714, if_neg h720, if_neg h716, if_neg h640] at hflags
  have hP : (checkRouterOSVersion (NewChecker client)).1.Passed = false :=
    congrArg Prod.fst hflags
  have hW : (checkRouterOSVersion (NewChecker client)).1.Warning = false :=
    congrArg Prod.snd hflags
  have hrun := RunAllChecks_first_fail (NewChecker client) hP hW
  exact ⟨h0, hP, hW, by simpa [NewChecker] using hrun.1, by simpa [NewChecker] using hrun.2⟩

/-- C14 at concrete inputs: the versions `no digits here`, the empty string
and `7`. -/
theorem C14_no_pattern_witness :
    parseVersion (ascii "no digits here") = 0 ∧
    (RunAllChecks (NewChecker (constClient (ascii "no digits here") (ascii "arm64") [] []))).1.length
      = 1 ∧
    parseVersion (ascii "") = 0 ∧
    parseVersion (ascii "7") = 0 ∧
    (checkRouterOSVersion (NewChecker (constClient (ascii "7") (ascii "arm64") [] []))).1.Passed
      = false :=
  ⟨(C14_no_pattern (constClient (ascii "no digits here") (ascii "arm64") [] [])
      (ascii "no digits here") rfl (noMatch_of_tails _ (by decide))).1,
   by
    rw [(C14_no_pattern (constClient (ascii "no digits here") (ascii "arm64") [] [])
      (ascii "no digits here") rfl (noMatch_of_tails _ (by decide))).2.2.2.1]
    rfl,
   (C14_no_pattern (constClient (ascii "") (ascii "arm64") [] [])
      (ascii "") rfl (noMatch_of_tails _ (by decide))).1,
   (C14_no_pattern (constClient (ascii "7") (ascii "arm64") [] [])
      (ascii "7") rfl (noMatch_of_tails _ (by decide))).1,
   (C14_no_pattern (constClient (ascii "7") (ascii "arm64") [] [])
      (ascii "7") rfl (noMatch_of_tails _ (by decide))).2.1⟩

/-- C16. After a successful fetch the status of the version check is a
function of the parsed value `v` alone, the constants being those of the
source as `float64`: Fail when `v < 6.40`; Fail when `7.14 <= v <= 7.15`; Warn
(`Passed` and `Warning`) when `7.20 <= v <= 7.21`; Pass (`Passed`, not
`Warning`) when `7.16 <= v < 7.20`, and for every other `v >= 6.40`, among them
every `v` above `7.21`. -/
theorem C16_version_status (c : Checker) (version : List Byte)
    (hfetch : c.client.GetVersion c.calls = .ok version) :
    (parseVersion version < Float64.lit 640 100 →
      (checkRouterOSVersion c).1.Passed = false ∧ (checkRouterOSVersion c).1.Warning = false) ∧
    (Float64.lit 714 100 ≤ parseVersion version → parseVersion version ≤ Float64.lit 715 100 →
      (checkRouterOSVersion c).1.Passed = false ∧ (checkRouterOSVersion c).1.Warning = false) ∧
    (Float64.lit 720 100 ≤ parseVersion version → parseVersion version ≤ Float64.lit 721 100 →
      (checkRouterOSVersion c).1.Passed = true ∧ (checkRouterOSVersion c).1.Warning = true) ∧
    (Float64.lit 716 100 ≤ parseVersion version → parseVersion version < Float64.lit 720 100 →
      (checkRouterOSVersion c).1.Passed = true ∧ (checkRouterOSVersion c).1.Warning = false) ∧
    (Float64.lit 640 100 ≤ parseVersion version →
      ¬ (Float64.lit 714 100 ≤ parseVersion version ∧ parseVersion version ≤ Float64.lit 715 100) →
      ¬ (Float64.lit 720 100 ≤ parseVersion version ∧ parseVersion version ≤ Float64.lit 721 100) →
      (checkRouterOSVersion c).1.Passed = true ∧ (checkRouterOSVersion c).1.Warning = false) ∧
    (Float64.lit 721 100 < parseVersion version →
      (checkRouterOSVersion c).1.Passed = true ∧ (checkRouterOSVersion c).1.Warning = false) ∧
    (∀ (c2 : Checker) (version2 : List Byte), c2.client.GetVersion c2.calls = .ok version2 →
      parseVersion version2 = parseVersion version →
      (checkRouterOSVersion c2).1.Passed = (checkRouterOSVersion c).1.Passed ∧
      (checkRouterOSVersion c2).1.Warning = (checkRouterOSVersion c).1.Warning) := by
  have hflags := checkRouterOSVersion_flags c version hfetch
  obtain ⟨k1, k2, k3, k4, k5⟩ := version_constants
  have split : ∀ {p : Bool × Bool},
      ((checkRouterOSVersion c).1.Passed, (checkRouterOSVersion c).1.Warning) = p →
      (checkRouterOSVersion c).1.Passed = p.1 ∧ (checkRouterOSVersion c).1.Warning = p.2 :=
    fun e => ⟨congrArg Prod.fst e, congrArg Prod.snd e⟩
  refine ⟨?_, ?_, ?_, ?_, ?_, ?_, ?_⟩
  · intro hv
    rw [if_neg (by omega), if_neg (by omega), if_neg (by omega), if_neg (by omega)] at hflags
    exact split hflags
  · intro h1 h2
    rw [if_pos ⟨h1, h2⟩] at hflags
    exact split hflags
  · intro h1 h2
    rw [if_neg (by omega), if_pos ⟨h1, h2⟩] at hflags
    exact split hflags
  · intro h1 h2
    rw [if_neg (by omega), if_neg (by omega), if_pos ⟨h1, h2⟩] at hflags
    exact split hflags
  · intro h1 h2 h3
    rw [if_neg h2, if_neg h3] at hflags
    by_cases h4 : Float64.lit 716 100 ≤ parseVersion version ∧
        parseVersion version < Float64.lit 720 100
    · rw [if_pos h4] at hflags
      exact split hflags
    · rw [if_neg h4, if_pos h1] at hflags
      exact split hflags
  · intro hv
    rw [if_neg (by omega), if_neg (by omega), if_neg (by omega), if_pos (by omega)] at hflags
    exact split hflags
  · intro c2 version2 hfetch2 hsame
    have hflags2 := checkRouterOSVersion_flags c2 version2 hfetch2
    rw [hsame, ← hflags] at hflags2
    exact ⟨congrArg Prod.fst hflags2, congrArg Prod.snd hflags2⟩

/-- C16 at concrete inputs: `7.16` passes, `7.14` fails, `7.21` warns and `6.40`
passes. -/
theorem C16_version_status_witness :
    ((checkRouterOSVersion (NewChecker (constClient (ascii "7.16") [] [] []))).1.Passed = true ∧
      (checkRouterOSVersion (NewChecker (constClient (ascii "7.16") [] [] []))).1.Warning = false) ∧
    ((checkRouterOSVersion (NewChecker (constClient (ascii "7.14") [] [] []))).1.Passed = false ∧
      (checkRouterOSVersion (NewChecker (constClient (ascii "7.14") [] [] []))).1.Warning = false) ∧
    ((checkRouterOSVersion (NewChecker (constClient (ascii "7.21") [] [] []))).1.Passed = true ∧
      (checkRouterOSVersion (NewChecker (constClient (ascii "7.21") [] [] []))).1.Warning = true) ∧
    ((checkRouterOSVersion (NewChecker (constClient (ascii "6.40") [] [] []))).1.Passed = true ∧
      (checkRouterOSVersion (NewChecker (constClient (ascii "6.40") [] [] []))).1.Warning = false) :=
  ⟨(C16_version_status (NewChecker (constClient (ascii "7.16") [] [] [])) (ascii "7.16")
      rfl).2.2.2.1 (by decide) (by decide),
   (C16_version_status (NewChecker (constClient (ascii "7.14") [] [] [])) (ascii "7.14")
      rfl).2.1 (by decide) (by decide),
   (C16_version_status (NewChecker (constClient (ascii "7.21") [] [] [])) (ascii "7.21")
      rfl).2.2.1 (by decide) (by decide),
   (C16_version_status (NewChecker (constClient (ascii "6.40") [] [] [])) (ascii "6.40")
      rfl).2.2.2.2.1 (by decide) (by decide) (by decide)⟩

/-! ## The other checks and the engine -/

theorem checkArchitecture_flags (c : Checker) (arch : List Byte)
    (hfetch : c.client.GetArchitecture c.calls = .ok arch) :
    ((checkArchitecture c).1.Passed, (checkArchitecture c).1.Warning) =
      if ToLower arch = ascii "arm64" then (true, false)
      else if ToLower arch = ascii "x86_64" ∨ ToLower arch = ascii "amd64" then (true, true)
      else if ToLower arch = ascii "arm" then (true, true)
      else (false, false) := by
  unfold checkArchitecture
  simp only [hfetch]
  split_ifs <;> rfl

theorem checkArchitecture_calls (c : Checker) :
    (checkArchitecture c).2 = { c with calls := c.calls ++ [Call.GetArchitecture] } := by
  unfold checkArchitecture
  cases c.client.GetArchitecture c.calls with
  | error e => rfl
  | ok arch =>
    simp only
    split_ifs <;> rfl

theorem checkContainerRuntime_calls (c : Checker) :
    (checkContainerRuntime c).2 = { c with calls := c.calls ++ [Call.GetContainerConfig] } := by
  unfold checkContainerRuntime
  cases c.client.GetContainerConfig c.calls with
  | error e => rfl
  | ok config =>
    simp only
    split_ifs
    · rfl
    · cases mapLookup config (ascii "registry-url") with
      | none => rfl
      | some registry =>
        simp only
        split_ifs <;> rfl

theorem checkVETHConfiguration_calls (c : Checker) :
    (checkVETHConfiguration c).2 = { c with calls := c.calls ++ [Call.GetVETHInterfaces] } := by
  unfold checkVETHConfiguration
  cases c.client.GetVETHInterfaces c.calls with
  | error e => rfl
  | ok veths =>
    simp only
    split_ifs <;> rfl

theorem checkResources_calls (c : Checker) : (checkResources c).2 = c := rfl

/-- No check gives a result with `Warning` set and `Passed` not set. -/
theorem checks_valid (check : Checker → CheckResult × Checker) (h : check ∈ checks)
    (c : Checker) : (check c).1.Warning = true → (check c).1.Passed = true := by
  simp only [checks, List.mem_cons, List.mem_singleton, List.mem_nil_iff, or_false] at h
  rcases h with rfl | rfl | rfl | rfl | rfl
  · unfold checkRouterOSVersion
    cases c.client.GetVersion c.calls with
    | error e => simp
    | ok version =>
      simp only
      split_ifs <;> simp
  · unfold checkArchitecture
    cases c.client.GetArchitecture c.calls with
    | error e => simp
    | ok arch =>
      simp only
      split_ifs <;> simp
  · unfold checkContainerRuntime
    cases c.client.GetContainerConfig c.calls with
    | error e => simp
    | ok config =>
      simp only
      split_ifs
      · simp
      · cases mapLookup config (ascii "registry-url") with
        | none => simp
        | some registry =>
          simp only
          split_ifs <;> simp
  · unfold checkVETHConfiguration
    cases c.client.GetVETHInterfaces c.calls with
    | error e => simp
    | ok veths =>
      simp only
      split_ifs <;> simp
  · simp [checkResources]

/-- No check touches `results`. -/
theorem checks_results (check : Checker → CheckResult × Checker) (h : check ∈ checks)
    (c : Checker) : (check c).2.results = c.results := by
  simp only [checks, List.mem_cons, List.mem_singleton, List.mem_nil_iff, or_false] at h
  rcases h with rfl | rfl | rfl | rfl | rfl
  · rw [checkRouterOSVersion_calls]
  · rw [checkArchitecture_calls]
  · rw [checkContainerRuntime_calls]
  · rw [checkVETHConfiguration_calls]
  · rfl

/-- C20. The status of the architecture check depends on the lower-cased
identifier only: `arm64` gives Pass; `x86_64`, `amd64` and `arm` give Warn
(`Passed` and `Warning`); every other identifier, the empty one included, gives
Fail.  Two identifiers that differ in letter case only (that lower to the same
text) have the same status. -/
theorem C20_architecture_status (c : Checker) (arch : List Byte)
    (hfetch : c.client.GetArchitecture c.calls = .ok arch) :
    (ToLower arch = ascii "arm64" →
      (checkArchitecture c).1.Passed = true ∧ (checkArchitecture c).1.Warning = false) ∧
    (ToLower arch = ascii "x86_64" ∨ ToLower arch = ascii "amd64" ∨ ToLower arch = ascii "arm" →
      (checkArchitecture c).1.Passed = true ∧ (checkArchitecture c).1.Warning = true) ∧
    (ToLower arch ≠ ascii "arm64" → ToLower arch ≠ ascii "x86_64" →
      ToLower arch ≠ ascii "amd64" → ToLower arch ≠ ascii "arm" →
      (checkArchitecture c).1.Passed = false ∧ (checkArchitecture c).1.Warning = false) ∧
    (arch = [] →
      (checkArchitecture c).1.Passed = false ∧ (checkArchitecture c).1.Warning = false) ∧
    (∀ (c2 : Checker) (arch2 : List Byte), c2.client.GetArchitecture c2.calls = .ok arch2 →
      ToLower arch2 = ToLower arch →
      (checkArchitecture c2).1.Passed = (checkArchitecture c).1.Passed ∧
      (checkArchitecture c2).1.Warning = (checkArchitecture c).1.Warning) := by
  have hflags := checkArchitecture_flags c arch hfetch
  have split : ∀ {p : Bool × Bool},
      ((checkArchitecture c).1.Passed, (checkArchitecture c).1.Warning) = p →
      (checkArchitecture c).1.Passed = p.1 ∧ (checkArchitecture c).1.Warning = p.2 :=
    fun e => ⟨congrArg Prod.fst e, congrArg Prod.snd e⟩
  have n1 : ascii "x86_64" ≠ ascii "arm64" := by decide
  have n2 : ascii "amd64" ≠ ascii "arm64" := by decide
  have n3 : ascii "arm" ≠ ascii "arm64" := by decide
  have n4 : ascii "arm" ≠ ascii "x86_64" := by decide
  have n5 : ascii "arm" ≠ ascii "amd64" := by decide
  have other : ToLower arch ≠ ascii "arm64" → ToLower arch ≠ ascii "x86_64" →
      ToLower arch ≠ ascii "amd64" → ToLower arch ≠ ascii "arm" →
      (checkArchitecture c).1.Passed = false ∧ (checkArchitecture c).1.Warning = false := by
    intro h1 h2 h3 h4
    rw [if_neg h1, if_neg (by rintro (e | e); exact h2 e; exact h3 e), if_neg h4] at hflags
    exact split hflags
  refine ⟨?_, ?_, other, ?_, ?_⟩
  · intro h
    rw [if_pos h] at hflags
    exact split hflags
  · rintro (h | h | h)
    · rw [if_neg (by rw [h]; exact n1), if_pos (Or.inl h)] at hflags
      exact split hflags
    · rw [if_neg (by rw [h]; exact n2), if_pos (Or.inr h)] at hflags
      exact split hflags
    · rw [if_neg (by rw [h]; exact n3),
        if_neg (by rw [h]; rintro (e | e); exact n4 e; exact n5 e), if_pos h] at hflags
      exact split hflags
  · intro h
    subst h
    exact other (by decide) (by decide) (by decide) (by decide)
  · intro c2 arch2 hfetch2 hsame
    have hflags2 := checkArchitecture_flags c2 arch2 hfetch2
    rw [hsame, ← hflags] at hflags2
    exact ⟨congrArg Prod.fst hflags2, congrArg Prod.snd hflags2⟩

/-- C20 at concrete inputs: `ARM64` passes, `x86_64` and `Arm` warn, `mips` and
the empty identifier fail. -/
theorem C20_architecture_status_witness :
    ((checkArchitecture (NewChecker (constClient [] (ascii "ARM64") [] []))).1.Passed = true ∧
      (checkArchitecture (NewChecker (constClient [] (ascii "ARM64") [] []))).1.Warning = false) ∧
    ((checkArchitecture (NewChecker (constClient [] (ascii "x86_64") [] []))).1.Passed = true ∧
      (checkArchitecture (NewChecker (constClient [] (ascii "x86_64") [] []))).1.Warning = true) ∧
    ((checkArchitecture (NewChecker (constClient [] (ascii "Arm") [] []))).1.Passed = true ∧
      (checkArchitecture (NewChecker (constClient [] (ascii "Arm") [] []))).1.Warning = true) ∧
    ((checkArchitecture (NewChecker (constClient [] (ascii "mips") [] []))).1.Passed = false ∧
      (checkArchitecture (NewChecker (constClient [] (ascii "mips") [] []))).1.Warning = false) ∧
    ((checkArchitecture (NewChecker (constClient [] [] [] []))).1.Passed = false ∧
      (checkArchitecture (NewChecker (constClient [] [] [] []))).1.Warning = false) :=
  ⟨(C20_architecture_status (NewChecker (constClient [] (ascii "ARM64") [] [])) (ascii "ARM64")
      rfl).1 (by decide),
   (C20_architecture_status (NewChecker (constClient [] (ascii "x86_64") [] [])) (ascii "x86_64")
      rfl).2.1 (Or.inl (by decide)),
   (C20_architecture_status (NewChecker (constClient [] (ascii "Arm") [] [])) (ascii "Arm")
      rfl).2.1 (Or.inr (Or.inr (by decide))),
   (C20_architecture_status (NewChecker (constClient [] (ascii "mips") [] [])) (ascii "mips")
      rfl).2.2.1 (by decide) (by decide) (by decide) (by decide),
   (C20_architecture_status (NewChecker (constClient [] [] [] [])) [] rfl).2.2.2.1 rfl⟩

theorem checks_names (c1 c2 c3 c4 c5 : Checker) :
    (checkRouterOSVersion c1).1.Name = ascii "RouterOS Version" ∧
    (checkArchitecture c2).1.Name = ascii "Architecture" ∧
    (checkContainerRuntime c3).1.Name = ascii "Container Runtime" ∧
    (checkVETHConfiguration c4).1.Name = ascii "VETH Configuration" ∧
    (checkResources c5).1.Name = ascii "Resources" := by
  refine ⟨?_, ?_, ?_, ?_, rfl⟩
  · unfold checkRouterOSVersion
    cases c1.client.GetVersion c1.calls with
    | error e => rfl
    | ok version =>
      simp only
      split_ifs <;> rfl
  · unfold checkArchitecture
    cases c2.client.GetArchitecture c2.calls with
    | error e => rfl
    | ok arch =>
      simp only
      split_ifs <;> rfl
  · unfold checkContainerRuntime
    cases c3.client.GetContainerConfig c3.calls with
    | error e => rfl
    | ok config =>
      simp only
      split_ifs
      · rfl
      · cases mapLookup config (ascii "registry-url") with
        | none => rfl
        | some registry =>
          simp only
          split_ifs <;> rfl
  · unfold checkVETHConfiguration
    cases c4.client.GetVETHInterfaces c4.calls with
    | error e => rfl
    | ok veths =>
      simp only
      split_ifs <;> rfl

/-- The loop stops at a check whose result is Fail. -/
theorem runLoop_stop (check : Checker → CheckResult × Checker)
    (rest : List (Checker → CheckResult × Checker)) (c : Checker)
    (hP : (check c).1.Passed = false) (hW : (check c).1.Warning = false) :
    runLoop (check :: rest) c = (runCheck check c).2 := by
  simp [runLoop, runCheck, hP, hW]

/-- The loop goes on after a check whose result is not Fail. -/
theorem runLoop_continue (check : Checker → CheckResult × Checker)
    (rest : List (Checker → CheckResult × Checker)) (c : Checker)
    (h : (check c).1.Passed = true ∨ (check c).1.Warning = true) :
    runLoop (check :: rest) c = runLoop rest (runCheck check c).2 := by
  rcases h with h | h <;> simp [runLoop, runCheck, h]

theorem not_fail_or (r : CheckResult) (h : ¬ (r.Passed = false ∧ r.Warning = false)) :
    r.Passed = true ∨ r.Warning = true := by
  cases hP : r.Passed <;> cases hW : r.Warning <;> simp_all

theorem runNoBreak_length (cs : List (Checker → CheckResult × Checker)) :
    ∀ c : Checker, (runNoBreak cs c).length = cs.length := by
  induction cs with
  | nil => intro c; rfl
  | cons check rest ih => intro c; simp [runNoBreak, ih]

/-- The loop of `RunAllChecks` runs the first `k` checks, where the `k`-th is
the first to give Fail, or all of them when none does. -/
theorem runLoop_spec (cs : List (Checker → CheckResult × Checker)) :
    ∀ c : Checker, ∃ k, k ≤ cs.length ∧ (cs ≠ [] → 1 ≤ k) ∧
      runLoop cs c = ((((runNoBreak cs c).take k).getLast?).map Prod.snd).getD c ∧
      (∀ p ∈ (runNoBreak cs c).take (k - 1), p.1.Passed = true ∨ p.1.Warning = true) ∧
      (k < cs.length → ∃ p, ((runNoBreak cs c).take k).getLast? = some p ∧
        p.1.Passed = false ∧ p.1.Warning = false) := by
  induction cs with
  | nil =>
    intro c
    exact ⟨0, le_refl _, fun h => absurd rfl h, rfl, by simp, by simp⟩
  | cons check rest ih =>
    intro c
    by_cases hfail : (check c).1.Passed = false ∧ (check c).1.Warning = false
    · refine ⟨1, by simp, fun _ => le_refl _, ?_, by simp, ?_⟩
      · rw [runLoop_stop check rest c hfail.1 hfail.2]
        simp [runNoBreak]
      · intro _
        exact ⟨runCheck check c, by simp [runNoBreak], hfail.1, hfail.2⟩
    · have hok := not_fail_or _ hfail
      obtain ⟨k, hk, hk1, hstate, hbefore, hlast⟩ := ih (runCheck check c).2
      refine ⟨k + 1, by simpa using hk, fun _ => Nat.le_add_left _ _, ?_, ?_, ?_⟩
      · rw [runLoop_continue check rest c hok, hstate]
        cases k with
        | zero => simp [runNoBreak]
        | succ j =>
          have hne : (runNoBreak rest (runCheck check c).2).take (j + 1) ≠ [] := by
            intro e
            have hlen := congrArg List.length e
            rw [List.length_take, runNoBreak_length] at hlen
            simp only [List.length_nil] at hlen
            omega
          simp only [runNoBreak, List.take_succ_cons]
          cases hl : ((runNoBreak rest (runCheck check c).2).take (j + 1)).getLast? with
          | none => exact absurd (List.getLast?_eq_none_iff.mp hl) hne
          | some q => simp [List.getLast?_cons, hl]
      · intro p hp
        cases k with
        | zero => simp at hp
        | succ j =>
          simp only [Nat.add_sub_cancel, runNoBreak, List.take_succ_cons, List.mem_cons] at hp
          rcases hp with e | e
          · rw [e]
            exact hok
          · exact hbefore p (by simpa using e)
      · intro hlt
        have hlt2 : k < rest.length := by simpa using hlt
        obtain ⟨p, hp, hP, hW⟩ := hlast hlt2
        refine ⟨p, ?_, hP, hW⟩
        simp only [runNoBreak, List.take_succ_cons]
        simp [List.getLast?_cons, hp]

theorem runNoBreak_valid (cs : List (Checker → CheckResult × Checker))
    (h : ∀ check ∈ cs, ∀ c : Checker, (check c).1.Warning = true → (check c).1.Passed = true) :
    ∀ c : Checker, ∀ p ∈ runNoBreak cs c, p.1.Warning = true → p.1.Passed = true := by
  induction cs with
  | nil => intro c p hp; simp [runNoBreak] at hp
  | cons check rest ih =>
    intro c p hp
    simp only [runNoBreak, List.mem_cons] at hp
    rcases hp with e | e
    · rw [e]
      exact h check (List.mem_cons_self _ _) c
    · exact ih (fun ch hch => h ch (List.mem_cons_of_mem _ hch)) _ p e

/-- The states of an uninterrupted run of a fresh engine: after each check,
the results so far and the calls so far. -/
theorem runNoBreak_fresh (client : RouterOSClient) :
    (runNoBreak checks (NewChecker client)).map (fun p => (p.2.results, p.2.calls)) =
      [(((runNoBreak checks (NewChecker client)).take 1).map Prod.fst, [Call.GetVersion]),
       (((runNoBreak checks (NewChecker client)).take 2).map Prod.fst,
          [Call.GetVersion, Call.GetArchitecture]),
       (((runNoBreak checks (NewChecker client)).take 3).map Prod.fst,
          [Call.GetVersion, Call.GetArchitecture, Call.GetContainerConfig]),
       (((runNoBreak checks (NewChecker client)).take 4).map Prod.fst,
          [Call.GetVersion, Call.GetArchitecture, Call.GetContainerConfig,
            Call.GetVETHInterfaces]),
       (((runNoBreak checks (NewChecker client)).take 5).map Prod.fst,
          [Call.GetVersion, Call.GetArchitecture, Call.GetContainerConfig,
            Call.GetVETHInterfaces])] := by
  simp only [runNoBreak, checks, runCheck, NewChecker, checkRouterOSVersion_calls,
    checkArchitecture_calls, checkContainerRuntime_calls, checkVETHConfiguration_calls,
    checkResources_calls, List.map_cons, List.map_nil, List.nil_append, List.cons_append,
    List.take_succ_cons, List.take_zero, List.take_nil]

/-- The state of a fresh engine after the first `k` checks of an uninterrupted
run. -/
theorem runNoBreak_fresh_state (client : RouterOSClient) (k : Nat) (h1 : 1 ≤ k) (h5 : k ≤ 5) :
    ∃ p, ((runNoBreak checks (NewChecker client)).take k).getLast? = some p ∧
      p.2.results = ((runNoBreak checks (NewChecker client)).take k).map Prod.fst ∧
      p.2.calls = [Call.GetVersion, Call.GetArchitecture, Call.GetContainerConfig,
        Call.GetVETHInterfaces].take k := by
  have hstates := runNoBreak_fresh client
  have hlen := runNoBreak_length checks (NewChecker client)
  revert hstates hlen
  generalize runNoBreak checks (NewChecker client) = all
  intro hstates hlen
  have hl5 : all.length = 5 := by rw [hlen]; rfl
  match all, hl5 with
  | [p1, p2, p3, p4, p5], _ =>
    simp only [List.map_cons, List.map_nil, List.cons.injEq, Prod.mk.injEq, and_true] at hstates
    obtain ⟨⟨a1, b1⟩, ⟨a2, b2⟩, ⟨a3, b3⟩, ⟨a4, b4⟩, ⟨a5, b5⟩⟩ := hstates
    interval_cases k
    · exact ⟨p1, rfl, a1, b1⟩
    · exact ⟨p2, rfl, a2, b2⟩
    · exact ⟨p3, rfl, a3, b3⟩
    · exact ⟨p4, rfl, a4, b4⟩
    · exact ⟨p5, rfl, a5, b5⟩

/-- C17. On a fresh engine `RunAllChecks` returns the results of the checks in
the order version, architecture, runtime, VETH, resources, cut off right after
the first Fail: it returns the first `k` results of the uninterrupted run for
some `1 <= k <= 5`, the entries before the last are Pass or Warn (`Passed`),
the last is Fail when `k < 5`, and the calls made to the client are those of
the first `k` checks and no other.  For a version in the known-buggy range the
results are the one Fail result of the version check. -/
theorem C17_run_order (client : RouterOSClient) :
    (runNoBreak checks (NewChecker client)).map (fun p => p.1.Name) =
      [ascii "RouterOS Version", ascii "Architecture", ascii "Container Runtime",
        ascii "VETH Configuration", ascii "Resources"] ∧
    (∃ k, 1 ≤ k ∧ k ≤ 5 ∧
      (RunAllChecks (NewChecker client)).1 =
        ((runNoBreak checks (NewChecker client)).take k).map Prod.fst ∧
      (∀ r ∈ ((runNoBreak checks (NewChecker client)).take (k - 1)).map Prod.fst,
        r.Passed = true) ∧
      (k < 5 → ∃ r, (RunAllChecks (NewChecker client)).1.getLast? = some r ∧
        r.Passed = false ∧ r.Warning = false) ∧
      (RunAllChecks (NewChecker client)).2.calls =
        [Call.GetVersion, Call.GetArchitecture, Call.GetContainerConfig,
          Call.GetVETHInterfaces].take k) ∧
    (∀ version : List Byte, client.GetVersion [] = .ok version →
      Float64.lit 714 100 ≤ parseVersion version → parseVersion version ≤ Float64.lit 715 100 →
      (RunAllChecks (NewChecker client)).1 = [(checkRouterOSVersion (NewChecker client)).1] ∧
      (checkRouterOSVersion (NewChecker client)).1.Name = ascii "RouterOS Version" ∧
      (checkRouterOSVersion (NewChecker client)).1.Passed = false ∧
      (checkRouterOSVersion (NewChecker client)).1.Warning = false ∧
      (RunAllChecks (NewChecker client)).2.calls = [Call.GetVersion]) := by
  refine ⟨?_, ?_, ?_⟩
  · simp only [runNoBreak, checks, runCheck, List.map_cons, List.map_nil]
    obtain ⟨n1, n2, n3, n4, n5⟩ := checks_names (NewChecker client)
      (runCheck checkRouterOSVersion (NewChecker client)).2
      (runCheck checkArchitecture (runCheck checkRouterOSVersion (NewChecker client)).2).2
      (runCheck checkContainerRuntime (runCheck checkArchitecture
        (runCheck checkRouterOSVersion (NewChecker client)).2).2).2
      (runCheck checkVETHConfiguration (runCheck checkContainerRuntime (runCheck checkArchitecture
        (runCheck checkRouterOSVersion (NewChecker client)).2).2).2).2
    simp only [runCheck] at n1 n2 n3 n4 n5
    rw [n1, n2, n3, n4, n5]
  · obtain ⟨k, hk5, hk1, hstate, hbefore, hlast⟩ := runLoop_spec checks (NewChecker client)
    have h1 : 1 ≤ k := hk1 (by simp [checks])
    have h5 : k ≤ 5 := hk5
    obtain ⟨p, hp, hres, hcalls⟩ := runNoBreak_fresh_state client k h1 h5
    have hrun : runLoop checks (NewChecker client) = p.2 := by
      rw [hstate, hp]
      rfl
    refine ⟨k, h1, h5, ?_, ?_, ?_, ?_⟩
    · simp only [RunAllChecks, hrun, hres]
    · intro r hr
      obtain ⟨q, hq, rfl⟩ := List.mem_map.mp hr
      have hmem : q ∈ runNoBreak checks (NewChecker client) := List.mem_of_mem_take hq
      rcases hbefore q hq with h | h
      · exact h
      · exact runNoBreak_valid checks checks_valid (NewChecker client) q hmem h
    · intro hlt
      obtain ⟨q, hq, hP, hW⟩ := hlast hlt
      rw [hp] at hq
      obtain rfl : p = q := Option.some.inj hq
      refine ⟨p.1, ?_, hP, hW⟩
      simp only [RunAllChecks, hrun, hres, List.getLast?_map, hp, Option.map_some']
    · simp only [RunAllChecks, hrun, hcalls]
  · intro version hfetch hlo hhi
    have hflags := checkRouterOSVersion_flags (NewChecker client) version hfetch
    rw [if_pos ⟨hlo, hhi⟩] at hflags
    have hP : (checkRouterOSVersion (NewChecker client)).1.Passed = false :=
      congrArg Prod.fst hflags
    have hW : (checkRouterOSVersion (NewChecker client)).1.Warning = false :=
      congrArg Prod.snd hflags
    have hrun := RunAllChecks_first_fail (NewChecker client) hP hW
    exact ⟨by simpa [NewChecker] using hrun.1,
      (checks_names (NewChecker client) (NewChecker client) (NewChecker client)
        (NewChecker client) (NewChecker client)).1, hP, hW,
      by simpa [NewChecker] using hrun.2⟩

/-- C17 at concrete inputs: with the version `7.14` the run returns the one
Fail result of the version check and makes no call but `GetVersion`; with the
version `7.16` on `arm64`, the runtime enabled and one VETH interface, all five
checks run. -/
theorem C17_run_order_witness :
    ((RunAllChecks (NewChecker (constClient (ascii "7.14") (ascii "arm64") [] []))).1 =
        [(checkRouterOSVersion
          (NewChecker (constClient (ascii "7.14") (ascii "arm64") [] []))).1] ∧
      (checkRouterOSVersion
        (NewChecker (constClient (ascii "7.14") (ascii "arm64") [] []))).1.Name =
          ascii "RouterOS Version" ∧
      (checkRouterOSVersion
        (NewChecker (constClient (ascii "7.14") (ascii "arm64") [] []))).1.Passed = false ∧
      (checkRouterOSVersion
        (NewChecker (constClient (ascii "7.14") (ascii "arm64") [] []))).1.Warning = false ∧
      (RunAllChecks (NewChecker (constClient (ascii "7.14") (ascii "arm64") [] []))).2.calls =
        [Call.GetVersion]) ∧
    ((RunAllChecks (NewChecker (constClient (ascii "7.16") (ascii "arm64")
        [(ascii "enabled", ascii "true")] [ascii "veth1"]))).1.map (fun r => r.Name) =
      [ascii "RouterOS Version", ascii "Architecture", ascii "Container Runtime",
        ascii "VETH Configuration", ascii "Resources"]) ∧
    ((RunAllChecks (NewChecker (constClient (ascii "7.16") (ascii "mips")
        [(ascii "enabled", ascii "true")] [ascii "veth1"]))).1.map (fun r => r.Name) =
      [ascii "RouterOS Version", ascii "Architecture"]) ∧
    ((RunAllChecks (NewChecker (constClient (ascii "7.16") (ascii "mips")
        [(ascii "enabled", ascii "true")] [ascii "veth1"]))).2.calls =
      [Call.GetVersion, Call.GetArchitecture]) :=
  ⟨(C17_run_order (constClient (ascii "7.14") (ascii "arm64") [] [])).2.2 (ascii "7.14") rfl
      (by decide) (by decide),
    by decide, by decide, by decide⟩

theorem runLoop_valid (cs : List (Checker → CheckResult × Checker))
    (hv : ∀ check ∈ cs, ∀ c : Checker, (check c).1.Warning = true → (check c).1.Passed = true)
    (hres : ∀ check ∈ cs, ∀ c : Checker, (check c).2.results = c.results) :
    ∀ c : Checker, (∀ r ∈ c.results, r.Warning = true → r.Passed = true) →
      ∀ r ∈ (runLoop cs c).results, r.Warning = true → r.Passed = true := by
  induction cs with
  | nil => intro c h; exact h
  | cons check rest ih =>
    intro c h
    have hstep : ∀ r ∈ (runCheck check c).2.results, r.Warning = true → r.Passed = true := by
      intro r hr
      simp only [runCheck, hres check (List.mem_cons_self _ _) c, List.mem_append,
        List.mem_singleton] at hr
      rcases hr with hr | hr
      · exact h r hr
      · rw [hr]
        exact hv check (List.mem_cons_self _ _) c
    by_cases hfail : (check c).1.Passed = false ∧ (check c).1.Warning = false
    · rw [runLoop_stop check rest c hfail.1 hfail.2]
      exact hstep
    · rw [runLoop_continue check rest c (not_fail_or _ hfail)]
      exact ih (fun ch hch => hv ch (List.mem_cons_of_mem _ hch))
        (fun ch hch => hres ch (List.mem_cons_of_mem _ hch)) _ hstep

/-- Whatever an engine has recorded, no result has `Warning` set and `Passed`
not set. -/
theorem recorded_valid (client : RouterOSClient) :
    ∀ n : Nat, ∀ r ∈ ((fun c => (RunAllChecks c).2)^[n] (NewChecker client)).results,
      r.Warning = true → r.Passed = true := by
  intro n
  induction n with
  | zero => intro r hr; simp [NewChecker] at hr
  | succ n ih =>
    rw [Function.iterate_succ_apply']
    exact runLoop_valid checks checks_valid checks_results _ ih

/-- C18. `HasFailures` is true exactly when some recorded result is Fail
(`Passed = false` and `Warning = false`) and `HasWarnings` exactly when some
recorded result has `Warning` set, which for the results an engine records, in
any number of runs, is the same as being Warn (`Passed` and `Warning`).  So
results that are all Pass or Warn with at least one Warn give
`HasFailures = false` and `HasWarnings = true`. -/
theorem C18_aggregation :
    (∀ c : Checker,
      (HasFailures c = true ↔ ∃ r ∈ c.results, r.Passed = false ∧ r.Warning = false) ∧
      (HasWarnings c = true ↔ ∃ r ∈ c.results, r.Warning = true)) ∧
    (∀ (client : RouterOSClient) (n : Nat),
      (HasFailures ((fun c => (RunAllChecks c).2)^[n] (NewChecker client)) = true ↔
        ∃ r ∈ ((fun c => (RunAllChecks c).2)^[n] (NewChecker client)).results,
          r.Passed = false ∧ r.Warning = false) ∧
      (HasWarnings ((fun c => (RunAllChecks c).2)^[n] (NewChecker client)) = true ↔
        ∃ r ∈ ((fun c => (RunAllChecks c).2)^[n] (NewChecker client)).results,
          r.Passed = true ∧ r.Warning = true)) ∧
    (∀ c : Checker, (∀ r ∈ c.results, r.Passed = true) →
      (∃ r ∈ c.results, r.Passed = true ∧ r.Warning = true) →
      HasFailures c = false ∧ HasWarnings c = true) := by
  have general : ∀ c : Checker,
      (HasFailures c = true ↔ ∃ r ∈ c.results, r.Passed = false ∧ r.Warning = false) ∧
      (HasWarnings c = true ↔ ∃ r ∈ c.results, r.Warning = true) := by
    intro c
    simp [HasFailures, HasWarnings, List.any_eq_true]
  refine ⟨general, ?_, ?_⟩
  · intro client n
    refine ⟨(general _).1, (general _).2.trans ⟨?_, ?_⟩⟩
    · rintro ⟨r, hr, hW⟩
      exact ⟨r, hr, recorded_valid client n r hr hW, hW⟩
    · rintro ⟨r, hr, _, hW⟩
      exact ⟨r, hr, hW⟩
  · intro c hall ⟨r, hr, _, hW⟩
    refine ⟨?_, (general c).2.mpr ⟨r, hr, hW⟩⟩
    cases hF : HasFailures c with
    | false => rfl
    | true =>
      obtain ⟨q, hq, hP, _⟩ := (general c).1.mp hF
      rw [hall q hq] at hP
      exact Bool.noConfusion hP

/-- C19. When the call a check makes to the client returns an error, the
result of the check is Fail, carries the name of the check and a message that
ends with the text of the error, and holds no details; and on a fresh engine
whose earlier checks did not fail, `RunAllChecks` returns the results of the
earlier checks followed by that result, which is its last entry. -/
theorem C19_provider_error (client : RouterOSClient) (e : List Byte) :
    (∀ c : Checker, c.client.GetVersion c.calls = .error e →
      (checkRouterOSVersion c).1 =
        { Name := ascii "RouterOS Version", Passed := false, Warning := false,
          Message := ascii "Failed to get RouterOS version: " ++ e, Details := [] }) ∧
    (∀ c : Checker, c.client.GetArchitecture c.calls = .error e →
      (checkArchitecture c).1 =
        { Name := ascii "Architecture", Passed := false, Warning := false,
          Message := ascii "Failed to get architecture: " ++ e, Details := [] }) ∧
    (∀ c : Checker, c.client.GetContainerConfig c.calls = .error e →
      (checkContainerRuntime c).1 =
        { Name := ascii "Container Runtime", Passed := false, Warning := false,
          Message := ascii "Failed to get container config: " ++ e, Details := [] }) ∧
    (∀ c : Checker, c.client.GetVETHInterfaces c.calls = .error e →
      (checkVETHConfiguration c).1 =
        { Name := ascii "VETH Configuration", Passed := false, Warning := false,
          Message := ascii "Failed to get VETH interfaces: " ++ e, Details := [] }) ∧
    (client.GetVersion [] = .error e →
      (RunAllChecks (NewChecker client)).1 =
        [{ Name := ascii "RouterOS Version", Passed := false, Warning := false,
           Message := ascii "Failed to get RouterOS version: " ++ e, Details := [] }]) ∧
    (client.GetArchitecture [Call.GetVersion] = .error e →
      (∀ r ∈ ((runNoBreak checks (NewChecker client)).take 1).map Prod.fst,
        r.Passed = true ∨ r.Warning = true) →
      (RunAllChecks (NewChecker client)).1 =
        ((runNoBreak checks (NewChecker client)).take 1).map Prod.fst ++
        [{ Name := ascii "Architecture", Passed := false, Warning := false,
           Message := ascii "Failed to get architecture: " ++ e, Details := [] }]) ∧
    (client.GetContainerConfig [Call.GetVersion, Call.GetArchitecture] = .error e →
      (∀ r ∈ ((runNoBreak checks (NewChecker client)).take 2).map Prod.fst,
        r.Passed = true ∨ r.Warning = true) →
      (RunAllChecks (NewChecker client)).1 =
        ((runNoBreak checks (NewChecker client)).take 2).map Prod.fst ++
        [{ Name := ascii "Container Runtime", Passed := false, Warning := false,
           Message := ascii "Failed to get container config: " ++ e, Details := [] }]) ∧
    (client.GetVETHInterfaces
        [Call.GetVersion, Call.GetArchitecture, Call.GetContainerConfig] = .error e →
      (∀ r ∈ ((runNoBreak checks (NewChecker client)).take 3).map Prod.fst,
        r.Passed = true ∨ r.Warning = true) →
      (RunAllChecks (NewChecker client)).1 =
        ((runNoBreak checks (NewChecker client)).take 3).map Prod.fst ++
        [{ Name := ascii "VETH Configuration", Passed := false, Warning := false,
           Message := ascii "Failed to get VETH interfaces: " ++ e, Details := [] }]) := by
  have hV : ∀ c : Checker, c.client.GetVersion c.calls = .error e →
      (checkRouterOSVersion c).1 =
        { Name := ascii "RouterOS Version", Passed := false, Warning := false,
          Message := ascii "Failed to get RouterOS version: " ++ e, Details := [] } := by
    intro c h
    simp only [checkRouterOSVersion, h]
  have hA : ∀ c : Checker, c.client.GetArchitecture c.calls = .error e →
      (checkArchitecture c).1 =
        { Name := ascii "Architecture", Passed := false, Warning := false,
          Message := ascii "Failed to get architecture: " ++ e, Details := [] } := by
    intro c h
    simp only [checkArchitecture, h]
  have hC : ∀ c : Checker, c.client.GetContainerConfig c.calls = .error e →
      (checkContainerRuntime c).1 =
        { Name := ascii "Container Runtime", Passed := false, Warning := false,
          Message := ascii "Failed to get container config: " ++ e, Details := [] } := by
    intro c h
    simp only [checkContainerRuntime, h]
  have hT : ∀ c : Checker, c.client.GetVETHInterfaces c.calls = .error e →
      (checkVETHConfiguration c).1 =
        { Name := ascii "VETH Configuration", Passed := false, Warning := false,
          Message := ascii "Failed to get VETH interfaces: " ++ e, Details := [] } := by
    intro c h
    simp only [checkVETHConfiguration, h]
  refine ⟨hV, hA, hC, hT, ?_, ?_, ?_, ?_⟩
  · intro h
    have h1 := hV (NewChecker client) h
    have hrun := RunAllChecks_first_fail (NewChecker client) (by rw [h1]) (by rw [h1])
    rw [hrun.1, h1]
    rfl
  · intro h hok
    simp only [runNoBreak, checks, List.take_succ_cons, List.take_zero, List.map_cons,
      List.map_nil, List.mem_singleton, forall_eq] at hok ⊢
    have h2 := hA (runCheck checkRouterOSVersion (NewChecker client)).2
      (by simpa [runCheck, checkRouterOSVersion_calls, NewChecker] using h)
    simp only [RunAllChecks, checks]
    rw [runLoop_continue checkRouterOSVersion _ _ hok,
      runLoop_stop checkArchitecture _ _ (by rw [h2]) (by rw [h2])]
    simp only [runCheck, checkArchitecture_calls, checkRouterOSVersion_calls, NewChecker,
      List.nil_append, List.singleton_append] at h2 ⊢
    rw [h2]
  · intro h hok
    simp only [runNoBreak, checks, List.take_succ_cons, List.take_zero, List.map_cons,
      List.map_nil, List.mem_cons, List.mem_singleton, List.mem_nil_iff, or_false,
      forall_eq_or_imp, forall_eq] at hok ⊢
    have h3 := hC (runCheck checkArchitecture
        (runCheck checkRouterOSVersion (NewChecker client)).2).2
      (by simpa [runCheck, checkRouterOSVersion_calls, checkArchitecture_calls, NewChecker]
        using h)
    simp only [RunAllChecks, checks]
    rw [runLoop_continue checkRouterOSVersion _ _ hok.1,
      runLoop_continue checkArchitecture _ _ hok.2,
      runLoop_stop checkContainerRuntime _ _ (by rw [h3]) (by rw [h3])]
    simp only [runCheck, checkArchitecture_calls, checkRouterOSVersion_calls,
      checkContainerRuntime_calls, NewChecker, List.nil_append, List.singleton_append,
      List.cons_append] at h3 ⊢
    rw [h3]
  · intro h hok
    simp only [runNoBreak, checks, List.take_succ_cons, List.take_zero, List.map_cons,
      List.map_nil, List.mem_cons, List.mem_singleton, List.mem_nil_iff, or_false,
      forall_eq_or_imp, forall_eq] at hok ⊢
    have h4 := hT (runCheck checkContainerRuntime (runCheck checkArchitecture
        (runCheck checkRouterOSVersion (NewChecker client)).2).2).2
      (by simpa [runCheck, checkRouterOSVersion_calls, checkArchitecture_calls,
        checkContainerRuntime_calls, NewChecker] using h)
    simp only [RunAllChecks, checks]
    rw [runLoop_continue checkRouterOSVersion _ _ hok.1,
      runLoop_continue checkArchitecture _ _ hok.2.1,
      runLoop_continue checkContainerRuntime _ _ hok.2.2,
      runLoop_stop checkVETHConfiguration _ _ (by rw [h4]) (by rw [h4])]
    simp only [runCheck, checkArchitecture_calls, checkRouterOSVersion_calls,
      checkContainerRuntime_calls, checkVETHConfiguration_calls, NewChecker, List.nil_append,
      List.singleton_append, List.cons_append] at h4 ⊢
    rw [h4]

/-- C19 at a concrete input: a client that answers the version `7.16` and
fails the architecture call with `timeout` gives two results, the second the
Fail result of the architecture check with the message
`Failed to get architecture: timeout`. -/
theorem C19_provider_error_witness :
    (RunAllChecks (NewChecker
        { GetVersion := fun _ => .ok (ascii "7.16"),
          GetArchitecture := fun _ => .error (ascii "timeout"),
          GetContainerConfig := fun _ => .ok [],
          GetVETHInterfaces := fun _ => .ok [] })).1 =
      ((runNoBreak checks (NewChecker
        { GetVersion := fun _ => .ok (ascii "7.16"),
          GetArchitecture := fun _ => .error (ascii "timeout"),
          GetContainerConfig := fun _ => .ok [],
          GetVETHInterfaces := fun _ => .ok [] })).take 1).map Prod.fst ++
        [{ Name := ascii "Architecture", Passed := false, Warning := false,
           Message := ascii "Failed to get architecture: " ++ ascii "timeout",
           Details := [] }] ∧
    (RunAllChecks (NewChecker
        { GetVersion := fun _ => .ok (ascii "7.16"),
          GetArchitecture := fun _ => .error (ascii "timeout"),
          GetContainerConfig := fun _ => .ok [],
          GetVETHInterfaces := fun _ => .ok [] })).1.map (fun r => (r.Name, r.Passed, r.Message)) =
      [(ascii "RouterOS Version", true, ascii "RouterOS v7.16 is stable for containers"),
        (ascii "Architecture", false, ascii "Failed to get architecture: timeout")] :=
  ⟨(C19_provider_error
      { GetVersion := fun _ => .ok (ascii "7.16"),
        GetArchitecture := fun _ => .error (ascii "timeout"),
        GetContainerConfig := fun _ => .ok [],
        GetVETHInterfaces := fun _ => .ok [] } (ascii "timeout")).2.2.2.2.2.1 rfl (by decide),
    by decide⟩

/-! ## Lemmas on `float64` -/

namespace Float64

theorem roundNearestEven_spec (n d : Nat) (hd : 0 < d) :
    2 * (roundNearestEven n d * d) ≤ 2 * n + d ∧ 2 * n ≤ 2 * (roundNearestEven n d * d) + d := by
  have h1 : n / d * d + n % d = n := Nat.div_add_mod' n d
  have h2 : n % d < d := Nat.mod_lt n hd
  have h3 : (n / d + 1) * d = n / d * d + d := by rw [Nat.add_mul, Nat.one_mul]
  unfold roundNearestEven
  split_ifs
  · omega
  · rw [h3]; omega
  · omega
  · rw [h3]; omega

theorem roundNearestEven_exact (k d : Nat) (hd : 0 < d) : roundNearestEven (k * d) d = k := by
  unfold roundNearestEven
  rw [Nat.mul_mod_left, Nat.mul_div_cancel k hd]
  simp [hd]

theorem log2_fold_le (n : Nat) :
    ∀ (l : List Nat) (e : Nat), 2 ^ e ≤ n →
      2 ^ (l.foldl (fun e k => if 2 ^ (e + k) ≤ n then e + k else e) e) ≤ n := by
  intro l
  induction l with
  | nil => intro e h; exact h
  | cons k l ih =>
    intro e h
    simp only [List.foldl_cons]
    by_cases hk : 2 ^ (e + k) ≤ n
    · rw [if_pos hk]; exact ih _ hk
    · rw [if_neg hk]; exact ih _ h

/-- The power of two that `log2` finds is at or below the number. -/
theorem log2_le (n : Nat) (h : 1 ≤ n) : 2 ^ log2 n ≤ n :=
  log2_fold_le n _ 0 (by simpa using h)

theorem log2_lt_of_lt (n e : Nat) (h : 1 ≤ n) (hlt : n < 2 ^ e) : log2 n < e := by
  have h1 := log2_le n h
  exact (Nat.pow_lt_pow_iff_right (by decide : 1 < 2)).mp (lt_of_le_of_lt h1 hlt)

/-- Rounding a whole number of units below `2^e` moves it by at most half of
`2^(e-53)`. -/
theorem round_error (n e : Nat) (he : 53 ≤ e) (hlt : n < 2 ^ e) :
    2 * round n 1 ≤ 2 * n + 2 ^ (e - 53) ∧ 2 * n ≤ 2 * round n 1 + 2 ^ (e - 53) := by
  unfold round
  rw [Nat.div_one, Nat.one_mul]
  by_cases hsmall : n < 2 ^ 53
  · rw [if_pos hsmall]
    have := roundNearestEven_exact n 1 Nat.one_pos
    rw [Nat.mul_one] at this
    rw [this]
    have hpos := Nat.two_pow_pos (e - 53)
    omega
  · rw [if_neg hsmall]
    have h1 : 1 ≤ n := le_trans Nat.one_le_two_pow (not_lt.mp hsmall)
    have hlog : log2 n < e := log2_lt_of_lt n e h1 hlt
    have hspec := roundNearestEven_spec n (2 ^ (log2 n - 52)) (Nat.two_pow_pos _)
    have hpow : 2 ^ (log2 n - 52) ≤ 2 ^ (e - 53) :=
      Nat.pow_le_pow_right (by decide) (by omega)
    omega

/-- A whole number of units that is a multiple of `2^1074` below `2^53` times
it is a `float64`: rounding leaves it. -/
theorem round_exact (i : Nat) (hi : i < 2 ^ 53) : round (i * one) 1 = i * one := by
  unfold round
  rw [Nat.div_one, Nat.one_mul]
  by_cases hsmall : i * one < 2 ^ 53
  · rw [if_pos hsmall]
    have := roundNearestEven_exact (i * one) 1 Nat.one_pos
    rw [Nat.mul_one] at this
    exact this
  · rw [if_neg hsmall]
    have h1 : 1 ≤ i * one := le_trans Nat.one_le_two_pow (not_lt.mp hsmall)
    have hlt : i * one < 2 ^ 1127 := by
      have : i * one < 2 ^ 53 * one := Nat.mul_lt_mul_of_pos_right hi (Nat.two_pow_pos _)
      calc i * one < 2 ^ 53 * one := this
        _ = 2 ^ 1127 := by rw [one, ← Nat.pow_add]
    have hlog : log2 (i * one) < 1127 := log2_lt_of_lt _ _ h1 hlt
    obtain ⟨t, ht⟩ : ∃ t, log2 (i * one) - 52 + t = 1074 := ⟨1074 - (log2 (i * one) - 52), by omega⟩
    have hone : one = 2 ^ t * 2 ^ (log2 (i * one) - 52) := by
      rw [← Nat.pow_add, Nat.add_comm, ht, one]
    have hmul : i * one = (i * 2 ^ t) * 2 ^ (log2 (i * one) - 52) := by
      rw [Nat.mul_assoc, ← hone]
    generalize log2 (i * one) - 52 = s at hmul ⊢
    rw [hmul, roundNearestEven_exact _ _ (Nat.two_pow_pos _)]

theorem ofInt_exact (i : Nat) (hi : i < 2 ^ 53) : ofInt i = i * one := round_exact i hi

end Float64

/-! ## The order of version numbers (C15) -/

/-- Consecutive hundredths are more than `2^1067` units apart as `float64`
quotients, and the last of them is as far below one. -/
theorem cents_step :
    ∀ m : Fin 99,
      Float64.div (Float64.ofInt m.val) (Float64.lit 100 1) + 2 ^ 1067 + 1
        ≤ Float64.div (Float64.ofInt (m.val + 1)) (Float64.lit 100 1) := by
  decide

theorem cents_last :
    Float64.div (Float64.ofInt 99) (Float64.lit 100 1) + 2 ^ 1067 + 1 ≤ Float64.one := by
  decide

theorem cents_lt (a b : Nat) (hab : a < b) (hb : b < 100) :
    Float64.div (Float64.ofInt a) (Float64.lit 100 1) + 2 ^ 1067 + 1
      ≤ Float64.div (Float64.ofInt b) (Float64.lit 100 1) := by
  induction b with
  | zero => omega
  | succ b ih =>
    have hstep := cents_step ⟨b, by omega⟩
    simp only at hstep
    by_cases hlt : a < b
    · have := ih hlt (by omega)
      omega
    · have hEq : a = b := by omega
      rw [hEq]
      exact hstep

theorem cents_lt_one (m : Nat) (hm : m < 100) :
    Float64.div (Float64.ofInt m) (Float64.lit 100 1) + 2 ^ 1067 + 1 ≤ Float64.one := by
  by_cases h : m < 99
  · have h1 := cents_lt m 99 h (by decide)
    have h2 := cents_last
    omega
  · have hEq : m = 99 := by omega
    rw [hEq]
    exact cents_last

/-- The exact sum `M + m/100.0` of a version below `2^46`, before the last
rounding, is below `2^46`. -/
theorem version_sum_lt (M m : Nat) (hM : M < 2 ^ 46) (hm : m < 100) :
    M * Float64.one + Float64.div (Float64.ofInt m) (Float64.lit 100 1) < 2 ^ 1120 := by
  have h1 := cents_lt_one m hm
  have h2 : (M + 1) * Float64.one ≤ 2 ^ 46 * Float64.one := Nat.mul_le_mul_right _ hM
  have h3 : 2 ^ 46 * Float64.one = 2 ^ 1120 := by rw [Float64.one, ← Nat.pow_add]
  have h4 : (M + 1) * Float64.one = M * Float64.one + Float64.one := by
    rw [Nat.add_mul, Nat.one_mul]
  have h5 := Nat.two_pow_pos 1067
  omega

/-- Versions in lexicographic order have exact sums more than `2^1067` units
apart, which is the distance of two `float64` next to each other below
`2^46`. -/
theorem version_sum_gap (M1 m1 M2 m2 : Nat) (hm1 : m1 < 100) (hm2 : m2 < 100)
    (hlex : M1 < M2 ∨ (M1 = M2 ∧ m1 < m2)) :
    M1 * Float64.one + Float64.div (Float64.ofInt m1) (Float64.lit 100 1) + 2 ^ 1067 + 1
      ≤ M2 * Float64.one + Float64.div (Float64.ofInt m2) (Float64.lit 100 1) := by
  rcases hlex with h | ⟨h, hlt⟩
  · have h1 := cents_lt_one m1 hm1
    have h2 : (M1 + 1) * Float64.one ≤ M2 * Float64.one := Nat.mul_le_mul_right _ h
    have h4 : (M1 + 1) * Float64.one = M1 * Float64.one + Float64.one := by
      rw [Nat.add_mul, Nat.one_mul]
    omega
  · have h1 := cents_lt m1 m2 hlt hm2
    rw [h]
    omega

/-- The `float64` value `float64(M) + float64(m)/100.0` is strictly increasing
in the lexicographic order of `(M, m)` for `M < 2^46` and `m < 100`. -/
theorem version_value_lt (M1 m1 M2 m2 : Nat) (hM1 : M1 < 2 ^ 46) (hM2 : M2 < 2 ^ 46)
    (hm1 : m1 < 100) (hm2 : m2 < 100) (hlex : M1 < M2 ∨ (M1 = M2 ∧ m1 < m2)) :
    Float64.add (Float64.ofInt M1) (Float64.div (Float64.ofInt m1) (Float64.lit 100 1))
      < Float64.add (Float64.ofInt M2) (Float64.div (Float64.ofInt m2) (Float64.lit 100 1)) := by
  have hgap := version_sum_gap M1 m1 M2 m2 hm1 hm2 hlex
  have hlt1 := version_sum_lt M1 m1 hM1 hm1
  have hlt2 := version_sum_lt M2 m2 hM2 hm2
  have he1 := Float64.round_error _ 1120 (by decide) hlt1
  have he2 := Float64.round_error _ 1120 (by decide) hlt2
  have hM1b : M1 < 2 ^ 53 := lt_trans hM1 (by decide)
  have hM2b : M2 < 2 ^ 53 := lt_trans hM2 (by decide)
  unfold Float64.add
  rw [Float64.ofInt_exact M1 hM1b, Float64.ofInt_exact M2 hM2b]
  have hp : (2 : Nat) ^ (1120 - 53) = 2 ^ 1067 := rfl
  rw [hp] at he1 he2
  generalize (2 : Nat) ^ 1067 = B at hgap he1 he2
  omega

/-- The text `major.minor` alone is its own first match. -/
theorem FirstMatch_self (major minor : List Byte) (hM : IsDigits major) (hm : IsDigits minor) :
    FirstMatch (major ++ [46] ++ minor) major minor := by
  refine ⟨[], [], by simp, hM, hm, by simp, ?_⟩
  intro a b hab hb
  have := List.append_eq_nil.mp hab.symm
  exact absurd this.2 hb

theorem parseVersion_digits (major minor : List Byte) (hM : IsDigits major) (hm : IsDigits minor)
    (hMv : decimalValue major ≤ 2 ^ 63 - 1) (hmv : decimalValue minor ≤ 2 ^ 63 - 1) :
    parseVersion (major ++ [46] ++ minor) =
      Float64.add (Float64.ofInt (decimalValue major))
        (Float64.div (Float64.ofInt (decimalValue minor)) (Float64.lit 100 1)) := by
  rw [parseVersion_of_FirstMatch _ major minor (FirstMatch_self major minor hM hm),
    Sscanf_match major minor hM hm hMv hmv]

/-- C15, as the code has it.  For majors below `2^46` and minors below 100,
written as runs of digits, `parseVersion` is a faithful comparison key:
`parseVersion("M1.m1") < parseVersion("M2.m2")` exactly when `(M1, m1)`
precedes `(M2, m2)` in lexicographic order, and the two values are equal
exactly when `M1 = M2` and `m1 = m2`. -/
theorem C15_comparison_key (major1 minor1 major2 minor2 : List Byte)
    (hd1 : IsDigits major1) (hd2 : IsDigits minor1)
    (hd3 : IsDigits major2) (hd4 : IsDigits minor2)
    (hM1 : decimalValue major1 < 2 ^ 46) (hM2 : decimalValue major2 < 2 ^ 46)
    (hm1 : decimalValue minor1 < 100) (hm2 : decimalValue minor2 < 100) :
    (parseVersion (major1 ++ [46] ++ minor1) < parseVersion (major2 ++ [46] ++ minor2) ↔
        (decimalValue major1 < decimalValue major2 ∨
          (decimalValue major1 = decimalValue major2 ∧
            decimalValue minor1 < decimalValue minor2))) ∧
      (parseVersion (major1 ++ [46] ++ minor1) = parseVersion (major2 ++ [46] ++ minor2) ↔
        (decimalValue major1 = decimalValue major2 ∧
          decimalValue minor1 = decimalValue minor2)) := by
  have hb1 : decimalValue major1 ≤ 2 ^ 63 - 1 := le_of_lt (lt_trans hM1 (by decide))
  have hb2 : decimalValue major2 ≤ 2 ^ 63 - 1 := le_of_lt (lt_trans hM2 (by decide))
  have hb3 : decimalValue minor1 ≤ 2 ^ 63 - 1 := le_of_lt (lt_trans hm1 (by decide))
  have hb4 : decimalValue minor2 ≤ 2 ^ 63 - 1 := le_of_lt (lt_trans hm2 (by decide))
  rw [parseVersion_digits major1 minor1 hd1 hd2 hb1 hb3,
    parseVersion_digits major2 minor2 hd3 hd4 hb2 hb4]
  generalize decimalValue major1 = M1 at *
  generalize decimalValue major2 = M2 at *
  generalize decimalValue minor1 = m1 at *
  generalize decimalValue minor2 = m2 at *
  have hfwd := version_value_lt M1 m1 M2 m2 hM1 hM2 hm1 hm2
  have hbwd := version_value_lt M2 m2 M1 m1 hM2 hM1 hm2 hm1
  by_cases hlt : M1 < M2 ∨ (M1 = M2 ∧ m1 < m2)
  · have h := hfwd hlt
    refine ⟨⟨fun _ => hlt, fun _ => h⟩, ⟨fun he => absurd he (Nat.ne_of_lt h), ?_⟩⟩
    rintro ⟨rfl, rfl⟩
    omega
  · by_cases hgt : M2 < M1 ∨ (M2 = M1 ∧ m2 < m1)
    · have h := hbwd hgt
      refine ⟨⟨fun h2 => absurd h2 (Nat.lt_asymm h), fun h2 => absurd h2 hlt⟩,
        ⟨fun he => absurd he.symm (Nat.ne_of_lt h), ?_⟩⟩
      rintro ⟨rfl, rfl⟩
      omega
    · have hE : M1 = M2 ∧ m1 = m2 := by omega
      obtain ⟨rfl, rfl⟩ := hE
      exact ⟨⟨fun h2 => absurd h2 (Nat.lt_irrefl _), fun h2 => absurd h2 hlt⟩,
        ⟨fun _ => ⟨rfl, rfl⟩, fun _ => rfl⟩⟩

/-- C15 at concrete inputs: `7.9` is below `7.15`, `7.21` is below `8.0`,
`7.05` and `7.5` have the same value, as their majors and minors do, and at
the largest major below `2^46` the minors 98 and 99 and the next major are
still in order. -/
theorem C15_comparison_key_witness :
    ((parseVersion (ascii "7" ++ [46] ++ ascii "9")
          < parseVersion (ascii "7" ++ [46] ++ ascii "15") ↔
        (decimalValue (ascii "7") < decimalValue (ascii "7") ∨
          (decimalValue (ascii "7") = decimalValue (ascii "7") ∧
            decimalValue (ascii "9") < decimalValue (ascii "15")))) ∧
      (parseVersion (ascii "7" ++ [46] ++ ascii "9")
          = parseVersion (ascii "7" ++ [46] ++ ascii "15") ↔
        (decimalValue (ascii "7") = decimalValue (ascii "7") ∧
          decimalValue (ascii "9") = decimalValue (ascii "15")))) ∧
    parseVersion (ascii "7.9") < parseVersion (ascii "7.15") ∧
    parseVersion (ascii "7.21") < parseVersion (ascii "8.0") ∧
    parseVersion (ascii "7.05") = parseVersion (ascii "7.5") ∧
    decimalValue (ascii "70368744177663") = 2 ^ 46 - 1 ∧
    parseVersion (ascii "70368744177663.98") < parseVersion (ascii "70368744177663.99") ∧
    parseVersion (ascii "70368744177663.99") < parseVersion (ascii "70368744177664.0") :=
  ⟨C15_comparison_key (ascii "7") (ascii "9") (ascii "7") (ascii "15")
      ⟨by decide, by decide⟩ ⟨by decide, by decide⟩ ⟨by decide, by decide⟩
      ⟨by decide, by decide⟩ (by decide) (by decide) (by decide) (by decide),
    by decide, by decide, by decide, by decide, by decide, by decide⟩

/-- C15, the counterexample to the claim as written: with the major `2^46`
the minors 1 and 2 give the same `float64`, so two different versions with
minors below 100 have equal values and neither is below the other; with the
major `2^53` the minors 0 and 1 do. -/
theorem C15_large_major_counterexample :
    parseVersion (ascii "70368744177664.1") = parseVersion (ascii "70368744177664.2") ∧
    decimalValue (ascii "70368744177664") = 2 ^ 46 ∧
    decimalValue (ascii "1") ≠ decimalValue (ascii "2") ∧
    decimalValue (ascii "1") < 100 ∧ decimalValue (ascii "2") < 100 ∧
    parseVersion (ascii "9007199254740992.0") = parseVersion (ascii "9007199254740992.1") ∧
    decimalValue (ascii "9007199254740992") = 2 ^ 53 ∧
    decimalValue (ascii "0") ≠ decimalValue (ascii "1") := by
  decide

/-! ## The runtime check and the VETH check (C21, C22) -/

theorem checkContainerRuntime_flags (c : Checker) (config : List (List Byte × List Byte))
    (h : c.client.GetContainerConfig c.calls = .ok config) :
    (checkContainerRuntime c).1.Name = ascii "Container Runtime" ∧
    (checkContainerRuntime c).1.Warning = false ∧
    (checkContainerRuntime c).1.Passed =
      decide (mapLookup config (ascii "enabled") = some (ascii "true")) ∧
    (checkContainerRuntime c).1.Message =
      if mapLookup config (ascii "enabled") = some (ascii "true") then
        ascii "Container runtime is enabled"
      else ascii "Container runtime is not enabled. Run: /container/config/set enabled=yes" := by
  by_cases hen : mapLookup config (ascii "enabled") = some (ascii "true")
  · cases hreg : mapLookup config (ascii "registry-url") with
    | none => simp [checkContainerRuntime, h, hen, hreg]
    | some registry =>
      by_cases hr : registry = []
      · simp [checkContainerRuntime, h, hen, hreg, hr]
      · simp [checkContainerRuntime, h, hen, hreg, hr]
  · simp [checkContainerRuntime, h, hen]

/-- C21. When the runtime-config fetch succeeds, the runtime check is Pass
exactly when the map has the key `enabled` with the value `true`; for an absent
key or any other value it is Fail with the remediation message; it is never
Warn. -/
theorem C21_runtime_status (c : Checker) (config : List (List Byte × List Byte))
    (h : c.client.GetContainerConfig c.calls = .ok config) :
    (((checkContainerRuntime c).1.Passed = true ∧ (checkContainerRuntime c).1.Warning = false) ↔
      mapLookup config (ascii "enabled") = some (ascii "true")) ∧
    (mapLookup config (ascii "enabled") = some (ascii "true") →
      (checkContainerRuntime c).1.Message = ascii "Container runtime is enabled") ∧
    (mapLookup config (ascii "enabled") ≠ some (ascii "true") →
      (checkContainerRuntime c).1.Passed = false ∧ (checkContainerRuntime c).1.Warning = false ∧
      (checkContainerRuntime c).1.Message =
        ascii "Container runtime is not enabled. Run: /container/config/set enabled=yes") ∧
    (checkContainerRuntime c).1.Warning = false ∧
    (checkContainerRuntime c).1.Name = ascii "Container Runtime" := by
  obtain ⟨hN, hW, hP, hM⟩ := checkContainerRuntime_flags c config h
  refine ⟨⟨?_, ?_⟩, ?_, ?_, hW, hN⟩
  · rintro ⟨hp, _⟩
    rw [hP] at hp
    exact of_decide_eq_true hp
  · intro hen
    rw [hP]
    exact ⟨decide_eq_true hen, hW⟩
  · intro hen
    rw [hM, if_pos hen]
  · intro hen
    rw [hP, hM, if_neg hen]
    exact ⟨decide_eq_false hen, hW, rfl⟩

/-- C21 at concrete inputs: `enabled=true` passes; `false`, `yes`, `True`, the
empty value and a map without the key fail, none with a warning. -/
theorem C21_runtime_status_witness :
    (((checkContainerRuntime (NewChecker (constClient [] []
          [(ascii "enabled", ascii "true")] []))).1.Passed = true ∧
        (checkContainerRuntime (NewChecker (constClient [] []
          [(ascii "enabled", ascii "true")] []))).1.Warning = false) ↔
      mapLookup [(ascii "enabled", ascii "true")] (ascii "enabled") = some (ascii "true")) ∧
    (checkContainerRuntime (NewChecker (constClient [] []
      [(ascii "enabled", ascii "true")] []))).1.Passed = true ∧
    (∀ v ∈ [ascii "false", ascii "yes", ascii "True", ascii ""],
      (checkContainerRuntime (NewChecker (constClient [] []
        [(ascii "enabled", v)] []))).1.Passed = false ∧
      (checkContainerRuntime (NewChecker (constClient [] []
        [(ascii "enabled", v)] []))).1.Warning = false) ∧
    (checkContainerRuntime (NewChecker (constClient [] []
      [(ascii "registry-url", ascii "true")] []))).1.Passed = false :=
  ⟨(C21_runtime_status (NewChecker (constClient [] [] [(ascii "enabled", ascii "true")] []))
      [(ascii "enabled", ascii "true")] rfl).1,
    by decide, by decide, by decide⟩

/-- C22. When the interface fetch succeeds, the VETH check never fails: an
empty list gives Warn, a non-empty list gives Pass, and in both cases the
details are the one entry `veth_count` with the length of the list. -/
theorem C22_veth_status (c : Checker) (veths : List (List Byte))
    (h : c.client.GetVETHInterfaces c.calls = .ok veths) :
    (checkVETHConfiguration c).1.Passed = true ∧
    (veths = [] → (checkVETHConfiguration c).1.Warning = true) ∧
    (veths ≠ [] → (checkVETHConfiguration c).1.Warning = false) ∧
    (checkVETHConfiguration c).1.Details = [(ascii "veth_count", DetailValue.int veths.length)] ∧
    (checkVETHConfiguration c).1.Name = ascii "VETH Configuration" := by
  by_cases hv : veths = []
  · subst hv
    simp [checkVETHConfiguration, h]
  · have hlen : veths.length ≠ 0 := fun e => hv (List.length_eq_zero.mp e)
    simp [checkVETHConfiguration, h, hv, hlen]

/-- C22 at concrete inputs: no interface gives Warn with `veth_count` 0, two
interfaces give Pass with `veth_count` 2. -/
theorem C22_veth_status_witness :
    ((checkVETHConfiguration (NewChecker (constClient [] [] [] []))).1.Passed = true ∧
      (([] : List (List Byte)) = [] →
        (checkVETHConfiguration (NewChecker (constClient [] [] [] []))).1.Warning = true) ∧
      (([] : List (List Byte)) ≠ [] →
        (checkVETHConfiguration (NewChecker (constClient [] [] [] []))).1.Warning = false) ∧
      (checkVETHConfiguration (NewChecker (constClient [] [] [] []))).1.Details =
        [(ascii "veth_count", DetailValue.int ([] : List (List Byte)).length)] ∧
      (checkVETHConfiguration (NewChecker (constClient [] [] [] []))).1.Name =
        ascii "VETH Configuration") ∧
    (checkVETHConfiguration (NewChecker (constClient [] [] []
      [ascii "veth1", ascii "veth2"]))).1 =
      { Name := ascii "VETH Configuration", Passed := true, Warning := false,
        Message := ascii "Found 2 VETH interface(s)",
        Details := [(ascii "veth_count", DetailValue.int 2)] } :=
  ⟨C22_veth_status (NewChecker (constClient [] [] [] [])) [] rfl, by decide⟩

/-! ## The three statuses and the growth of the results (C23, C26) -/

/-- What a run of the loop adds to the results: at least one and at most as
many results as there are checks, none but the last a Fail, and the last a
Fail when the loop was left early. -/
theorem runLoop_results (cs : List (Checker → CheckResult × Checker))
    (hres : ∀ check ∈ cs, ∀ c : Checker, (check c).2.results = c.results) :
    ∀ c : Checker, ∃ new : List CheckResult,
      (runLoop cs c).results = c.results ++ new ∧ new.length ≤ cs.length ∧
      (cs ≠ [] → new ≠ []) ∧
      (∀ r ∈ new.dropLast, r.Passed = true ∨ r.Warning = true) ∧
      (new.length < cs.length →
        ∃ r, new.getLast? = some r ∧ r.Passed = false ∧ r.Warning = false) := by
  induction cs with
  | nil =>
    intro c
    exact ⟨[], by simp [runLoop], by simp, by simp, by simp, by simp⟩
  | cons check rest ih =>
    intro c
    have hres1 : (runCheck check c).2.results = c.results ++ [(check c).1] := by
      simp [runCheck, hres check (List.mem_cons_self _ _) c]
    by_cases hF : (check c).1.Passed = false ∧ (check c).1.Warning = false
    · refine ⟨[(check c).1], ?_, by simp, by simp, by simp, ?_⟩
      · rw [runLoop_stop check rest c hF.1 hF.2, hres1]
      · intro _
        exact ⟨(check c).1, rfl, hF.1, hF.2⟩
    · have hok := not_fail_or _ hF
      obtain ⟨new, h1, h2, _, h4, h5⟩ :=
        ih (fun ch hch => hres ch (List.mem_cons_of_mem _ hch)) (runCheck check c).2
      refine ⟨(check c).1 :: new, ?_, ?_, by simp, ?_, ?_⟩
      · rw [runLoop_continue check rest c hok, h1, hres1]
        simp
      · simp only [List.length_cons]
        omega
      · intro r hr
        cases new with
        | nil => simp at hr
        | cons x xs =>
          simp only [List.dropLast, List.mem_cons] at hr
          rcases hr with rfl | hr
          · exact hok
          · exact h4 r hr
      · intro hlt
        simp only [List.length_cons] at hlt
        obtain ⟨r, hr, hP, hW⟩ := h5 (by omega)
        cases new with
        | nil => simp at hr
        | cons x xs =>
          refine ⟨r, ?_, hP, hW⟩
          rw [List.getLast?_cons_cons]
          exact hr

theorem RunAllChecks_results (c : Checker) :
    ∃ new : List CheckResult,
      (RunAllChecks c).1 = c.results ++ new ∧ (RunAllChecks c).2.results = c.results ++ new ∧
      1 ≤ new.length ∧ new.length ≤ 5 ∧
      (∀ r ∈ new.dropLast, r.Passed = true ∨ r.Warning = true) ∧
      (new.length < 5 → ∃ r, new.getLast? = some r ∧ r.Passed = false ∧ r.Warning = false) := by
  obtain ⟨new, h1, h2, h3, h4, h5⟩ := runLoop_results checks checks_results c
  have hne : new ≠ [] := h3 (by simp [checks])
  refine ⟨new, h1, h1, ?_, h2, h4, h5⟩
  exact List.length_pos.mpr hne

/-- C23. Every result of each of the five checks, whatever the client answers,
has `(Passed, Warning)` equal to `(true, false)`, `(true, true)` or
`(false, false)` and never `(false, true)`; and the loop of `RunAllChecks` is
left after a result exactly when it is Fail: after a Fail no further check is
run, after any other result the remaining checks are, so in a run no result
but the last is Fail and a run of fewer than five results ends in a Fail. -/
theorem C23_three_statuses :
    (∀ check ∈ checks, ∀ c : Checker,
      ((check c).1.Passed = true ∧ (check c).1.Warning = false) ∨
      ((check c).1.Passed = true ∧ (check c).1.Warning = true) ∨
      ((check c).1.Passed = false ∧ (check c).1.Warning = false)) ∧
    (∀ check ∈ checks, ∀ c : Checker,
      ¬ ((check c).1.Passed = false ∧ (check c).1.Warning = true)) ∧
    (∀ (check : Checker → CheckResult × Checker)
        (rest : List (Checker → CheckResult × Checker)) (c : Checker),
      ((check c).1.Passed = false ∧ (check c).1.Warning = false →
        runLoop (check :: rest) c = (runCheck check c).2) ∧
      (¬ ((check c).1.Passed = false ∧ (check c).1.Warning = false) →
        runLoop (check :: rest) c = runLoop rest (runCheck check c).2)) ∧
    (∀ c : Checker, ∃ new : List CheckResult,
      (RunAllChecks c).1 = c.results ++ new ∧ 1 ≤ new.length ∧ new.length ≤ 5 ∧
      (∀ r ∈ new.dropLast, ¬ (r.Passed = false ∧ r.Warning = false)) ∧
      (new.length < 5 →
        ∃ r, new.getLast? = some r ∧ r.Passed = false ∧ r.Warning = false)) := by
  have hvalid := checks_valid
  refine ⟨?_, ?_, ?_, ?_⟩
  · intro check hc c
    have hv := hvalid check hc c
    cases hP : (check c).1.Passed <;> cases hW : (check c).1.Warning <;> simp_all
  · intro check hc c ⟨hP, hW⟩
    have hv := hvalid check hc c hW
    rw [hP] at hv
    exact Bool.noConfusion hv
  · intro check rest c
    exact ⟨fun hF => runLoop_stop check rest c hF.1 hF.2,
      fun hF => runLoop_continue check rest c (not_fail_or _ hF)⟩
  · intro c
    obtain ⟨new, h1, _, h3, h4, h5, h6⟩ := RunAllChecks_results c
    refine ⟨new, h1, h3, h4, ?_, h6⟩
    intro r hr ⟨hP, hW⟩
    rcases h5 r hr with h | h
    · rw [hP] at h
      exact Bool.noConfusion h
    · rw [hW] at h
      exact Bool.noConfusion h

theorem HasFailures_mono (c d : Checker) (hpre : c.results <+: d.results)
    (h : HasFailures c = true) : HasFailures d = true := by
  simp only [HasFailures, List.any_eq_true] at h ⊢
  obtain ⟨r, hr, hf⟩ := h
  exact ⟨r, hpre.subset hr, hf⟩

theorem results_grow_iterate (c : Checker) :
    ∀ n : Nat, c.results <+: ((fun c => (RunAllChecks c).2)^[n] c).results := by
  intro n
  induction n with
  | zero => exact List.prefix_refl _
  | succ n ih =>
    rw [Function.iterate_succ_apply']
    obtain ⟨new, _, h2, _⟩ := RunAllChecks_results ((fun c => (RunAllChecks c).2)^[n] c)
    exact ih.trans ⟨new, h2.symm⟩

/-- C26. `RunAllChecks` appends to the recorded results: for every engine
state the results recorded before the call are a proper prefix of the results
after it, which are the returned slice; so `HasFailures`, once true, is true
after the call and after any number of later calls. -/
theorem C26_results_append (c : Checker) :
    c.results <+: (RunAllChecks c).2.results ∧
    c.results <+: (RunAllChecks c).1 ∧
    (RunAllChecks c).1 = (RunAllChecks c).2.results ∧
    c.results.length < (RunAllChecks c).1.length ∧
    (HasFailures c = true → HasFailures (RunAllChecks c).2 = true) ∧
    (HasFailures c = true →
      ∀ n : Nat, HasFailures ((fun c => (RunAllChecks c).2)^[n] c) = true) := by
  obtain ⟨new, h1, h2, h3, _⟩ := RunAllChecks_results c
  have hpre : c.results <+: (RunAllChecks c).2.results := ⟨new, h2.symm⟩
  refine ⟨hpre, ⟨new, h1.symm⟩, rfl, ?_, ?_, ?_⟩
  · rw [h1, List.length_append]
    omega
  · exact HasFailures_mono c _ hpre
  · intro h n
    exact HasFailures_mono c _ (results_grow_iterate c n) h

/-- C26 at a concrete input: on the engine that has recorded the Fail of the
version `7.14`, `HasFailures` stays true after any number of runs, and two more
runs leave three results, the first one unchanged. -/
theorem C26_results_append_witness :
    (∀ n : Nat, HasFailures ((fun c => (RunAllChecks c).2)^[n]
      (RunAllChecks (NewChecker (constClient (ascii "7.14") (ascii "arm64") [] []))).2) = true) ∧
    ((fun c => (RunAllChecks c).2)^[2]
      (RunAllChecks (NewChecker (constClient (ascii "7.14") (ascii "arm64") [] []))).2).results.length
        = 3 ∧
    ((fun c => (RunAllChecks c).2)^[2]
      (RunAllChecks (NewChecker (constClient (ascii "7.14") (ascii "arm64") [] []))).2).results.take 1
        = (RunAllChecks (NewChecker (constClient (ascii "7.14") (ascii "arm64") [] []))).1 :=
  ⟨(C26_results_append
      (RunAllChecks (NewChecker (constClient (ascii "7.14") (ascii "arm64") [] []))).2).2.2.2.2.2
      (by decide),
    by decide, by decide⟩

/-! ## `Validate` and `deriveKey` (C24, C25) -/

/-- C24. `Validate` returns an error exactly when the host is empty, or the
username is empty, or the container name is empty, or the image and the file
are both empty, or the port is 7778 with TLS off, and `nil` in every other
case; the password has no part in the returned error. -/
theorem C24_Validate (c : Config) :
    ((Validate c).2.isSome = true ↔
      (c.RouterOS.Host = [] ∨ c.RouterOS.Username = [] ∨ c.Container.Name = [] ∨
        (c.Container.Image = [] ∧ c.Container.File = []) ∨
        (c.RouterOS.Port = 7778 ∧ c.RouterOS.UseTLS = false))) ∧
    ((Validate c).2 = none ↔
      ¬ (c.RouterOS.Host = [] ∨ c.RouterOS.Username = [] ∨ c.Container.Name = [] ∨
        (c.Container.Image = [] ∧ c.Container.File = []) ∨
        (c.RouterOS.Port = 7778 ∧ c.RouterOS.UseTLS = false))) ∧
    (∀ password : List Byte,
      (Validate { c with RouterOS := { c.RouterOS with Password := password } }).2 =
        (Validate c).2) := by
  refine ⟨?_, ?_, ?_⟩
  · unfold Validate
    split_ifs <;> simp_all
  · unfold Validate
    split_ifs <;> simp_all
  · intro password
    unfold Validate
    split_ifs <;> simp_all

/-- C24 at concrete inputs, the cases of `TestValidate`: port 7778 with TLS is
valid, the same with TLS off fails, an empty host fails, an empty username
fails; and a password of three bytes gives the warning and no error. -/
theorem C24_Validate_witness :
    (Validate sampleConfig).2 = none ∧
    (Validate { sampleConfig with RouterOS := { sampleConfig.RouterOS with UseTLS := false } }).2 =
      some (ascii "port 7778 requires TLS - set use_tls to true") ∧
    (Validate { sampleConfig with RouterOS := { sampleConfig.RouterOS with Host := [] } }).2 =
      some (ascii "routeros host is required") ∧
    (Validate { sampleConfig with RouterOS := { sampleConfig.RouterOS with Username := [] } }).2 =
      some (ascii "routeros username is required") ∧
    Validate { sampleConfig with RouterOS := { sampleConfig.RouterOS with Password := ascii "abc" } } =
      (ascii "Warning: RouterOS password is less than 12 characters\n", none) :=
  ⟨(C24_Validate sampleConfig).2.1.mpr (by decide), by decide, by decide, by decide, by decide⟩

/-- C25. `deriveKey(password, salt)` is `argon2.IDKey` applied to the password
and the salt with 3 passes, 65536 KiB (64 MiB) of memory, 4 threads and a key
length of 32; it returns a value for every argument, the same for the same
arguments, and that value is 32 bytes long when `argon2.IDKey` returns as many
bytes as it is asked for. -/
theorem C25_deriveKey (C : Crypto) (password salt : List Byte) :
    deriveKey C password salt = C.IDKey password salt 3 65536 4 32 ∧
    (argon2Time = 3 ∧ argon2Memory = 65536 ∧ argon2Memory = 64 * 1024 ∧ argon2Threads = 4 ∧
      argon2KeyLen = 32) ∧
    (∀ password2 salt2 : List Byte, password2 = password → salt2 = salt →
      deriveKey C password2 salt2 = deriveKey C password salt) ∧
    (C.KeyLen → (deriveKey C password salt).length = 32) := by
  refine ⟨rfl, ⟨rfl, rfl, rfl, rfl, rfl⟩, ?_, ?_⟩
  · intro password2 salt2 h1 h2
    rw [h1, h2]
  · intro hK
    exact hK _ _ _ _ _ _

/-! ## Encrypted save, then load (C27) -/

/-- A text without `${` holds no token, and `ExpandEnv` returns it unchanged. -/
theorem ExpandEnv_no_dollar_brace (env : Env) (s : List Byte)
    (h : ¬ [(36 : Byte), 123] <:+: s) : ExpandEnv env s = s := by
  apply ExpandEnv_no_match
  intro a t hs
  cases hm : matchToken t with
  | none => rfl
  | some p =>
    obtain ⟨c, after⟩ := p
    obtain ⟨_, _, ht⟩ := matchToken_spec t c after hm
    exfalso
    apply h
    rw [hs, ht]
    exact ⟨a, c ++ 125 :: after, by simp⟩

/-- `LoadConfig` on the envelope of a plaintext, with the password it was
sealed under: the JSON parser is handed the expansion of the plaintext. -/
theorem LoadConfig_envelope (C : Crypto) (hK : C.KeyLen) (hA : C.OpenInvertsSeal) (env : Env)
    (plaintext password salt nonce : List Byte) (hpw : password ≠ [])
    (hn : nonce.length = 12) (more : List (List Byte)) :
    LoadConfig C env (.ok (base64.EncodeToString salt ++ ascii ":" ++
        base64.EncodeToString (nonce ++ C.Seal (deriveKey C password salt) nonce plaintext [])))
      (password :: more) = .ok (ExpandEnv env plaintext) := by
  simp only [LoadConfig, IsEncrypted_envelope, if_true, hpw, if_false]
  rw [DecryptConfig_sealed C hK salt nonce _ password hn,
    hA (deriveKey C password salt) nonce plaintext (hK _ _ _ _ _ _) hn]

theorem SaveConfigEncrypted_eq (C : Crypto) (hK : C.KeyLen)
    (salt nonce rest plaintext password : List Byte)
    (hs : salt.length = 16) (hn : nonce.length = 12) :
    SaveConfigEncrypted C (salt ++ nonce ++ rest) (.ok plaintext) password
      = .ok (base64.EncodeToString salt ++ ascii ":" ++
          base64.EncodeToString (nonce ++ C.Seal (deriveKey C password salt) nonce plaintext [])) := by
  simp only [SaveConfigEncrypted, EncryptConfig_eq C hK salt nonce rest plaintext password hs hn]

/-- C27, as the code has it.  For every plaintext `p`, every non-empty password
and every environment, what `SaveConfigEncrypted` writes for `p` is what
`EncryptConfig` returns, and `LoadConfig` with the same password hands the JSON
parser `ExpandEnv(p)`: the plaintext with its tokens expanded, which is `p`
itself when `p` contains no `${`. -/
theorem C27_save_then_load (C : Crypto) (hK : C.KeyLen) (hA : C.OpenInvertsSeal) (env : Env)
    (plaintext password salt nonce rest : List Byte) (hpw : password ≠ [])
    (hs : salt.length = 16) (hn : nonce.length = 12) :
    ∃ written,
      EncryptConfig C (salt ++ nonce ++ rest) plaintext password = .ok written ∧
      SaveConfigEncrypted C (salt ++ nonce ++ rest) (.ok plaintext) password = .ok written ∧
      IsEncrypted written = true ∧
      DecryptConfig C written password = .ok plaintext ∧
      LoadConfig C env (.ok written) [password] = .ok (ExpandEnv env plaintext) ∧
      (¬ [(36 : Byte), 123] <:+: plaintext →
        LoadConfig C env (.ok written) [password] = .ok plaintext) := by
  refine ⟨_, EncryptConfig_eq C hK salt nonce rest plaintext password hs hn,
    SaveConfigEncrypted_eq C hK salt nonce rest plaintext password hs hn,
    IsEncrypted_envelope _ _, ?_,
    LoadConfig_envelope C hK hA env plaintext password salt nonce hpw hn [], ?_⟩
  · rw [DecryptConfig_sealed C hK salt nonce _ password hn,
      hA (deriveKey C password salt) nonce plaintext (hK _ _ _ _ _ _) hn]
  · intro hno
    rw [LoadConfig_envelope C hK hA env plaintext password salt nonce hpw hn [],
      ExpandEnv_no_dollar_brace env plaintext hno]

/-- C27 at a concrete input: the sample primitives, the plaintext
`{"host": "x"}`, the password `pw` and the environment `A=1`, `C=3`. -/
theorem C27_save_then_load_witness :
    ∃ written,
      EncryptConfig sampleCrypto (sampleSalt ++ sampleNonce ++ [])
        (ascii "\x7b\"host\": \"x\"\x7d") (ascii "pw") = .ok written ∧
      SaveConfigEncrypted sampleCrypto (sampleSalt ++ sampleNonce ++ [])
        (.ok (ascii "\x7b\"host\": \"x\"\x7d")) (ascii "pw") = .ok written ∧
      IsEncrypted written = true ∧
      DecryptConfig sampleCrypto written (ascii "pw") = .ok (ascii "\x7b\"host\": \"x\"\x7d") ∧
      LoadConfig sampleCrypto sampleEnv (.ok written) [ascii "pw"] =
        .ok (ExpandEnv sampleEnv (ascii "\x7b\"host\": \"x\"\x7d")) ∧
      (¬ [(36 : Byte), 123] <:+: ascii "\x7b\"host\": \"x\"\x7d" →
        LoadConfig sampleCrypto sampleEnv (.ok written) [ascii "pw"] =
          .ok (ascii "\x7b\"host\": \"x\"\x7d")) :=
  C27_save_then_load sampleCrypto sampleCrypto_KeyLen sampleCrypto_OpenInvertsSeal sampleEnv
    (ascii "\x7b\"host\": \"x\"\x7d") (ascii "pw") sampleSalt sampleNonce []
    (by decide) (by decide) (by decide)

/-- C27, the counterexample to the claim as written: with `A=1` in the
environment, the plaintext `{"a": "${A}"}` saved under the password `pw` and
loaded again reaches the JSON parser as `{"a": "1"}`. -/
theorem C27_expanded_counterexample :
    ∃ written,
      EncryptConfig sampleCrypto (sampleSalt ++ sampleNonce ++ [])
        (ascii "\x7b\"a\": \"$\x7bA\x7d\"\x7d") (ascii "pw") = .ok written ∧
      LoadConfig sampleCrypto sampleEnv (.ok written) [ascii "pw"] =
        .ok (ascii "\x7b\"a\": \"1\"\x7d") ∧
      LoadConfig sampleCrypto sampleEnv (.ok written) [ascii "pw"] ≠
        .ok (ascii "\x7b\"a\": \"$\x7bA\x7d\"\x7d") := by
  have hload := LoadConfig_envelope sampleCrypto sampleCrypto_KeyLen sampleCrypto_OpenInvertsSeal
    sampleEnv (ascii "\x7b\"a\": \"$\x7bA\x7d\"\x7d") (ascii "pw") sampleSalt sampleNonce
    (by decide) (by decide) []
  have hexp : ExpandEnv sampleEnv (ascii "\x7b\"a\": \"$\x7bA\x7d\"\x7d") =
      ascii "\x7b\"a\": \"1\"\x7d" := by decide
  refine ⟨_, EncryptConfig_eq sampleCrypto sampleCrypto_KeyLen sampleSalt sampleNonce []
    (ascii "\x7b\"a\": \"$\x7bA\x7d\"\x7d") (ascii "pw") (by decide) (by decide), ?_, ?_⟩
  · rw [hload, hexp]
  · rw [hload, hexp]
    decide

/-! ## The display of the results (C28) -/

theorem display_counts :
    ∀ (results : List CheckResult) (d : Display),
      (results.foldl displayResult d).failures =
        d.failures + results.countP (fun r => !r.Passed && !r.Warning) ∧
      (results.foldl displayResult d).warnings =
        d.warnings + results.countP (fun r => !r.Passed && r.Warning) := by
  intro results
  induction results with
  | nil => intro d; simp
  | cons r rest ih =>
    intro d
    rw [List.foldl_cons, (ih _).1, (ih _).2]
    cases hP : r.Passed <;> cases hW : r.Warning <;>
      simp [displayResult, hP, hW, List.countP_cons] <;> omega

theorem displayResults_failures (results : List CheckResult) :
    0 < (displayResults results).failures ↔
      ∃ r ∈ results, r.Passed = false ∧ r.Warning = false := by
  unfold displayResults
  rw [(display_counts results _).1]
  simp [List.countP_pos_iff]

theorem displayResults_warnings (results : List CheckResult) :
    0 < (displayResults results).warnings ↔
      ∃ r ∈ results, r.Passed = false ∧ r.Warning = true := by
  unfold displayResults
  rw [(display_counts results _).2]
  simp [List.countP_pos_iff]

/-- C28, the display evaluated.  The failure count of the display is positive
exactly when `HasFailures` is true.  Its warning count is positive exactly when
some result has `Passed = false` and `Warning = true`, which no result an
engine records has: the count is 0 after every run.  On the run against a
device with version 7.16, architecture arm64, the runtime enabled and no VETH
interface, `HasWarnings` is true, and the display prints four `PASS` lines, no
`WARN` line, counts no warning and reports that all checks passed. -/
theorem C28_display_of_warn :
    (∀ c : Checker, 0 < (displayResults c.results).failures ↔ HasFailures c = true) ∧
    (∀ results : List CheckResult, 0 < (displayResults results).warnings ↔
      ∃ r ∈ results, r.Passed = false ∧ r.Warning = true) ∧
    (∀ (client : RouterOSClient) (n : Nat),
      (displayResults ((fun c => (RunAllChecks c).2)^[n] (NewChecker client)).results).warnings
        = 0) ∧
    (HasWarnings (RunAllChecks (NewChecker (constClient (ascii "7.16") (ascii "arm64")
        [(ascii "enabled", ascii "true")] []))).2 = true ∧
      (RunAllChecks (NewChecker (constClient (ascii "7.16") (ascii "arm64")
        [(ascii "enabled", ascii "true")] []))).1.map (fun r => (r.Name, r.Passed, r.Warning)) =
        [(ascii "RouterOS Version", true, false), (ascii "Architecture", true, false),
          (ascii "Container Runtime", true, false), (ascii "VETH Configuration", true, true),
          (ascii "Resources", true, false)] ∧
      displayResults (RunAllChecks (NewChecker (constClient (ascii "7.16") (ascii "arm64")
        [(ascii "enabled", ascii "true")] []))).1 =
        { warnings := 0, failures := 0,
          printed :=
            [[226, 156, 147] ++ ascii " [PASS] RouterOS Version\n",
              [226, 156, 147] ++ ascii " [PASS] Architecture\n",
              [226, 156, 147] ++ ascii " [PASS] Container Runtime\n",
              [226, 156, 147] ++ ascii " [PASS] VETH Configuration\n",
              [226, 156, 147] ++ ascii " [PASS] Resources\n"] } ∧
      displaySummary (displayResults (RunAllChecks (NewChecker (constClient (ascii "7.16")
        (ascii "arm64") [(ascii "enabled", ascii "true")] []))).1) =
        ascii "Status: All checks passed " ++ [226, 156, 147, 10]) := by
  refine ⟨?_, displayResults_warnings, ?_, ?_⟩
  · intro c
    rw [displayResults_failures]
    simp [HasFailures, List.any_eq_true]
  · intro client n
    have h := displayResults_warnings
      ((fun c => (RunAllChecks c).2)^[n] (NewChecker client)).results
    rcases Nat.eq_zero_or_pos
      (displayResults ((fun c => (RunAllChecks c).2)^[n] (NewChecker client)).results).warnings
      with h0 | hpos
    · exact h0
    · obtain ⟨r, hr, hP, hW⟩ := h.mp hpos
      have hv := recorded_valid client n r hr hW
      rw [hP] at hv
      exact Bool.noConfusion hv
  · refine ⟨by decide, by decide, by decide, by decide⟩

/-! ## The shape probe and the envelope parser (C29) -/

/-- C29. For every byte sequence and every password, `IsEncrypted` is true
exactly when `DecryptConfig` does not fail with the invalid-format error or
with one of the two base64-decoding errors; `DecryptConfig` then succeeds, or
fails as too short, or fails as a decryption failure. -/
theorem C29_probe_agrees (C : Crypto) (hK : C.KeyLen) (d password : List Byte) :
    (IsEncrypted d = true ↔
      (DecryptConfig C d password ≠ .error .invalidFormat ∧
        (∀ e, DecryptConfig C d password ≠ .error (.decodingSalt e)) ∧
        (∀ e, DecryptConfig C d password ≠ .error (.decodingCiphertext e)))) ∧
    (IsEncrypted d = true →
      ((∃ p, DecryptConfig C d password = .ok p) ∨
        DecryptConfig C d password = .error .ciphertextTooShort ∨
        DecryptConfig C d password = .error .decrypting)) ∧
    (IsEncrypted d = false →
      (DecryptConfig C d password = .error .invalidFormat ∨
        (∃ e, DecryptConfig C d password = .error (.decodingSalt e)) ∨
        (∃ e, DecryptConfig C d password = .error (.decodingCiphertext e)))) := by
  unfold IsEncrypted DecryptConfig
  rcases hsp : splitString d 58 with _ | ⟨p0, _ | ⟨p1, _ | ⟨p2, rest⟩⟩⟩
  · simp
  · simp
  · cases h0 : base64.DecodeString p0 with
    | error e0 => simp [h0]
    | ok salt =>
      cases h1 : base64.DecodeString p1 with
      | error e1 => simp [h0, h1]
      | ok box =>
        simp only [h0, h1, New_deriveKey C hK password salt]
        by_cases hlen : box.length < NonceSize
        · simp [hlen]
        · cases hopen : C.Open (deriveKey C password salt) (box.take NonceSize)
            (box.drop NonceSize) [] with
          | none => simp [hlen, hopen]
          | some plaintext => simp [hlen, hopen]
  · simp

/-- C29 at concrete inputs: `YQ==:YQ==` has the shape and is too short to
decrypt; `{"host":"x"}` has not, and `DecryptConfig` reports it as a base64
error in the salt. -/
theorem C29_probe_agrees_witness :
    (IsEncrypted (ascii "YQ==:YQ==") = true →
      ((∃ p, DecryptConfig sampleCrypto (ascii "YQ==:YQ==") (ascii "pw") = .ok p) ∨
        DecryptConfig sampleCrypto (ascii "YQ==:YQ==") (ascii "pw") = .error .ciphertextTooShort ∨
        DecryptConfig sampleCrypto (ascii "YQ==:YQ==") (ascii "pw") = .error .decrypting)) ∧
    IsEncrypted (ascii "YQ==:YQ==") = true ∧
    DecryptConfig sampleCrypto (ascii "YQ==:YQ==") (ascii "pw") = .error .ciphertextTooShort ∧
    IsEncrypted (ascii "\x7b\"host\":\"x\"\x7d") = false ∧
    DecryptConfig sampleCrypto (ascii "\x7b\"host\":\"x\"\x7d") (ascii "pw") =
      .error (.decodingSalt 0) ∧
    IsEncrypted (ascii "plain") = false ∧
    DecryptConfig sampleCrypto (ascii "plain") (ascii "pw") = .error .invalidFormat :=
  ⟨(C29_probe_agrees sampleCrypto sampleCrypto_KeyLen (ascii "YQ==:YQ==") (ascii "pw")).2.1,
    by decide, by decide, by decide, by decide, by decide, by decide⟩

/-! ## `splitString` (C30) -/

theorem exists_first_sep (sep : Byte) :
    ∀ s : List Byte, sep ∈ s → ∃ a b : List Byte, s = a ++ sep :: b ∧ sep ∉ a := by
  intro s
  induction s with
  | nil => intro h; simp at h
  | cons x rest ih =>
    intro h
    by_cases hx : x = sep
    · exact ⟨[], rest, by simp [hx], by simp⟩
    · have hr : sep ∈ rest := by
        rcases List.mem_cons.mp h with h1 | h1
        · exact absurd h1.symm hx
        · exact h1
      obtain ⟨a, b, hab, ha⟩ := ih hr
      refine ⟨x :: a, b, by simp [hab], ?_⟩
      intro hmem
      rcases List.mem_cons.mp hmem with h1 | h1
      · exact hx h1.symm
      · exact ha h1

/-- C30. For every string and separator byte, `splitString` splits at the
first occurrence only: it returns `[s]` when the separator does not occur, and
otherwise `[a, b]` with `s = a ++ [sep] ++ b` and no separator in `a`; the
result has one or two parts, and joining them with the separator gives back
`s`. -/
theorem C30_splitString (s : List Byte) (sep : Byte) :
    (sep ∉ s → splitString s sep = [s]) ∧
    (sep ∈ s → ∃ a b : List Byte,
      splitString s sep = [a, b] ∧ s = a ++ [sep] ++ b ∧ sep ∉ a) ∧
    ((splitString s sep).length = 1 ∨ (splitString s sep).length = 2) ∧
    List.intercalate [sep] (splitString s sep) = s ∧
    splitString [] sep = [[]] ∧
    splitString (ascii "a:b:c") 58 = [ascii "a", ascii "b:c"] ∧
    splitString (ascii "hello:world") 58 = [ascii "hello", ascii "world"] ∧
    splitString (ascii "no-separator") 58 = [ascii "no-separator"] := by
  have hin : sep ∈ s → ∃ a b : List Byte,
      splitString s sep = [a, b] ∧ s = a ++ [sep] ++ b ∧ sep ∉ a := by
    intro h
    obtain ⟨a, b, hab, ha⟩ := exists_first_sep sep s h
    refine ⟨a, b, ?_, by simp [hab], ha⟩
    rw [hab]
    exact splitString_first a b sep ha
  refine ⟨splitString_no_sep s sep, hin, ?_, ?_, rfl, by decide, by decide, by decide⟩
  · by_cases h : sep ∈ s
    · obtain ⟨a, b, hsp, _, _⟩ := hin h
      rw [hsp]
      exact Or.inr rfl
    · rw [splitString_no_sep s sep h]
      exact Or.inl rfl
  · by_cases h : sep ∈ s
    · obtain ⟨a, b, hsp, hs, _⟩ := hin h
      rw [hsp, hs]
      simp [List.intercalate]
    · rw [splitString_no_sep s sep h]
      simp [List.intercalate]


end MikroClaw
